import Mathlib

/-!
Verification of the `exclusive` concurrency library (array-slot ticket mutex,
bounded CLH queue mutex, free-node recycling queue).

The C++ sources (`include/exclusive/mutex.hpp`, `include/exclusive/exclusive.hpp`)
are shallowly embedded as follows.

* Atomic integers are modelled as `Nat` with explicit reduction modulo `2 ^ w`
  at the operations where C++ unsigned arithmetic wraps
  (`std::atomic_size_t` fetch-add: `2 ^ 64`; `std::atomic_uint` fetch-add:
  `2 ^ 32`).
* The free-node queue (`clh_mutex::queue`) is modelled twice: once at pointer
  granularity (the `next` fields, `head_`, `tail_`) for the sentinel behaviour
  of `try_pop`, and once, inside the concurrent CLH model, at the granularity
  of whole linearized queue operations (each `try_pop`/`push` call is one
  atomic transition realising the linked-list semantics of the source).
* Each mutex is modelled as an interleaving transition system: a global state
  plus one program counter per thread, with one transition per atomic action
  of the source code, under sequentially consistent interleaving (the
  release/acquire annotations of the source are subsumed by sequential
  consistency; program order of the individual stores and loads is kept
  exactly as in the source).
* Ghost fields (never read by any transition) record event counts and the
  logical CLH waiting chain; they only serve to state invariants.
-/

namespace exclusive

/-- Model of `std::errc` restricted to the codes this library can produce or
compare against. -/
inductive errc
  | device_or_resource_busy
  | timed_out
  deriving DecidableEq, Repr

/-- `error_on_slots_exceeded` from `mutex.hpp`:
`std::system_error{std::make_error_code(std::errc::device_or_resource_busy)}`.
We model a `std::system_error` by the error code it carries. -/
def error_on_slots_exceeded : errc := errc.device_or_resource_busy

/-- `std::size_t(-1)`, the largest value of the 64-bit `std::size_t`. -/
def SIZE_MAX : Nat := 2 ^ 64 - 1

namespace array_mutex

/-- The compile-time admission check of `array_mutex<N>`:
`static_assert((std::size_t(-1) % N) == (N - 1U))` (`mutex.hpp` line 37,
`exclusive.hpp` line 30). -/
def size_check (N : Nat) : Prop := SIZE_MAX % N = N - 1

instance size_check_dec (N : Nat) : Decidable (size_check N) := by
  unfold size_check; infer_instance

end array_mutex

/-- Helper: if `n` divides `M` and both are positive then `M - 1` leaves
remainder `n - 1` modulo `n`. -/
theorem pred_mod_of_dvd (n M : Nat) (hn : 0 < n) (hM : 0 < M) (h : n ∣ M) :
    (M - 1) % n = n - 1 := by
  obtain ⟨q, rfl⟩ := h
  have hq : 0 < q := by
    rcases Nat.eq_zero_or_pos q with h0 | h0
    · subst h0; simp at hM
    · exact h0
  have hsucc : n * q = n * (q - 1) + n := by
    have := Nat.mul_succ n (q - 1)
    have hq1 : q - 1 + 1 = q := Nat.succ_pred_eq_of_pos hq
    calc n * q = n * (q - 1 + 1) := by rw [hq1]
    _ = n * (q - 1) + n := Nat.mul_succ n (q - 1)
  have key : n * q - 1 = n - 1 + (q - 1) * n := by
    rw [hsucc, Nat.mul_comm (q - 1) n]
    omega
  rw [key, Nat.add_mul_mod_self_right, Nat.mod_eq_of_lt (by omega)]

namespace queue

/-- Pointer-level state of the free-node queue `clh_mutex::queue` over a pool
of `M` nodes: the intrusive `next` field of every node, and the `head_` and
`tail_` pointers.  (`pred` and `locked` are irrelevant to the queue itself.) -/
structure QState (M : Nat) where
  next : Fin M → Option (Fin M)
  head : Fin M
  tl : Fin M

/-- `queue::try_pop` (`mutex.hpp` lines 181–204): load `head_`; load
`head->next`; if null give up returning `nullptr`, otherwise CAS-advance
`head_` to `next` and return the old head.  The CAS retry loop is linearized
at its successful iteration. -/
def try_pop {M : Nat} (s : QState M) : Option (Fin M) × QState M :=
  match s.next s.head with
  | none => (none, s)
  | some nxt => (some s.head, { s with head := nxt })

/-- `queue::push` (`mutex.hpp` lines 163–179): store `new_tail->next = null`,
CAS-swing `tail_` to `new_tail` (uncontested, hence modelled as a plain swing),
then store `old_tail->next = new_tail`.  The two stores are performed in the
program order of the source. -/
def push {M : Nat} (s : QState M) (n : Fin M) : QState M :=
  { s with
    next := Function.update (Function.update s.next n none) s.tl (some n)
    tl := n }

/-- The `next` pointers realise `l` as a chain: consecutive elements are
linked and the last element's `next` is null. -/
def chainOf {M : Nat} (nf : Fin M → Option (Fin M)) : List (Fin M) → Prop
  | [] => True
  | [a] => nf a = none
  | a :: b :: l => nf a = some b ∧ chainOf nf (b :: l)

/-- The queue state represents the (nonempty, duplicate-free) list `l` of free
nodes, `head_` at the front and `tail_` at the back. -/
def models {M : Nat} (s : QState M) (l : List (Fin M)) : Prop :=
  l ≠ [] ∧ l.head? = some s.head ∧
    l.getLast? = some s.tl ∧ chainOf s.next l ∧ l.Nodup

/-- Abstract effect of one queue operation on the list of free nodes:
`try_pop` removes the front when at least two nodes are present (and does
nothing on a singleton, per the null-`next` check), `push` appends. -/
inductive QOp (M : Nat)
  | pop
  | push (n : Fin M)

/-- Run one abstract operation. -/
def runOp {M : Nat} (l : List (Fin M)) : QOp M → List (Fin M)
  | QOp.pop => match l with
    | _ :: b :: t => b :: t
    | l => l
  | QOp.push n => l ++ [n]

/-- Run a sequence of abstract operations. -/
def runOps {M : Nat} (l : List (Fin M)) : List (QOp M) → List (Fin M)
  | [] => l
  | op :: ops => runOps (runOp l op) ops

/-- Abstract queue runs never empty the queue. -/
theorem runOps_ne_nil {M : Nat} (l : List (Fin M)) (ops : List (QOp M))
    (h : l ≠ []) : runOps l ops ≠ [] := by
  induction ops generalizing l with
  | nil => exact h
  | cons op ops ih =>
    apply ih
    cases op with
    | pop =>
      match l, h with
      | [a], _ => simp [runOp]
      | a :: b :: t, _ => simp [runOp]
    | push n =>
      simp [runOp]

/-- `try_pop` on a queue holding exactly one node returns `nullptr` and leaves
the state unchanged: the single node's `next` is null. -/
theorem try_pop_singleton {M : Nat} (s : QState M) (x : Fin M)
    (h : models s [x]) : try_pop s = (none, s) := by
  obtain ⟨-, hh, -, hc, -⟩ := h
  simp only [List.head?, Option.some.injEq] at hh
  unfold chainOf at hc
  unfold try_pop
  rw [← hh, hc]

/-- `try_pop` on a queue holding at least two nodes pops the head. -/
theorem try_pop_cons {M : Nat} (s : QState M) (a b : Fin M) (t : List (Fin M))
    (h : models s (a :: b :: t)) :
    try_pop s = (some a, { s with head := b }) ∧
      models { s with head := b } (b :: t) := by
  obtain ⟨-, hh, hl, hc, hnd⟩ := h
  simp only [List.head?, Option.some.injEq] at hh
  obtain ⟨hab, hrest⟩ := hc
  constructor
  · unfold try_pop
    rw [← hh, hab, hh]
  · refine ⟨by simp, rfl, ?_, hrest, hnd.of_cons⟩
    rw [← hl]
    simp [List.getLast?_cons_cons]

/-- Auxiliary: a chain is insensitive to `next` values of nodes outside it. -/
theorem chainOf_congr {M : Nat} (nf nf' : Fin M → Option (Fin M))
    (l : List (Fin M)) (h : ∀ x ∈ l, nf' x = nf x) :
    chainOf nf l → chainOf nf' l := by
  induction l with
  | nil => intro; trivial
  | cons a t ih =>
    cases t with
    | nil =>
      intro hc
      unfold chainOf at hc ⊢
      rw [h a (by simp)]; exact hc
    | cons b t' =>
      intro hc
      obtain ⟨h1, h2⟩ := hc
      exact ⟨by rw [h a (by simp)]; exact h1,
        ih (fun x hx => h x (by simp [hx])) h2⟩

/-- Auxiliary: rewriting the last link and adding the terminal node extends a
duplicate-free chain by one node. -/
theorem chainOf_update_append {M : Nat} (nf : Fin M → Option (Fin M))
    (l : List (Fin M)) (hne : l ≠ []) (n : Fin M)
    (hc : chainOf nf l) (hnd : l.Nodup) (hn : n ∉ l) :
    chainOf (Function.update (Function.update nf n none) (l.getLast hne)
      (some n)) (l ++ [n]) := by
  induction l with
  | nil => exact absurd rfl hne
  | cons a t ih =>
    cases t with
    | nil =>
      refine ⟨?_, ?_⟩
      · simp only [List.getLast, Function.update_same]
      · show Function.update (Function.update nf n none) a (some n) n = none
        have hna : n ≠ a := by simp at hn; exact hn
        rw [Function.update_noteq hna, Function.update_same]
    | cons b t' =>
      have hlast_eq : (a :: b :: t').getLast (by simp) =
          (b :: t').getLast (by simp) := rfl
      have ha_nt : a ∉ b :: t' := by
        simp only [List.nodup_cons] at hnd
        exact hnd.1
      have hlast_ne_a : (b :: t').getLast (by simp) ≠ a := by
        intro he
        exact ha_nt (he ▸ List.getLast_mem (by simp))
      have hn_ne_a : n ≠ a := by
        intro he; exact hn (by simp [he])
      refine ⟨?_, ?_⟩
      · rw [hlast_eq, Function.update_noteq (Ne.symm hlast_ne_a),
          Function.update_noteq (Ne.symm hn_ne_a)]
        exact hc.1
      · have := ih (by simp) hc.2 hnd.of_cons (fun hm => hn (by simp [hm]))
        rw [hlast_eq]
        exact this

/-- `push` appends a fresh node at the back of the represented list. -/
theorem push_models {M : Nat} (s : QState M) (l : List (Fin M)) (n : Fin M)
    (h : models s l) (hn : n ∉ l) : models (push s n) (l ++ [n]) := by
  obtain ⟨hne, hh, hl, hc, hnd⟩ := h
  have hne' : l ++ [n] ≠ [] := by simp
  refine ⟨hne', ?_, ?_, ?_, ?_⟩
  · show (l ++ [n]).head? = some (push s n).head
    cases l with
    | nil => exact absurd rfl hne
    | cons a t => exact hh
  · show (l ++ [n]).getLast? = some (push s n).tl
    simp [push, List.getLast?_concat]
  · show chainOf (Function.update (Function.update s.next n none) s.tl
      (some n)) (l ++ [n])
    have hgl : s.tl = l.getLast hne := by
      have := List.getLast?_eq_getLast l hne
      rw [this] at hl
      exact (Option.some.injEq _ _ ▸ hl).symm
    rw [hgl]
    exact chainOf_update_append s.next l hne n hc hnd hn
  · simp [List.nodup_append, hnd, hn]

end queue

/-- C9: the construction-time check of `array_mutex<N>` accepts `N` exactly
when `N` is a power of two.  `N` ranges over the nonzero values of the 64-bit
`std::size_t` (for `N = 0` the C++ check is ill-formed). -/
theorem c9_size_check_iff_pow2 (N : Nat) (h1 : 0 < N) (h2 : N < 2 ^ 64) :
    array_mutex.size_check N ↔ ∃ k, N = 2 ^ k := by
  constructor
  · intro hc
    unfold array_mutex.size_check SIZE_MAX at hc
    rcases Nat.lt_or_ge N 2 with hN2 | hN2
    · have : N = 1 := by omega
      exact ⟨0, by omega⟩
    · have hdvd : N ∣ 2 ^ 64 := by
        have h64 : (2 : Nat) ^ 64 = (2 ^ 64 - 1) + 1 := by norm_num
        have hmod : (2 ^ 64 - 1 + 1) % N = ((2 ^ 64 - 1) % N + 1 % N) % N :=
          Nat.add_mod _ _ _
        have h1N : 1 % N = 1 := Nat.mod_eq_of_lt hN2
        rw [hc, h1N] at hmod
        have hsum : N - 1 + 1 = N := by omega
        rw [hsum, Nat.mod_self] at hmod
        exact Nat.dvd_iff_mod_eq_zero.mpr (h64 ▸ hmod)
      obtain ⟨k, -, hk⟩ := (Nat.dvd_prime_pow Nat.prime_two).mp hdvd
      exact ⟨k, hk⟩
  · rintro ⟨k, rfl⟩
    have hk64 : k < 64 := by
      by_contra hge
      push_neg at hge
      exact absurd h2 (not_lt.mpr (Nat.pow_le_pow_right (by norm_num) hge))
    unfold array_mutex.size_check SIZE_MAX
    exact pred_mod_of_dvd (2 ^ k) (2 ^ 64) h1 (by positivity)
      (pow_dvd_pow 2 (le_of_lt hk64))

/-- Witness for C9 at the concrete slot count `N = 4`. -/
theorem c9_size_check_iff_pow2_witness :
    array_mutex.size_check 4 ↔ ∃ k, (4 : Nat) = 2 ^ k :=
  c9_size_check_iff_pow2 4 (by norm_num) (by norm_num)

/-- C10: the free-node queue of `clh_mutex<N>` keeps a sentinel.  `try_pop`
returns null on any queue holding exactly one node; consequently any sequence
of queue operations starting from the full `N + 2`-node pool leaves at least
one node in the queue, so at most `N + 1` nodes are ever checked out
simultaneously. -/
theorem c10_queue_sentinel (N : Nat) (s : queue.QState (N + 2)) (x : Fin (N + 2))
    (ops : List (queue.QOp (N + 2))) (h : queue.models s [x]) :
    (queue.try_pop s).1 = none ∧
      queue.runOps (List.finRange (N + 2)) ops ≠ [] ∧
      (N + 2) - (queue.runOps (List.finRange (N + 2)) ops).length ≤ N + 1 := by
  refine ⟨?_, ?_, ?_⟩
  · rw [queue.try_pop_singleton s x h]
  · exact queue.runOps_ne_nil _ _ (by simp [← List.length_pos_iff_ne_nil])
  · have hne := queue.runOps_ne_nil (List.finRange (N + 2)) ops
      (by simp [← List.length_pos_iff_ne_nil])
    have : 0 < (queue.runOps (List.finRange (N + 2)) ops).length :=
      List.length_pos_of_ne_nil hne
    omega

/-- Witness for C10: the one-node queue over the 3-node pool of
`clh_mutex<1>`, with a pop as the operation sequence. -/
theorem c10_queue_sentinel_witness :
    (queue.try_pop (⟨fun _ => none, 0, 0⟩ : queue.QState 3)).1 = none ∧
      queue.runOps (List.finRange 3) [queue.QOp.pop] ≠ [] ∧
      3 - (queue.runOps (List.finRange 3) [queue.QOp.pop]).length ≤ 2 :=
  c10_queue_sentinel 1 ⟨fun _ => none, 0, 0⟩ 0 [queue.QOp.pop]
    ⟨by simp, rfl, rfl, rfl, by simp⟩

namespace array_mutex

/-- Program counter of one thread interacting with an `array_mutex<N>`: one
state per atomic action of `lock` (`mutex.hpp` lines 79–89) and `unlock`
(lines 92–99). -/
inductive APc
  | idle
  | spinning (slot : Nat)
  | tasPending (slot : Nat)
  | wrActive (slot : Nat)
  | cs (slot : Nat)
  | u1 (slot : Nat)
  | u2 (slot : Nat)
  | u3 (slot : Nat)
  | errored (e : errc)
  deriving DecidableEq, Repr

/-- Global state of an `array_mutex<N>` together with the program counters of
all client threads.  `enters`/`clears` are ghost counters of successful
test-and-sets and of `in_use` clears (the constructor's arming of slot 0
counts as the first clear); no transition reads them. -/
structure AState (N : Nat) where
  tl : Nat
  value : Nat → Bool
  inUse : Nat → Bool
  active : Nat
  pcs : Nat → APc
  enters : Nat
  clears : Nat

/-- The freshly constructed `array_mutex<N>` (`mutex.hpp` lines 54–67):
ticket counter 0, all `in_use` cleared, `value` true exactly on slot 0,
all threads idle. -/
def AState.init (N : Nat) : AState N :=
  { tl := 0
    value := fun sl => sl == 0
    inUse := fun _ => false
    active := 0
    pcs := fun _ => APc.idle
    enters := 0
    clears := 1 }

/-- One interleaved atomic action of some thread `t` against the array mutex.
The constructors follow the source line by line:
ticket fetch-add (line 81), the spin load of `value` (line 82, with an
explicit stutter for an unsuccessful load), the `in_use` test-and-set
(line 84) with its throwing branch (line 85), the write of `active_`
(line 88), and the three stores of `unlock` (lines 94–98) preceded by the
read of `active_` (line 94). -/
inductive AStep (N : Nat) : AState N → AState N → Prop
  | ticket (s : AState N) (t : Nat) (h : s.pcs t = APc.idle) :
      AStep N s { s with
        tl := (s.tl + 1) % 2 ^ 64
        pcs := Function.update s.pcs t (APc.spinning (s.tl % N)) }
  | spinAgain (s : AState N) (t : Nat) (slot : Nat)
      (h : s.pcs t = APc.spinning slot) (hv : s.value slot = false) :
      AStep N s s
  | spinRead (s : AState N) (t : Nat) (slot : Nat)
      (h : s.pcs t = APc.spinning slot) (hv : s.value slot = true) :
      AStep N s { s with pcs := Function.update s.pcs t (APc.tasPending slot) }
  | tasOk (s : AState N) (t : Nat) (slot : Nat)
      (h : s.pcs t = APc.tasPending slot) (hu : s.inUse slot = false) :
      AStep N s { s with
        inUse := Function.update s.inUse slot true
        enters := s.enters + 1
        pcs := Function.update s.pcs t (APc.wrActive slot) }
  | tasFail (s : AState N) (t : Nat) (slot : Nat)
      (h : s.pcs t = APc.tasPending slot) (hu : s.inUse slot = true) :
      AStep N s { s with
        pcs := Function.update s.pcs t (APc.errored error_on_slots_exceeded) }
  | enterCs (s : AState N) (t : Nat) (slot : Nat)
      (h : s.pcs t = APc.wrActive slot) :
      AStep N s { s with
        active := slot
        pcs := Function.update s.pcs t (APc.cs slot) }
  | unlockRead (s : AState N) (t : Nat) (slot : Nat)
      (h : s.pcs t = APc.cs slot) :
      AStep N s { s with pcs := Function.update s.pcs t (APc.u1 s.active) }
  | unlockClearValue (s : AState N) (t : Nat) (slot : Nat)
      (h : s.pcs t = APc.u1 slot) :
      AStep N s { s with
        value := Function.update s.value slot false
        pcs := Function.update s.pcs t (APc.u2 slot) }
  | unlockClearInUse (s : AState N) (t : Nat) (slot : Nat)
      (h : s.pcs t = APc.u2 slot) :
      AStep N s { s with
        inUse := Function.update s.inUse ((slot + 1) % N) false
        clears := s.clears + 1
        pcs := Function.update s.pcs t (APc.u3 slot) }
  | unlockSetValue (s : AState N) (t : Nat) (slot : Nat)
      (h : s.pcs t = APc.u3 slot) :
      AStep N s { s with
        value := Function.update s.value ((slot + 1) % N) true
        pcs := Function.update s.pcs t APc.idle }

/-- Reachability from the freshly constructed mutex. -/
def AReach (N : Nat) (s : AState N) : Prop :=
  Relation.ReflTransGen (AStep N) (AState.init N) s

/-- The slot of a thread that has successfully test-and-set its slot and not
yet executed the `in_use` clear of its unlock. -/
def APc.holderSlot : APc → Option Nat
  | APc.wrActive sl => some sl
  | APc.cs sl => some sl
  | APc.u1 sl => some sl
  | APc.u2 sl => some sl
  | _ => none

/-- A thread holds the lock: `lock()` has returned and `unlock()` has not
been entered. -/
def APc.holding : APc → Bool
  | APc.cs _ => true
  | _ => false

/-- Inductive invariant of the array mutex transition system. -/
structure AInv (N : Nat) (s : AState N) : Prop where
  h_ce : s.enters ≤ s.clears ∧ s.clears ≤ s.enters + 1 ∧ 1 ≤ s.clears
  h_token : ∀ t sl, (s.pcs t).holderSlot = some sl →
    s.clears = s.enters ∧ 1 ≤ s.enters ∧ sl = (s.enters - 1) % N
  h_uniq : ∀ t t' sl sl', (s.pcs t).holderSlot = some sl →
    (s.pcs t').holderSlot = some sl' → t = t'
  h_active : ∀ t sl, s.pcs t = APc.cs sl → s.active = sl
  h_inuse : ∀ sl, sl < N → (s.inUse sl = false ↔
    (s.clears ≤ sl ∨ (s.clears = s.enters + 1 ∧ sl = (s.clears - 1) % N)))
  h_value : ∀ sl, sl < N → s.value sl = true → sl < s.clears
  h_spin : ∀ t sl, s.pcs t = APc.spinning sl → sl < N
  h_tas : ∀ t sl, s.pcs t = APc.tasPending sl → sl < s.clears ∧ sl < N
  h_u3 : ∀ t sl, s.pcs t = APc.u3 sl → (sl + 1) % N < s.clears

/-- The invariant holds initially. -/
theorem AInv_init (N : Nat) (hN : 0 < N) : AInv N (AState.init N) := by
  refine ⟨?_, ?_, ?_, ?_, ?_, ?_, ?_, ?_, ?_⟩
  · exact ⟨by simp [AState.init], by simp [AState.init], by simp [AState.init]⟩
  · intro t sl h; exact absurd h (by simp [AState.init, APc.holderSlot])
  · intro t t' sl sl' h h'
    exact absurd h (by simp [AState.init, APc.holderSlot])
  · intro t sl h; exact absurd h (by simp [AState.init])
  · intro sl hsl
    simp only [AState.init]
    constructor
    · intro
      rcases Nat.eq_zero_or_pos sl with h0 | h0
      · exact Or.inr ⟨trivial, by simp [h0]⟩
      · exact Or.inl h0
    · intro; trivial
  · intro sl hsl hv
    simp only [AState.init, beq_iff_eq] at hv
    simp [AState.init]
    omega
  · intro t sl h; exact absurd h (by simp [AState.init])
  · intro t sl h; exact absurd h (by simp [AState.init])
  · intro t sl h; exact absurd h (by simp [AState.init])

/-- The invariant is preserved by every step. -/
theorem AInv_step (N : Nat) (hN : 0 < N) (s s' : AState N)
    (hstep : AStep N s s') (hinv : AInv N s) : AInv N s' := by
  obtain ⟨hce, htoken, huniq, hactive, hinuse, hvalue, hspin, htas, hu3⟩ := hinv
  cases hstep with
  | ticket t h =>
    refine ⟨hce, ?_, ?_, ?_, hinuse, hvalue, ?_, ?_, ?_⟩
    · intro u sl h'
      dsimp only at h'
      by_cases hut : u = t
      · rw [hut, Function.update_same] at h'
        exact absurd h' (by simp [APc.holderSlot])
      · rw [Function.update_noteq hut] at h'; exact htoken u sl h'
    · intro u u' sl sl' h1 h2
      dsimp only at h1 h2
      by_cases hut : u = t
      · rw [hut, Function.update_same] at h1
        exact absurd h1 (by simp [APc.holderSlot])
      · rw [Function.update_noteq hut] at h1
        by_cases hut' : u' = t
        · rw [hut', Function.update_same] at h2
          exact absurd h2 (by simp [APc.holderSlot])
        · rw [Function.update_noteq hut'] at h2; exact huniq u u' sl sl' h1 h2
    · intro u sl h'
      dsimp only at h'
      by_cases hut : u = t
      · rw [hut, Function.update_same] at h'; exact absurd h' (by simp)
      · rw [Function.update_noteq hut] at h'; exact hactive u sl h'
    · intro u sl h'
      dsimp only at h'
      by_cases hut : u = t
      · rw [hut, Function.update_same] at h'
        cases h'
        exact Nat.mod_lt _ hN
      · rw [Function.update_noteq hut] at h'; exact hspin u sl h'
    · intro u sl h'
      dsimp only at h'
      by_cases hut : u = t
      · rw [hut, Function.update_same] at h'; exact absurd h' (by simp)
      · rw [Function.update_noteq hut] at h'; exact htas u sl h'
    · intro u sl h'
      dsimp only at h'
      by_cases hut : u = t
      · rw [hut, Function.update_same] at h'; exact absurd h' (by simp)
      · rw [Function.update_noteq hut] at h'; exact hu3 u sl h'
  | spinAgain t slot h hv =>
    exact ⟨hce, htoken, huniq, hactive, hinuse, hvalue, hspin, htas, hu3⟩
  | spinRead t slot h hv =>
    refine ⟨hce, ?_, ?_, ?_, hinuse, hvalue, ?_, ?_, ?_⟩
    · intro u sl h'
      dsimp only at h'
      by_cases hut : u = t
      · rw [hut, Function.update_same] at h'
        exact absurd h' (by simp [APc.holderSlot])
      · rw [Function.update_noteq hut] at h'; exact htoken u sl h'
    · intro u u' sl sl' h1 h2
      dsimp only at h1 h2
      by_cases hut : u = t
      · rw [hut, Function.update_same] at h1
        exact absurd h1 (by simp [APc.holderSlot])
      · rw [Function.update_noteq hut] at h1
        by_cases hut' : u' = t
        · rw [hut', Function.update_same] at h2
          exact absurd h2 (by simp [APc.holderSlot])
        · rw [Function.update_noteq hut'] at h2; exact huniq u u' sl sl' h1 h2
    · intro u sl h'
      dsimp only at h'
      by_cases hut : u = t
      · rw [hut, Function.update_same] at h'; exact absurd h' (by simp)
      · rw [Function.update_noteq hut] at h'; exact hactive u sl h'
    · intro u sl h'
      dsimp only at h'
      by_cases hut : u = t
      · rw [hut, Function.update_same] at h'; exact absurd h' (by simp)
      · rw [Function.update_noteq hut] at h'; exact hspin u sl h'
    · intro u sl h'
      dsimp only at h'
      by_cases hut : u = t
      · rw [hut, Function.update_same] at h'
        cases h'
        exact ⟨hvalue slot (hspin t slot h) hv, hspin t slot h⟩
      · rw [Function.update_noteq hut] at h'; exact htas u sl h'
    · intro u sl h'
      dsimp only at h'
      by_cases hut : u = t
      · rw [hut, Function.update_same] at h'; exact absurd h' (by simp)
      · rw [Function.update_noteq hut] at h'; exact hu3 u sl h'
  | tasOk t slot h hu =>
    obtain ⟨hsltC, hsltN⟩ := htas t slot h
    have hopen : s.clears = s.enters + 1 ∧ slot = (s.clears - 1) % N := by
      rcases (hinuse slot hsltN).mp hu with hle | hopen
      · omega
      · exact hopen
    refine ⟨?_, ?_, ?_, ?_, ?_, hvalue, ?_, ?_, ?_⟩
    · show s.enters + 1 ≤ s.clears ∧ s.clears ≤ (s.enters + 1) + 1 ∧ 1 ≤ s.clears
      omega
    · intro u sl h'
      dsimp only at h'
      by_cases hut : u = t
      · rw [hut, Function.update_same] at h'
        simp only [APc.holderSlot, Option.some.injEq] at h'
        subst h'
        show s.clears = s.enters + 1 ∧ 1 ≤ s.enters + 1 ∧
          slot = (s.enters + 1 - 1) % N
        refine ⟨hopen.1, by omega, ?_⟩
        rw [hopen.2, hopen.1]
      · rw [Function.update_noteq hut] at h'
        have := htoken u sl h'
        exact absurd this.1 (by omega)
    · intro u u' sl sl' h1 h2
      dsimp only at h1 h2
      by_cases hut : u = t
      · by_cases hut' : u' = t
        · rw [hut, hut']
        · rw [Function.update_noteq hut'] at h2
          exact absurd (htoken u' sl' h2).1 (by omega)
      · rw [Function.update_noteq hut] at h1
        exact absurd (htoken u sl h1).1 (by omega)
    · intro u sl h'
      dsimp only at h'
      by_cases hut : u = t
      · rw [hut, Function.update_same] at h'; exact absurd h' (by simp)
      · rw [Function.update_noteq hut] at h'; exact hactive u sl h'
    · intro sl hslN
      show Function.update s.inUse slot true sl = false ↔
        (s.clears ≤ sl ∨ (s.clears = (s.enters + 1) + 1 ∧ sl = (s.clears - 1) % N))
      rw [Function.update_apply]
      by_cases hsl : sl = slot
      · subst hsl
        rw [if_pos rfl]
        constructor
        · intro hf; cases hf
        · intro hr
          rcases hr with hle | ⟨he, -⟩
          · exact absurd hle (by omega)
          · exact absurd he (by omega)
      · rw [if_neg hsl]
        have hpre := hinuse sl hslN
        constructor
        · intro hf
          rcases hpre.mp hf with hle | ⟨-, hm⟩
          · exact Or.inl hle
          · exact absurd (hm.trans hopen.2.symm) hsl
        · intro hr
          rcases hr with hle | ⟨he, -⟩
          · exact hpre.mpr (Or.inl hle)
          · exact absurd he (by omega)
    · intro u sl h'
      dsimp only at h'
      by_cases hut : u = t
      · rw [hut, Function.update_same] at h'; exact absurd h' (by simp)
      · rw [Function.update_noteq hut] at h'; exact hspin u sl h'
    · intro u sl h'
      dsimp only at h'
      by_cases hut : u = t
      · rw [hut, Function.update_same] at h'; exact absurd h' (by simp)
      · rw [Function.update_noteq hut] at h'; exact htas u sl h'
    · intro u sl h'
      dsimp only at h'
      by_cases hut : u = t
      · rw [hut, Function.update_same] at h'; exact absurd h' (by simp)
      · rw [Function.update_noteq hut] at h'; exact hu3 u sl h'
  | tasFail t slot h hu =>
    refine ⟨hce, ?_, ?_, ?_, hinuse, hvalue, ?_, ?_, ?_⟩
    · intro u sl h'
      dsimp only at h'
      by_cases hut : u = t
      · rw [hut, Function.update_same] at h'
        exact absurd h' (by simp [APc.holderSlot])
      · rw [Function.update_noteq hut] at h'; exact htoken u sl h'
    · intro u u' sl sl' h1 h2
      dsimp only at h1 h2
      by_cases hut : u = t
      · rw [hut, Function.update_same] at h1
        exact absurd h1 (by simp [APc.holderSlot])
      · rw [Function.update_noteq hut] at h1
        by_cases hut' : u' = t
        · rw [hut', Function.update_same] at h2
          exact absurd h2 (by simp [APc.holderSlot])
        · rw [Function.update_noteq hut'] at h2; exact huniq u u' sl sl' h1 h2
    · intro u sl h'
      dsimp only at h'
      by_cases hut : u = t
      · rw [hut, Function.update_same] at h'; exact absurd h' (by simp)
      · rw [Function.update_noteq hut] at h'; exact hactive u sl h'
    · intro u sl h'
      dsimp only at h'
      by_cases hut : u = t
      · rw [hut, Function.update_same] at h'; exact absurd h' (by simp)
      · rw [Function.update_noteq hut] at h'; exact hspin u sl h'
    · intro u sl h'
      dsimp only at h'
      by_cases hut : u = t
      · rw [hut, Function.update_same] at h'; exact absurd h' (by simp)
      · rw [Function.update_noteq hut] at h'; exact htas u sl h'
    · intro u sl h'
      dsimp only at h'
      by_cases hut : u = t
      · rw [hut, Function.update_same] at h'; exact absurd h' (by simp)
      · rw [Function.update_noteq hut] at h'; exact hu3 u sl h'
  | enterCs t slot h =>
    refine ⟨hce, ?_, ?_, ?_, hinuse, hvalue, ?_, ?_, ?_⟩
    · intro u sl h'
      dsimp only at h'
      by_cases hut : u = t
      · rw [hut, Function.update_same] at h'
        simp only [APc.holderSlot, Option.some.injEq] at h'
        subst h'
        exact htoken t slot (by rw [h]; rfl)
      · rw [Function.update_noteq hut] at h'; exact htoken u sl h'
    · intro u u' sl sl' h1 h2
      dsimp only at h1 h2
      by_cases hut : u = t
      · by_cases hut' : u' = t
        · rw [hut, hut']
        · rw [Function.update_noteq hut'] at h2
          exact absurd (huniq u' t sl' slot h2 (by rw [h]; rfl)) hut'
      · rw [Function.update_noteq hut] at h1
        by_cases hut' : u' = t
        · exact absurd (huniq u t sl slot h1 (by rw [h]; rfl)) hut
        · rw [Function.update_noteq hut'] at h2; exact huniq u u' sl sl' h1 h2
    · intro u sl h'
      dsimp only at h'
      by_cases hut : u = t
      · rw [hut, Function.update_same] at h'
        cases h'
        rfl
      · rw [Function.update_noteq hut] at h'
        have hpre : (s.pcs u).holderSlot = some sl := by rw [h']; rfl
        exact absurd (huniq u t sl slot hpre (by rw [h]; rfl)) hut
    · intro u sl h'
      dsimp only at h'
      by_cases hut : u = t
      · rw [hut, Function.update_same] at h'; exact absurd h' (by simp)
      · rw [Function.update_noteq hut] at h'; exact hspin u sl h'
    · intro u sl h'
      dsimp only at h'
      by_cases hut : u = t
      · rw [hut, Function.update_same] at h'; exact absurd h' (by simp)
      · rw [Function.update_noteq hut] at h'; exact htas u sl h'
    · intro u sl h'
      dsimp only at h'
      by_cases hut : u = t
      · rw [hut, Function.update_same] at h'; exact absurd h' (by simp)
      · rw [Function.update_noteq hut] at h'; exact hu3 u sl h'
  | unlockRead t slot h =>
    have hact : s.active = slot := hactive t slot h
    refine ⟨hce, ?_, ?_, ?_, hinuse, hvalue, ?_, ?_, ?_⟩
    · intro u sl h'
      dsimp only at h'
      by_cases hut : u = t
      · rw [hut, Function.update_same] at h'
        simp only [APc.holderSlot, Option.some.injEq] at h'
        subst h'
        rw [hact]
        exact htoken t slot (by rw [h]; rfl)
      · rw [Function.update_noteq hut] at h'; exact htoken u sl h'
    · intro u u' sl sl' h1 h2
      dsimp only at h1 h2
      by_cases hut : u = t
      · by_cases hut' : u' = t
        · rw [hut, hut']
        · rw [Function.update_noteq hut'] at h2
          exact absurd (huniq u' t sl' slot h2 (by rw [h]; rfl)) hut'
      · rw [Function.update_noteq hut] at h1
        by_cases hut' : u' = t
        · exact absurd (huniq u t sl slot h1 (by rw [h]; rfl)) hut
        · rw [Function.update_noteq hut'] at h2; exact huniq u u' sl sl' h1 h2
    · intro u sl h'
      dsimp only at h'
      by_cases hut : u = t
      · rw [hut, Function.update_same] at h'; exact absurd h' (by simp)
      · rw [Function.update_noteq hut] at h'; exact hactive u sl h'
    · intro u sl h'
      dsimp only at h'
      by_cases hut : u = t
      · rw [hut, Function.update_same] at h'; exact absurd h' (by simp)
      · rw [Function.update_noteq hut] at h'; exact hspin u sl h'
    · intro u sl h'
      dsimp only at h'
      by_cases hut : u = t
      · rw [hut, Function.update_same] at h'; exact absurd h' (by simp)
      · rw [Function.update_noteq hut] at h'; exact htas u sl h'
    · intro u sl h'
      dsimp only at h'
      by_cases hut : u = t
      · rw [hut, Function.update_same] at h'; exact absurd h' (by simp)
      · rw [Function.update_noteq hut] at h'; exact hu3 u sl h'
  | unlockClearValue t slot h =>
    refine ⟨hce, ?_, ?_, ?_, hinuse, ?_, ?_, ?_, ?_⟩
    · intro u sl h'
      dsimp only at h'
      by_cases hut : u = t
      · rw [hut, Function.update_same] at h'
        simp only [APc.holderSlot, Option.some.injEq] at h'
        subst h'
        exact htoken t slot (by rw [h]; rfl)
      · rw [Function.update_noteq hut] at h'; exact htoken u sl h'
    · intro u u' sl sl' h1 h2
      dsimp only at h1 h2
      by_cases hut : u = t
      · by_cases hut' : u' = t
        · rw [hut, hut']
        · rw [Function.update_noteq hut'] at h2
          exact absurd (huniq u' t sl' slot h2 (by rw [h]; rfl)) hut'
      · rw [Function.update_noteq hut] at h1
        by_cases hut' : u' = t
        · exact absurd (huniq u t sl slot h1 (by rw [h]; rfl)) hut
        · rw [Function.update_noteq hut'] at h2; exact huniq u u' sl sl' h1 h2
    · intro u sl h'
      dsimp only at h'
      by_cases hut : u = t
      · rw [hut, Function.update_same] at h'; exact absurd h' (by simp)
      · rw [Function.update_noteq hut] at h'; exact hactive u sl h'
    · intro sl hslN hv
      revert hv
      show Function.update s.value slot false sl = true → sl < s.clears
      rw [Function.update_apply]
      by_cases hsl : sl = slot
      · rw [if_pos hsl]; intro hf; cases hf
      · rw [if_neg hsl]; exact hvalue sl hslN
    · intro u sl h'
      dsimp only at h'
      by_cases hut : u = t
      · rw [hut, Function.update_same] at h'; exact absurd h' (by simp)
      · rw [Function.update_noteq hut] at h'; exact hspin u sl h'
    · intro u sl h'
      dsimp only at h'
      by_cases hut : u = t
      · rw [hut, Function.update_same] at h'; exact absurd h' (by simp)
      · rw [Function.update_noteq hut] at h'; exact htas u sl h'
    · intro u sl h'
      dsimp only at h'
      by_cases hut : u = t
      · rw [hut, Function.update_same] at h'; exact absurd h' (by simp)
      · rw [Function.update_noteq hut] at h'; exact hu3 u sl h'
  | unlockClearInUse t slot h =>
    have htok := htoken t slot (by rw [h]; rfl)
    obtain ⟨hce2, h1e, hslot⟩ := htok
    have hkey : (slot + 1) % N = s.clears % N := by
      rw [hslot, ← hce2, Nat.mod_add_mod]
      have hc1 : s.clears - 1 + 1 = s.clears := by omega
      rw [hc1]
    refine ⟨?_, ?_, ?_, ?_, ?_, ?_, ?_, ?_, ?_⟩
    · show s.enters ≤ s.clears + 1 ∧ s.clears + 1 ≤ s.enters + 1 ∧ 1 ≤ s.clears + 1
      omega
    · intro u sl h'
      dsimp only at h'
      by_cases hut : u = t
      · rw [hut, Function.update_same] at h'
        exact absurd h' (by simp [APc.holderSlot])
      · rw [Function.update_noteq hut] at h'
        exact absurd (huniq u t sl slot h' (by rw [h]; rfl)) hut
    · intro u u' sl sl' h1 h2
      dsimp only at h1 h2
      by_cases hut : u = t
      · rw [hut, Function.update_same] at h1
        exact absurd h1 (by simp [APc.holderSlot])
      · rw [Function.update_noteq hut] at h1
        exact absurd (huniq u t sl slot h1 (by rw [h]; rfl)) hut
    · intro u sl h'
      dsimp only at h'
      by_cases hut : u = t
      · rw [hut, Function.update_same] at h'; exact absurd h' (by simp)
      · rw [Function.update_noteq hut] at h'; exact hactive u sl h'
    · intro sl hslN
      show Function.update s.inUse ((slot + 1) % N) false sl = false ↔
        (s.clears + 1 ≤ sl ∨ (s.clears + 1 = s.enters + 1 ∧ sl = (s.clears + 1 - 1) % N))
      rw [Function.update_apply]
      simp only [Nat.add_sub_cancel]
      by_cases hsl : sl = (slot + 1) % N
      · rw [if_pos hsl]
        constructor
        · intro _
          exact Or.inr ⟨by omega, by rw [hsl, hkey]⟩
        · intro _; rfl
      · rw [if_neg hsl]
        have hslne : sl ≠ s.clears := by
          intro he
          apply hsl
          rw [hkey, ← he, Nat.mod_eq_of_lt (he ▸ hslN)]
        have hpre := hinuse sl hslN
        constructor
        · intro hf
          rcases hpre.mp hf with hle | ⟨he, -⟩
          · exact Or.inl (by omega)
          · exact absurd he (by omega)
        · intro hr
          apply hpre.mpr
          rcases hr with hle | ⟨-, hm⟩
          · exact Or.inl (by omega)
          · rw [hkey] at hsl
            exact absurd hm hsl
    · intro sl hslN hv
      have := hvalue sl hslN hv
      show sl < s.clears + 1
      omega
    · intro u sl h'
      dsimp only at h'
      by_cases hut : u = t
      · rw [hut, Function.update_same] at h'; exact absurd h' (by simp)
      · rw [Function.update_noteq hut] at h'; exact hspin u sl h'
    · intro u sl h'
      dsimp only at h'
      by_cases hut : u = t
      · rw [hut, Function.update_same] at h'; exact absurd h' (by simp)
      · rw [Function.update_noteq hut] at h'
        have := htas u sl h'
        refine ⟨?_, this.2⟩
        show sl < s.clears + 1
        omega
    · intro u sl h'
      dsimp only at h'
      by_cases hut : u = t
      · rw [hut, Function.update_same] at h'
        cases h'
        show (slot + 1) % N < s.clears + 1
        rw [hkey]
        exact Nat.lt_succ_of_le (Nat.mod_le _ _)
      · rw [Function.update_noteq hut] at h'
        have := hu3 u sl h'
        show (sl + 1) % N < s.clears + 1
        omega
  | unlockSetValue t slot h =>
    refine ⟨hce, ?_, ?_, ?_, hinuse, ?_, ?_, ?_, ?_⟩
    · intro u sl h'
      dsimp only at h'
      by_cases hut : u = t
      · rw [hut, Function.update_same] at h'
        exact absurd h' (by simp [APc.holderSlot])
      · rw [Function.update_noteq hut] at h'; exact htoken u sl h'
    · intro u u' sl sl' h1 h2
      dsimp only at h1 h2
      by_cases hut : u = t
      · rw [hut, Function.update_same] at h1
        exact absurd h1 (by simp [APc.holderSlot])
      · rw [Function.update_noteq hut] at h1
        by_cases hut' : u' = t
        · rw [hut', Function.update_same] at h2
          exact absurd h2 (by simp [APc.holderSlot])
        · rw [Function.update_noteq hut'] at h2; exact huniq u u' sl sl' h1 h2
    · intro u sl h'
      dsimp only at h'
      by_cases hut : u = t
      · rw [hut, Function.update_same] at h'; exact absurd h' (by simp)
      · rw [Function.update_noteq hut] at h'; exact hactive u sl h'
    · intro sl hslN hv
      revert hv
      show Function.update s.value ((slot + 1) % N) true sl = true → sl < s.clears
      rw [Function.update_apply]
      by_cases hsl : sl = (slot + 1) % N
      · rw [if_pos hsl]
        intro _
        rw [hsl]
        exact hu3 t slot h
      · rw [if_neg hsl]; exact hvalue sl hslN
    · intro u sl h'
      dsimp only at h'
      by_cases hut : u = t
      · rw [hut, Function.update_same] at h'; exact absurd h' (by simp)
      · rw [Function.update_noteq hut] at h'; exact hspin u sl h'
    · intro u sl h'
      dsimp only at h'
      by_cases hut : u = t
      · rw [hut, Function.update_same] at h'; exact absurd h' (by simp)
      · rw [Function.update_noteq hut] at h'; exact htas u sl h'
    · intro u sl h'
      dsimp only at h'
      by_cases hut : u = t
      · rw [hut, Function.update_same] at h'; exact absurd h' (by simp)
      · rw [Function.update_noteq hut] at h'; exact hu3 u sl h'

/-- The invariant holds in every reachable state. -/
theorem AInv_reach (N : Nat) (hN : 0 < N) (s : AState N) (h : AReach N s) :
    AInv N s := by
  induction h with
  | refl => exact AInv_init N hN
  | tail hsteps hstep ih => exact AInv_step N hN _ _ hstep ih

/-- At most one thread is inside the critical section of the array mutex. -/
def MutualExclusion {N : Nat} (s : AState N) : Prop :=
  ∀ t t', (s.pcs t).holding = true → (s.pcs t').holding = true → t = t'

/-- Mutual exclusion of `array_mutex<N>` in every reachable state under every
interleaving. -/
theorem array_mutual_exclusion (N : Nat) (hN : 0 < N) (s : AState N)
    (h : AReach N s) : MutualExclusion s := by
  intro t t' h1 h2
  obtain ⟨-, -, huniq, -, -, -, -, -, -⟩ := AInv_reach N hN s h
  have g1 : ∃ sl, (s.pcs t).holderSlot = some sl := by
    cases hpc : s.pcs t <;> rw [hpc] at h1 <;> simp [APc.holding] at h1 <;>
      exact ⟨_, rfl⟩
  have g2 : ∃ sl, (s.pcs t').holderSlot = some sl := by
    cases hpc : s.pcs t' <;> rw [hpc] at h2 <;> simp [APc.holding] at h2 <;>
      exact ⟨_, rfl⟩
  obtain ⟨sl, hsl⟩ := g1
  obtain ⟨sl', hsl'⟩ := g2
  exact huniq t t' sl sl' hsl hsl'

end array_mutex

namespace array_mutex

/-- Deterministic executor: the unique enabled non-stuttering action of thread
`t`, if any.  Used only to construct concrete reachable states; `AExec_sound`
maps every execution to a transition of `AStep`. -/
def AExec (N : Nat) (s : AState N) (t : Nat) : Option (AState N) :=
  match s.pcs t with
  | APc.idle => some { s with
      tl := (s.tl + 1) % 2 ^ 64
      pcs := Function.update s.pcs t (APc.spinning (s.tl % N)) }
  | APc.spinning slot =>
      if s.value slot then
        some { s with pcs := Function.update s.pcs t (APc.tasPending slot) }
      else none
  | APc.tasPending slot =>
      if s.inUse slot then
        some { s with
          pcs := Function.update s.pcs t (APc.errored error_on_slots_exceeded) }
      else
        some { s with
          inUse := Function.update s.inUse slot true
          enters := s.enters + 1
          pcs := Function.update s.pcs t (APc.wrActive slot) }
  | APc.wrActive slot => some { s with
      active := slot
      pcs := Function.update s.pcs t (APc.cs slot) }
  | APc.cs _ => some { s with pcs := Function.update s.pcs t (APc.u1 s.active) }
  | APc.u1 slot => some { s with
      value := Function.update s.value slot false
      pcs := Function.update s.pcs t (APc.u2 slot) }
  | APc.u2 slot => some { s with
      inUse := Function.update s.inUse ((slot + 1) % N) false
      clears := s.clears + 1
      pcs := Function.update s.pcs t (APc.u3 slot) }
  | APc.u3 slot => some { s with
      value := Function.update s.value ((slot + 1) % N) true
      pcs := Function.update s.pcs t APc.idle }
  | APc.errored _ => none

/-- Every executor result is a transition of the step relation. -/
theorem AExec_sound (N : Nat) (s s' : AState N) (t : Nat)
    (h : AExec N s t = some s') : AStep N s s' := by
  unfold AExec at h
  split at h
  · cases h; exact AStep.ticket s t (by assumption)
  · rename_i slot hpc
    split at h
    · cases h; exact AStep.spinRead s t slot hpc (by assumption)
    · cases h
  · rename_i slot hpc
    split at h
    · cases h; exact AStep.tasFail s t slot hpc (by assumption)
    · cases h
      exact AStep.tasOk s t slot hpc (by simp_all)
  · cases h; exact AStep.enterCs s t _ (by assumption)
  · cases h; exact AStep.unlockRead s t _ (by assumption)
  · cases h; exact AStep.unlockClearValue s t _ (by assumption)
  · cases h; exact AStep.unlockClearInUse s t _ (by assumption)
  · cases h; exact AStep.unlockSetValue s t _ (by assumption)
  · cases h

/-- Run the executor over a schedule of thread ids. -/
def AExecRun (N : Nat) (s : AState N) : List Nat → Option (AState N)
  | [] => some s
  | t :: ts =>
    match AExec N s t with
    | none => none
    | some s' => AExecRun N s' ts

/-- Executor runs stay within reachability. -/
theorem AExecRun_reach (N : Nat) (s s' : AState N) (ts : List Nat)
    (h : AExecRun N s ts = some s') (h0 : AReach N s) : AReach N s' := by
  induction ts generalizing s with
  | nil => cases h; exact h0
  | cons t ts ih =>
    unfold AExecRun at h
    split at h
    · cases h
    · rename_i s'' heq
      exact ih s'' h (h0.tail (AExec_sound N s s'' t heq))

/-- C3: in any reachable state, a transition makes `lock` of `array_mutex`
raise an error for thread `t` only through the `in_use` test-and-set observing
the slot busy; the raised error is `error_on_slots_exceeded`
(`std::system_error` carrying `device_or_resource_busy`); the failing
transition consumes no slot and changes no flag, ticket, or ghost count;
states of `unlock` never raise; and the error is not retried internally
(the errored thread takes no further transition). -/
theorem c3_overflow_error (N : Nat) (s s' : AState N) (t : Nat)
    (hstep : AStep N s s') :
    (∀ e, (s.pcs t ≠ APc.errored e ∧ s'.pcs t = APc.errored e) →
      e = error_on_slots_exceeded ∧
        (∃ slot, s.pcs t = APc.tasPending slot ∧ s.inUse slot = true) ∧
        s'.inUse = s.inUse ∧ s'.value = s.value ∧ s'.tl = s.tl ∧
        s'.enters = s.enters ∧ s'.active = s.active) ∧
    (∀ e, s.pcs t = APc.errored e → s'.pcs t = APc.errored e) := by
  constructor
  · rintro e ⟨hne, hnew⟩
    cases hstep with
    | ticket u h =>
      dsimp only at hnew
      by_cases hut : t = u
      · rw [hut, Function.update_same] at hnew; cases hnew
      · rw [Function.update_noteq hut] at hnew; exact absurd hnew hne
    | spinAgain u slot h hv => exact absurd hnew hne
    | spinRead u slot h hv =>
      dsimp only at hnew
      by_cases hut : t = u
      · rw [hut, Function.update_same] at hnew; cases hnew
      · rw [Function.update_noteq hut] at hnew; exact absurd hnew hne
    | tasOk u slot h hu =>
      dsimp only at hnew
      by_cases hut : t = u
      · rw [hut, Function.update_same] at hnew; cases hnew
      · rw [Function.update_noteq hut] at hnew; exact absurd hnew hne
    | tasFail u slot h hu =>
      dsimp only at hnew
      by_cases hut : t = u
      · rw [hut, Function.update_same] at hnew
        cases hnew
        exact ⟨rfl, ⟨slot, by rw [hut]; exact h, hu⟩, rfl, rfl, rfl, rfl, rfl⟩
      · rw [Function.update_noteq hut] at hnew; exact absurd hnew hne
    | enterCs u slot h =>
      dsimp only at hnew
      by_cases hut : t = u
      · rw [hut, Function.update_same] at hnew; cases hnew
      · rw [Function.update_noteq hut] at hnew; exact absurd hnew hne
    | unlockRead u slot h =>
      dsimp only at hnew
      by_cases hut : t = u
      · rw [hut, Function.update_same] at hnew; cases hnew
      · rw [Function.update_noteq hut] at hnew; exact absurd hnew hne
    | unlockClearValue u slot h =>
      dsimp only at hnew
      by_cases hut : t = u
      · rw [hut, Function.update_same] at hnew; cases hnew
      · rw [Function.update_noteq hut] at hnew; exact absurd hnew hne
    | unlockClearInUse u slot h =>
      dsimp only at hnew
      by_cases hut : t = u
      · rw [hut, Function.update_same] at hnew; cases hnew
      · rw [Function.update_noteq hut] at hnew; exact absurd hnew hne
    | unlockSetValue u slot h =>
      dsimp only at hnew
      by_cases hut : t = u
      · rw [hut, Function.update_same] at hnew; cases hnew
      · rw [Function.update_noteq hut] at hnew; exact absurd hnew hne
  · intro e herr
    cases hstep with
    | ticket u h =>
      dsimp only
      by_cases hut : t = u
      · rw [hut] at herr; rw [herr] at h; cases h
      · rw [Function.update_noteq hut]; exact herr
    | spinAgain u slot h hv => exact herr
    | spinRead u slot h hv =>
      dsimp only
      by_cases hut : t = u
      · rw [hut] at herr; rw [herr] at h; cases h
      · rw [Function.update_noteq hut]; exact herr
    | tasOk u slot h hu =>
      dsimp only
      by_cases hut : t = u
      · rw [hut] at herr; rw [herr] at h; cases h
      · rw [Function.update_noteq hut]; exact herr
    | tasFail u slot h hu =>
      dsimp only
      by_cases hut : t = u
      · rw [hut] at herr; rw [herr] at h; cases h
      · rw [Function.update_noteq hut]; exact herr
    | enterCs u slot h =>
      dsimp only
      by_cases hut : t = u
      · rw [hut] at herr; rw [herr] at h; cases h
      · rw [Function.update_noteq hut]; exact herr
    | unlockRead u slot h =>
      dsimp only
      by_cases hut : t = u
      · rw [hut] at herr; rw [herr] at h; cases h
      · rw [Function.update_noteq hut]; exact herr
    | unlockClearValue u slot h =>
      dsimp only
      by_cases hut : t = u
      · rw [hut] at herr; rw [herr] at h; cases h
      · rw [Function.update_noteq hut]; exact herr
    | unlockClearInUse u slot h =>
      dsimp only
      by_cases hut : t = u
      · rw [hut] at herr; rw [herr] at h; cases h
      · rw [Function.update_noteq hut]; exact herr
    | unlockSetValue u slot h =>
      dsimp only
      by_cases hut : t = u
      · rw [hut] at herr; rw [herr] at h; cases h
      · rw [Function.update_noteq hut]; exact herr

end array_mutex

/-- Adjacency in a list: `p` immediately followed by `n`. -/
def adj {α : Type} : List α → α → α → Prop
  | x :: y :: rest, p, n => (x = p ∧ y = n) ∨ adj (y :: rest) p n
  | _, _, _ => False

theorem adj_mem {α : Type} (l : List α) (p n : α) (h : adj l p n) :
    p ∈ l ∧ n ∈ l := by
  induction l with
  | nil => cases h
  | cons x rest ih =>
    cases rest with
    | nil => cases h
    | cons y rest' =>
      rcases h with ⟨rfl, rfl⟩ | h
      · exact ⟨by simp, by simp⟩
      · obtain ⟨h1, h2⟩ := ih h
        exact ⟨by simp [h1], by simp [h2]⟩

theorem adj_append {α : Type} (l : List α) (p n x : α) (h : adj l p n) :
    adj (l ++ [x]) p n := by
  induction l with
  | nil => cases h
  | cons a rest ih =>
    cases rest with
    | nil => cases h
    | cons b rest' =>
      rcases h with ⟨rfl, rfl⟩ | h
      · exact Or.inl ⟨rfl, rfl⟩
      · exact Or.inr (ih h)

theorem adj_getLast {α : Type} (l : List α) (p n : α)
    (h : l.getLast? = some p) : adj (l ++ [n]) p n := by
  induction l with
  | nil => cases h
  | cons a rest ih =>
    cases rest with
    | nil =>
      simp only [List.getLast?_singleton, Option.some.injEq] at h
      subst h
      exact Or.inl ⟨rfl, rfl⟩
    | cons b rest' =>
      rw [List.getLast?_cons_cons] at h
      exact Or.inr (ih h)

theorem adj_mem_tail {α : Type} (l : List α) (p n : α) (h : adj l p n) :
    ∀ c rest, l = c :: rest → n ∈ rest := by
  induction l with
  | nil => cases h
  | cons x rest ih =>
    cases rest with
    | nil => cases h
    | cons y rest' =>
      intro c r hcr
      injection hcr with h1 h2
      subst h2
      rcases h with ⟨-, hy⟩ | h
      · rw [← hy]; exact List.mem_cons_self _ _
      · exact List.mem_cons_of_mem _ (ih h y rest' rfl)

theorem adj_succ_uniq {α : Type} (l : List α) (p n n' : α) (hnd : l.Nodup)
    (h : adj l p n) (h' : adj l p n') : n = n' := by
  induction l with
  | nil => cases h
  | cons x rest ih =>
    cases rest with
    | nil => cases h
    | cons y rest' =>
      have hx_nm : x ∉ y :: rest' := (List.nodup_cons.mp hnd).1
      have htail : (y :: rest').Nodup := (List.nodup_cons.mp hnd).2
      rcases h with ⟨hx, hy⟩ | h
      · rcases h' with ⟨hx', hy'⟩ | h'
        · rw [← hy, ← hy']
        · have hm : p ∈ y :: rest' := (adj_mem _ _ _ h').1
          rw [← hx] at hm
          exact absurd hm hx_nm
      · rcases h' with ⟨hx', hy'⟩ | h'
        · have hm : p ∈ y :: rest' := (adj_mem _ _ _ h).1
          rw [← hx'] at hm
          exact absurd hm hx_nm
        · exact ih htail h h'

theorem adj_pred_uniq {α : Type} (l : List α) (p p' n : α) (hnd : l.Nodup)
    (h : adj l p n) (h' : adj l p' n) : p = p' := by
  induction l with
  | nil => cases h
  | cons x rest ih =>
    cases rest with
    | nil => cases h
    | cons y rest' =>
      have hx_nm : x ∉ y :: rest' := (List.nodup_cons.mp hnd).1
      have htail : (y :: rest').Nodup := (List.nodup_cons.mp hnd).2
      have hy_nm : y ∉ rest' := (List.nodup_cons.mp htail).1
      rcases h with ⟨hx, hy⟩ | h
      · rcases h' with ⟨hx', hy'⟩ | h'
        · rw [← hx, ← hx']
        · have hm : n ∈ rest' := adj_mem_tail _ _ _ h' y rest' rfl
          rw [← hy] at hm
          exact absurd hm hy_nm
      · rcases h' with ⟨hx', hy'⟩ | h'
        · have hm : n ∈ rest' := adj_mem_tail _ _ _ h y rest' rfl
          rw [← hy'] at hm
          exact absurd hm hy_nm
        · exact ih htail h h'

theorem adj_head {α : Type} (l : List α) (p n : α) (hnd : l.Nodup)
    (h : adj l p n) (hh : l.head? = some p) : ∃ v, l = p :: n :: v := by
  cases l with
  | nil => cases h
  | cons x rest =>
    cases rest with
    | nil => cases h
    | cons y rest' =>
      simp only [List.head?, Option.some.injEq] at hh
      have hx_nm : x ∉ y :: rest' := (List.nodup_cons.mp hnd).1
      rcases h with ⟨-, hy⟩ | h
      · exact ⟨rest', by rw [hh, hy]⟩
      · have hm : p ∈ y :: rest' := (adj_mem _ _ _ h).1
        rw [← hh] at hm
        exact absurd hm hx_nm

theorem adj_not_head {α : Type} (l : List α) (p n c : α) (hnd : l.Nodup)
    (h : adj l p n) (hh : l.head? = some c) : n ≠ c := by
  cases l with
  | nil => cases h
  | cons x rest =>
    simp only [List.head?, Option.some.injEq] at hh
    cases rest with
    | nil => cases h
    | cons y rest' =>
      have hx_nm : x ∉ y :: rest' := (List.nodup_cons.mp hnd).1
      intro he
      rcases h with ⟨-, hy⟩ | h
      · apply hx_nm
        rw [hh, ← he, ← hy]
        exact List.mem_cons_self _ _
      · apply hx_nm
        rw [hh, ← he]
        exact (adj_mem _ _ _ h).2

theorem adj_decomp {α : Type} (l : List α) (p n : α) (h : adj l p n) :
    ∃ u v, l = u ++ p :: n :: v := by
  induction l with
  | nil => cases h
  | cons x rest ih =>
    cases rest with
    | nil => cases h
    | cons y rest' =>
      rcases h with ⟨hx, hy⟩ | h
      · exact ⟨[], rest', by simp [← hx, ← hy]⟩
      · obtain ⟨u, v, huv⟩ := ih h
        exact ⟨x :: u, v, by rw [List.cons_append, huv]⟩

theorem adj_erase_keep {α : Type} (u v : List α) (p n : α) :
    ∀ x y, adj (u ++ p :: n :: v) x y → x ≠ p → y ≠ p → y ≠ n →
      adj (u ++ n :: v) x y := by
  induction u with
  | nil =>
    intro x y h hxp hyp hyn
    rcases h with ⟨hx, hy⟩ | h
    · exact absurd hx.symm hxp
    · exact h
  | cons a u' ih =>
    intro x y h hxp hyp hyn
    cases hu : u' with
    | nil =>
      subst hu
      rcases h with ⟨hx, hy⟩ | h
      · exact absurd hy.symm hyp
      · rcases h with ⟨hx, hy⟩ | h
        · exact absurd hy.symm hyn
        · exact Or.inr h
    | cons b u'' =>
      subst hu
      rcases h with ⟨hx, hy⟩ | h
      · exact Or.inl ⟨hx, hy⟩
      · exact Or.inr (ih x y h hxp hyp hyn)

theorem adj_erase_merge {α : Type} (u v : List α) (p n : α)
    (hnd : (u ++ p :: n :: v).Nodup) :
    ∀ q, adj (u ++ p :: n :: v) q p → adj (u ++ n :: v) q n := by
  induction u with
  | nil =>
    intro q h
    have hpm : p ∉ n :: v := by
      simp only [List.nil_append, List.nodup_cons] at hnd
      exact hnd.1
    rcases h with ⟨hq, hp⟩ | h
    · exact absurd hp (by
        intro he
        apply hpm
        rw [← he]
        exact List.mem_cons_self _ _)
    · exact absurd (adj_mem _ _ _ h).2 hpm
  | cons a u' ih =>
    intro q h
    have hnd' : (u' ++ p :: n :: v).Nodup := by
      simp only [List.cons_append, List.nodup_cons] at hnd
      exact hnd.2
    have ham : a ∉ u' ++ p :: n :: v := by
      simp only [List.cons_append, List.nodup_cons] at hnd
      exact hnd.1
    cases hu : u' with
    | nil =>
      subst hu
      rcases h with ⟨hq, hp⟩ | h
      · rw [← hq]
        exact Or.inl ⟨rfl, rfl⟩
      · simp only [List.nil_append] at h hnd'
        have hpm : p ∉ n :: v := (List.nodup_cons.mp hnd').1
        rcases h with ⟨-, hp⟩ | h
        · exact absurd hp (by
            intro he
            apply hpm
            rw [← he]
            exact List.mem_cons_self _ _)
        · exact absurd (adj_mem _ _ _ h).2 hpm
    | cons b u'' =>
      subst hu
      rcases h with ⟨hq, hp⟩ | h
      · exfalso
        have hbm : b ∉ u'' ++ p :: n :: v := (List.nodup_cons.mp hnd').1
        apply hbm
        rw [hp]
        simp
      · exact Or.inr (ih hnd' q h)

namespace clh_mutex

/-- The `Failure` template parameter of `clh_mutex` (`mutex.hpp` lines
104–108): policy on failing to obtain a node. -/
inductive Failure
  | retry
  | die
  deriving DecidableEq, Repr

/-- Program counter of one thread in `clh_mutex<N>::try_lock_until`
(`mutex.hpp` lines 259–319), `try_pop_node_until` (lines 341–359) and
`unlock` (lines 321–329).  `n` is the thread's own node, `p` its current
spin target, `d` its deadline (a point of the modelled clock), `a` the
value read from the predecessor's `pred` field. -/
inductive CPc (N : Nat)
  | idle
  | popping (d : Nat)
  | popCheck (d : Nat)
  | setLocked (n : Fin (N + 2)) (d : Nat)
  | readTail (n : Fin (N + 2)) (d : Nat)
  | casTail (n p : Fin (N + 2)) (d : Nat)
  | casCheck (n p : Fin (N + 2)) (d : Nat)
  | incrCount (n p : Fin (N + 2)) (d : Nat)
  | spin (n p : Fin (N + 2)) (d : Nat)
  | spinCheck (n p : Fin (N + 2)) (d : Nat)
  | abandonPred (n p : Fin (N + 2)) (d : Nat)
  | abandonLocked (n p : Fin (N + 2)) (d : Nat)
  | readPredPred (n p : Fin (N + 2)) (d : Nat)
  | pushing (n p : Fin (N + 2)) (a : Option (Fin (N + 2))) (d : Nat)
  | checkInherit (n : Fin (N + 2)) (a : Option (Fin (N + 2))) (d : Nat)
  | setActive (n : Fin (N + 2))
  | cs (n : Fin (N + 2))
  | u1 (n : Fin (N + 2))
  | u2 (n : Fin (N + 2))
  | failed
  | exhausted (e : errc)
  deriving DecidableEq, Repr

/-- Global state of a `clh_mutex<N>`: the per-node `locked` and `pred`
fields, the abstract content of the free-node queue `available_`, the mutex
`tail_` and `active_`, the `queue_count_` counter (wrapping at `2 ^ 32`), the
modelled clock, and all thread program counters.  `chain` (the logical CLH
waiting chain, grant node first, `tail_` last), `swapIns` (successful tail
CAS completions), `counted` (completed `queue_count_` fetch-adds) and
`clockReads` (evaluations of `Clock::now()`) are ghost fields read by no
transition. -/
structure CState (N : Nat) where
  locked : Fin (N + 2) → Bool
  pred : Fin (N + 2) → Option (Fin (N + 2))
  free : List (Fin (N + 2))
  chain : List (Fin (N + 2))
  tl : Fin (N + 2)
  active : Fin (N + 2)
  queueCount : Nat
  swapIns : Nat
  counted : Nat
  clockReads : Nat
  time : Nat
  pcs : Nat → CPc N

/-- `queue_count()` (`mutex.hpp` lines 333–338): the public observer. -/
def queue_count {N : Nat} (s : CState N) : Nat := s.queueCount

/-- The freshly constructed `clh_mutex<N>` (`mutex.hpp` lines 227–236):
all `N + 2` pool nodes default-initialized (`locked` false, `pred` null),
the queue constructor threads them in storage order, then the mutex
constructor pops the first node and installs it as initial `tail_` with
`locked` false. -/
def CState.init (N : Nat) : CState N :=
  { locked := fun _ => false
    pred := fun _ => none
    free := (List.finRange (N + 2)).drop 1
    chain := [⟨0, by omega⟩]
    tl := ⟨0, by omega⟩
    active := ⟨0, by omega⟩
    queueCount := 0
    swapIns := 0
    counted := 0
    clockReads := 0
    time := 0
    pcs := fun _ => CPc.idle }

/-- The node owned by a thread that has popped it but not yet enqueued it. -/
def CPc.preOwn {N : Nat} : CPc N → Option (Fin (N + 2))
  | CPc.setLocked n _ => some n
  | CPc.readTail n _ => some n
  | CPc.casTail n _ _ => some n
  | CPc.casCheck n _ _ => some n
  | _ => none

/-- The node owned by a thread with `locked` already stored true and not yet
enqueued. -/
def CPc.preLockedNode {N : Nat} : CPc N → Option (Fin (N + 2))
  | CPc.readTail n _ => some n
  | CPc.casTail n _ _ => some n
  | CPc.casCheck n _ _ => some n
  | _ => none

/-- The enqueued spin target and own node of a thread: `some (p, n)` when the
thread's node `n` sits in the chain immediately after its current
predecessor `p`. -/
def CPc.targetOf {N : Nat} : CPc N → Option (Fin (N + 2) × Fin (N + 2))
  | CPc.incrCount n p _ => some (p, n)
  | CPc.spin n p _ => some (p, n)
  | CPc.spinCheck n p _ => some (p, n)
  | CPc.abandonPred n p _ => some (p, n)
  | CPc.abandonLocked n p _ => some (p, n)
  | CPc.readPredPred n p _ => some (p, n)
  | CPc.pushing n p _ _ => some (p, n)
  | CPc.checkInherit n (some p) _ => some (p, n)
  | _ => none

/-- The node of a thread that is completing or holding the acquisition:
its predecessor has been recycled and its node is the chain head. -/
def CPc.holderNode {N : Nat} : CPc N → Option (Fin (N + 2))
  | CPc.checkInherit n none _ => some n
  | CPc.setActive n => some n
  | CPc.cs n => some n
  | CPc.u1 n => some n
  | CPc.u2 n => some n
  | _ => none

/-- The node owned by a thread in any phase of an acquisition cycle. -/
def CPc.ownNode {N : Nat} : CPc N → Option (Fin (N + 2))
  | CPc.setLocked n _ => some n
  | CPc.readTail n _ => some n
  | CPc.casTail n _ _ => some n
  | CPc.casCheck n _ _ => some n
  | CPc.incrCount n _ _ => some n
  | CPc.spin n _ _ => some n
  | CPc.spinCheck n _ _ => some n
  | CPc.abandonPred n _ _ => some n
  | CPc.abandonLocked n _ _ => some n
  | CPc.readPredPred n _ _ => some n
  | CPc.pushing n _ _ _ => some n
  | CPc.checkInherit n _ _ => some n
  | CPc.setActive n => some n
  | CPc.cs n => some n
  | CPc.u1 n => some n
  | CPc.u2 n => some n
  | _ => none

/-- A thread holds the lock: `try_lock_until` has returned true and `unlock`
has not completed its releasing store. -/
def CPc.holding {N : Nat} : CPc N → Bool
  | CPc.cs _ => true
  | CPc.u1 _ => true
  | CPc.u2 _ => true
  | _ => false

/-- One interleaved atomic action against a `clh_mutex<N, P>`.  Transitions
mirror the source line by line; `tick` advances the modelled monotonic clock;
`start` is a client calling `try_lock_until` with an arbitrary deadline
(`lock` and `try_lock_for`/`try_lock` are the instances with a far-future
resp. already-reached deadline).  Queue operations are linearized: one
transition per `try_pop`/`push` call, acting on the abstract node list. -/
inductive CStep (N : Nat) (P : Failure) : CState N → CState N → Prop
  | tick (s : CState N) :
      CStep N P s { s with time := s.time + 1 }
  | start (s : CState N) (t : Nat) (d : Nat) (h : s.pcs t = CPc.idle) :
      CStep N P s { s with pcs := Function.update s.pcs t (CPc.popping d) }
  | popOk (s : CState N) (t : Nat) (d : Nat) (a b : Fin (N + 2))
      (rest : List (Fin (N + 2)))
      (h : s.pcs t = CPc.popping d) (hf : s.free = a :: b :: rest) :
      CStep N P s { s with
        free := b :: rest
        pcs := Function.update s.pcs t (CPc.setLocked a d) }
  | popEmpty (s : CState N) (t : Nat) (d : Nat)
      (h : s.pcs t = CPc.popping d) (hf : s.free.length < 2) :
      CStep N P s { s with pcs := Function.update s.pcs t (CPc.popCheck d) }
  | popCheckTimeout (s : CState N) (t : Nat) (d : Nat)
      (h : s.pcs t = CPc.popCheck d) (ht : d ≤ s.time) :
      CStep N P s { s with
        clockReads := s.clockReads + 1
        pcs := Function.update s.pcs t CPc.failed }
  | popCheckDie (s : CState N) (t : Nat) (d : Nat)
      (h : s.pcs t = CPc.popCheck d) (ht : s.time < d) (hp : P = Failure.die) :
      CStep N P s { s with
        clockReads := s.clockReads + 1
        pcs := Function.update s.pcs t (CPc.exhausted error_on_slots_exceeded) }
  | popCheckRetry (s : CState N) (t : Nat) (d : Nat)
      (h : s.pcs t = CPc.popCheck d) (ht : s.time < d) (hp : P = Failure.retry) :
      CStep N P s { s with
        clockReads := s.clockReads + 1
        pcs := Function.update s.pcs t (CPc.popping d) }
  | storeLocked (s : CState N) (t : Nat) (n : Fin (N + 2)) (d : Nat)
      (h : s.pcs t = CPc.setLocked n d) :
      CStep N P s { s with
        locked := Function.update s.locked n true
        pcs := Function.update s.pcs t (CPc.readTail n d) }
  | loadTail (s : CState N) (t : Nat) (n : Fin (N + 2)) (d : Nat)
      (h : s.pcs t = CPc.readTail n d) :
      CStep N P s { s with
        pcs := Function.update s.pcs t (CPc.casTail n s.tl d) }
  | casOk (s : CState N) (t : Nat) (n p : Fin (N + 2)) (d : Nat)
      (h : s.pcs t = CPc.casTail n p d) (hp : s.tl = p) :
      CStep N P s { s with
        tl := n
        chain := s.chain ++ [n]
        swapIns := s.swapIns + 1
        pcs := Function.update s.pcs t (CPc.incrCount n p d) }
  | casFail (s : CState N) (t : Nat) (n p : Fin (N + 2)) (d : Nat)
      (h : s.pcs t = CPc.casTail n p d) :
      CStep N P s { s with
        pcs := Function.update s.pcs t (CPc.casCheck n s.tl d) }
  | casCheckTimeout (s : CState N) (t : Nat) (n p : Fin (N + 2)) (d : Nat)
      (h : s.pcs t = CPc.casCheck n p d) (ht : d ≤ s.time) :
      CStep N P s { s with
        clockReads := s.clockReads + 1
        pcs := Function.update s.pcs t CPc.failed }
  | casCheckRetry (s : CState N) (t : Nat) (n p : Fin (N + 2)) (d : Nat)
      (h : s.pcs t = CPc.casCheck n p d) (ht : s.time < d) :
      CStep N P s { s with
        clockReads := s.clockReads + 1
        pcs := Function.update s.pcs t (CPc.casTail n p d) }
  | incrCountStep (s : CState N) (t : Nat) (n p : Fin (N + 2)) (d : Nat)
      (h : s.pcs t = CPc.incrCount n p d) :
      CStep N P s { s with
        queueCount := (s.queueCount + 1) % 2 ^ 32
        counted := s.counted + 1
        pcs := Function.update s.pcs t (CPc.spin n p d) }
  | spinTrue (s : CState N) (t : Nat) (n p : Fin (N + 2)) (d : Nat)
      (h : s.pcs t = CPc.spin n p d) (hl : s.locked p = true) :
      CStep N P s { s with
        pcs := Function.update s.pcs t (CPc.spinCheck n p d) }
  | spinFalse (s : CState N) (t : Nat) (n p : Fin (N + 2)) (d : Nat)
      (h : s.pcs t = CPc.spin n p d) (hl : s.locked p = false) :
      CStep N P s { s with
        pcs := Function.update s.pcs t (CPc.readPredPred n p d) }
  | spinCheckCont (s : CState N) (t : Nat) (n p : Fin (N + 2)) (d : Nat)
      (h : s.pcs t = CPc.spinCheck n p d) (ht : s.time < d) :
      CStep N P s { s with
        clockReads := s.clockReads + 1
        pcs := Function.update s.pcs t (CPc.spin n p d) }
  | spinCheckAbandon (s : CState N) (t : Nat) (n p : Fin (N + 2)) (d : Nat)
      (h : s.pcs t = CPc.spinCheck n p d) (ht : d ≤ s.time) :
      CStep N P s { s with
        clockReads := s.clockReads + 1
        pcs := Function.update s.pcs t (CPc.abandonPred n p d) }
  | abandonPredStep (s : CState N) (t : Nat) (n p : Fin (N + 2)) (d : Nat)
      (h : s.pcs t = CPc.abandonPred n p d) :
      CStep N P s { s with
        pred := Function.update s.pred n (some p)
        pcs := Function.update s.pcs t (CPc.abandonLocked n p d) }
  | abandonLockedStep (s : CState N) (t : Nat) (n p : Fin (N + 2)) (d : Nat)
      (h : s.pcs t = CPc.abandonLocked n p d) :
      CStep N P s { s with
        locked := Function.update s.locked n false
        pcs := Function.update s.pcs t CPc.failed }
  | readPredPredStep (s : CState N) (t : Nat) (n p : Fin (N + 2)) (d : Nat)
      (h : s.pcs t = CPc.readPredPred n p d) :
      CStep N P s { s with
        pcs := Function.update s.pcs t (CPc.pushing n p (s.pred p) d) }
  | pushStep (s : CState N) (t : Nat) (n p : Fin (N + 2))
      (a : Option (Fin (N + 2))) (d : Nat)
      (h : s.pcs t = CPc.pushing n p a d) :
      CStep N P s { s with
        free := s.free ++ [p]
        chain := s.chain.erase p
        pcs := Function.update s.pcs t (CPc.checkInherit n a d) }
  | checkInheritSome (s : CState N) (t : Nat) (n p' : Fin (N + 2)) (d : Nat)
      (h : s.pcs t = CPc.checkInherit n (some p') d) :
      CStep N P s { s with
        pcs := Function.update s.pcs t (CPc.spin n p' d) }
  | checkInheritNone (s : CState N) (t : Nat) (n : Fin (N + 2)) (d : Nat)
      (h : s.pcs t = CPc.checkInherit n none d) :
      CStep N P s { s with
        pcs := Function.update s.pcs t (CPc.setActive n) }
  | setActiveStep (s : CState N) (t : Nat) (n : Fin (N + 2))
      (h : s.pcs t = CPc.setActive n) :
      CStep N P s { s with
        active := n
        pcs := Function.update s.pcs t (CPc.cs n) }
  | unlockRead (s : CState N) (t : Nat) (n : Fin (N + 2))
      (h : s.pcs t = CPc.cs n) :
      CStep N P s { s with
        pcs := Function.update s.pcs t (CPc.u1 s.active) }
  | unlockClearPred (s : CState N) (t : Nat) (n : Fin (N + 2))
      (h : s.pcs t = CPc.u1 n) :
      CStep N P s { s with
        pred := Function.update s.pred n none
        pcs := Function.update s.pcs t (CPc.u2 n) }
  | unlockRelease (s : CState N) (t : Nat) (n : Fin (N + 2))
      (h : s.pcs t = CPc.u2 n) :
      CStep N P s { s with
        locked := Function.update s.locked n false
        pcs := Function.update s.pcs t CPc.idle }
  | failedIdle (s : CState N) (t : Nat) (h : s.pcs t = CPc.failed) :
      CStep N P s { s with pcs := Function.update s.pcs t CPc.idle }

/-- Reachability from the freshly constructed mutex. -/
def CReach (N : Nat) (P : Failure) (s : CState N) : Prop :=
  Relation.ReflTransGen (CStep N P) (CState.init N) s

end clh_mutex

namespace clh_mutex

/-- Per-thread facts of the CLH invariant, as a predicate of one program
counter over the global state. -/
def thOk {N : Nat} (s : CState N) (pc : CPc N) : Prop :=
  (∀ n, pc.preOwn = some n → n ∉ s.free ∧ n ∉ s.chain) ∧
  (∀ n, pc.preLockedNode = some n → s.locked n = true) ∧
  (∀ p n, pc.targetOf = some (p, n) → adj s.chain p n ∧ s.locked n = true) ∧
  (∀ n p d, pc = CPc.abandonLocked n p d → s.pred n = some p) ∧
  (∀ n p d, pc = CPc.readPredPred n p d → s.locked p = false) ∧
  (∀ n p a d, pc = CPc.pushing n p a d → s.locked p = false ∧ a = s.pred p) ∧
  (∀ n, pc.holderNode = some n → s.chain.head? = some n ∧ s.locked n = true) ∧
  (∀ n, pc = CPc.u2 n → s.pred n = none) ∧
  (∀ n, pc = CPc.cs n → s.active = n)

/-- Inductive invariant of the CLH transition system. -/
structure CInv (N : Nat) (s : CState N) : Prop where
  chain_ne : s.chain ≠ []
  tl_last : s.chain.getLast? = some s.tl
  nodup : (s.free ++ s.chain).Nodup
  own_uniq : ∀ t t' n, (s.pcs t).ownNode = some n →
    (s.pcs t').ownNode = some n → t = t'
  th : ∀ t, thOk s (s.pcs t)
  head_grant : ∀ c0, s.chain.head? = some c0 →
    (∀ t, (s.pcs t).ownNode ≠ some c0) → s.locked c0 = false ∧ s.pred c0 = none
  interior : ∀ p n, adj s.chain p n → (∀ t, (s.pcs t).ownNode ≠ some n) →
    s.locked n = false ∧ s.pred n = some p

/-- Every owned node is owned via exactly one of the three phases. -/
theorem ownNode_cases {N : Nat} (pc : CPc N) (n : Fin (N + 2))
    (h : pc.ownNode = some n) :
    pc.preOwn = some n ∨ (∃ p, pc.targetOf = some (p, n)) ∨
      pc.holderNode = some n := by
  cases pc with
  | idle => cases h
  | popping d => cases h
  | popCheck d => cases h
  | setLocked m d => exact Or.inl h
  | readTail m d => exact Or.inl h
  | casTail m p d => exact Or.inl h
  | casCheck m p d => exact Or.inl h
  | incrCount m p d => exact Or.inr (Or.inl ⟨p, by rw [← Option.some.inj h]; rfl⟩)
  | spin m p d => exact Or.inr (Or.inl ⟨p, by rw [← Option.some.inj h]; rfl⟩)
  | spinCheck m p d => exact Or.inr (Or.inl ⟨p, by rw [← Option.some.inj h]; rfl⟩)
  | abandonPred m p d => exact Or.inr (Or.inl ⟨p, by rw [← Option.some.inj h]; rfl⟩)
  | abandonLocked m p d => exact Or.inr (Or.inl ⟨p, by rw [← Option.some.inj h]; rfl⟩)
  | readPredPred m p d => exact Or.inr (Or.inl ⟨p, by rw [← Option.some.inj h]; rfl⟩)
  | pushing m p a d => exact Or.inr (Or.inl ⟨p, by rw [← Option.some.inj h]; rfl⟩)
  | checkInherit m a d =>
    cases a with
    | none => exact Or.inr (Or.inr h)
    | some p => exact Or.inr (Or.inl ⟨p, by rw [← Option.some.inj h]; rfl⟩)
  | setActive m => exact Or.inr (Or.inr h)
  | cs m => exact Or.inr (Or.inr h)
  | u1 m => exact Or.inr (Or.inr h)
  | u2 m => exact Or.inr (Or.inr h)
  | failed => cases h
  | exhausted e => cases h

/-- The initial state satisfies the invariant. -/
theorem CInv_init (N : Nat) : CInv N (CState.init N) := by
  have h0 : List.finRange (N + 2) = 0 :: (List.finRange (N + 1)).map Fin.succ :=
    List.finRange_succ_eq_map (N + 1)
  have hfr : (List.finRange (N + 2)).drop 1 =
      (List.finRange (N + 1)).map Fin.succ := by rw [h0]; rfl
  refine ⟨?_, ?_, ?_, ?_, ?_, ?_, ?_⟩
  · simp [CState.init]
  · simp [CState.init]
  · show ((List.finRange (N + 2)).drop 1 ++ [(⟨0, by omega⟩ : Fin (N + 2))]).Nodup
    rw [hfr]
    refine List.Nodup.append ?_ (by simp) ?_
    · exact (List.nodup_finRange (N + 1)).map (Fin.succ_injective _)
    · intro x hx hx0
      simp only [List.mem_singleton] at hx0
      subst hx0
      simp only [List.mem_map] at hx
      obtain ⟨y, -, hy⟩ := hx
      exact absurd hy (Fin.succ_ne_zero y)
  · intro t t' n h h'; exact absurd h (by simp [CState.init, CPc.ownNode])
  · intro t
    refine ⟨?_, ?_, ?_, ?_, ?_, ?_, ?_, ?_, ?_⟩ <;>
      intro n <;>
      first
        | exact fun h => absurd h (by simp [CState.init, CPc.preOwn,
            CPc.preLockedNode, CPc.holderNode])
        | intros; simp_all [CState.init, CPc.targetOf]
  · intro c0 h _
    simp only [CState.init, List.head?, Option.some.injEq] at h
    subst h
    exact ⟨rfl, rfl⟩
  · intro p n h _
    exact absurd h (by simp [CState.init, adj])

end clh_mutex


namespace clh_mutex

/-- Ownership uniqueness survives a pc update that does not acquire a new
node (the new pc owns at most what the old pc owned). -/
theorem own_uniq_update {N : Nat} (s : CState N) (t : Nat) (x : CPc N)
    (huniq : ∀ u u' n, (s.pcs u).ownNode = some n →
      (s.pcs u').ownNode = some n → u = u')
    (hsame : ∀ n, x.ownNode = some n → (s.pcs t).ownNode = some n) :
    ∀ u u' n, ((Function.update s.pcs t x u).ownNode = some n) →
      ((Function.update s.pcs t x u').ownNode = some n) → u = u' := by
  intro u u' n h1 h2
  by_cases hu : u = t
  · by_cases hu' : u' = t
    · rw [hu, hu']
    · rw [hu, Function.update_same] at h1
      rw [Function.update_noteq hu'] at h2
      rw [hu]
      exact huniq t u' n (hsame n h1) h2
  · rw [Function.update_noteq hu] at h1
    by_cases hu' : u' = t
    · rw [hu', Function.update_same] at h2
      rw [hu']
      exact huniq u t n h1 (hsame n h2)
    · rw [Function.update_noteq hu'] at h2
      exact huniq u u' n h1 h2

/-- Ownership uniqueness survives a pc update that acquires a previously
unowned node. -/
theorem own_uniq_update_new {N : Nat} (s : CState N) (t : Nat) (x : CPc N)
    (a : Fin (N + 2))
    (huniq : ∀ u u' n, (s.pcs u).ownNode = some n →
      (s.pcs u').ownNode = some n → u = u')
    (hx : ∀ n, x.ownNode = some n → n = a)
    (hnew : ∀ u, (s.pcs u).ownNode ≠ some a) :
    ∀ u u' n, ((Function.update s.pcs t x u).ownNode = some n) →
      ((Function.update s.pcs t x u').ownNode = some n) → u = u' := by
  intro u u' n h1 h2
  by_cases hu : u = t
  · by_cases hu' : u' = t
    · rw [hu, hu']
    · rw [hu, Function.update_same] at h1
      rw [Function.update_noteq hu'] at h2
      rw [hx n h1] at h2
      exact absurd h2 (hnew u')
  · rw [Function.update_noteq hu] at h1
    by_cases hu' : u' = t
    · rw [hu', Function.update_same] at h2
      rw [hx n h2] at h1
      exact absurd h1 (hnew u)
    · rw [Function.update_noteq hu'] at h2
      exact huniq u u' n h1 h2

/-- An unownedness assumption over updated pcs transfers to the old pcs when
the update does not release a node. -/
theorem unowned_update {N : Nat} (s : CState N) (t : Nat) (x : CPc N)
    (c : Fin (N + 2))
    (hsame : ∀ n, (s.pcs t).ownNode = some n → x.ownNode = some n)
    (h : ∀ u, ((Function.update s.pcs t x) u).ownNode ≠ some c) :
    ∀ u, (s.pcs u).ownNode ≠ some c := by
  intro u hc
  by_cases hu : u = t
  · have ht := h t
    rw [Function.update_same] at ht
    rw [hu] at hc
    exact ht (hsame c hc)
  · have hu' := h u
    rw [Function.update_noteq hu] at hu'
    exact hu' hc

/-- As `unowned_update`, for an update that releases node `m ≠ c`. -/
theorem unowned_update_drop {N : Nat} (s : CState N) (t : Nat) (x : CPc N)
    (c m : Fin (N + 2))
    (hm : (s.pcs t).ownNode = some m) (hcm : c ≠ m)
    (h : ∀ u, ((Function.update s.pcs t x) u).ownNode ≠ some c) :
    ∀ u, (s.pcs u).ownNode ≠ some c := by
  intro u hc
  by_cases hu : u = t
  · rw [hu, hm] at hc
    exact hcm (Option.some.inj hc).symm
  · have hu' := h u
    rw [Function.update_noteq hu] at hu'
    exact hu' hc

/-- Per-thread facts only depend on the listed fields of the state. -/
theorem thOk_congr {N : Nat} (s s' : CState N) (pc : CPc N)
    (hfree : s'.free = s.free) (hchain : s'.chain = s.chain)
    (hlocked : s'.locked = s.locked) (hpred : s'.pred = s.pred)
    (hactive : s'.active = s.active) (h : thOk s pc) : thOk s' pc := by
  unfold thOk at h ⊢
  rw [hfree, hchain, hlocked, hpred, hactive]
  exact h

theorem thOk_idle {N : Nat} (s : CState N) : thOk s CPc.idle := by
  refine ⟨?_, ?_, ?_, ?_, ?_, ?_, ?_, ?_, ?_⟩ <;> intros <;>
    simp_all [CPc.preOwn, CPc.preLockedNode, CPc.targetOf, CPc.holderNode]

theorem thOk_popping {N : Nat} (s : CState N) (d : Nat) :
    thOk s (CPc.popping d) := by
  refine ⟨?_, ?_, ?_, ?_, ?_, ?_, ?_, ?_, ?_⟩ <;> intros <;>
    simp_all [CPc.preOwn, CPc.preLockedNode, CPc.targetOf, CPc.holderNode]

theorem thOk_popCheck {N : Nat} (s : CState N) (d : Nat) :
    thOk s (CPc.popCheck d) := by
  refine ⟨?_, ?_, ?_, ?_, ?_, ?_, ?_, ?_, ?_⟩ <;> intros <;>
    simp_all [CPc.preOwn, CPc.preLockedNode, CPc.targetOf, CPc.holderNode]

theorem thOk_failed {N : Nat} (s : CState N) : thOk s CPc.failed := by
  refine ⟨?_, ?_, ?_, ?_, ?_, ?_, ?_, ?_, ?_⟩ <;> intros <;>
    simp_all [CPc.preOwn, CPc.preLockedNode, CPc.targetOf, CPc.holderNode]

theorem thOk_exhausted {N : Nat} (s : CState N) (e : errc) :
    thOk s (CPc.exhausted e) := by
  refine ⟨?_, ?_, ?_, ?_, ?_, ?_, ?_, ?_, ?_⟩ <;> intros <;>
    simp_all [CPc.preOwn, CPc.preLockedNode, CPc.targetOf, CPc.holderNode]

end clh_mutex

theorem head?_mem {α : Type} (l : List α) (c : α) (h : l.head? = some c) :
    c ∈ l := by
  cases l with
  | nil => cases h
  | cons a t =>
    simp only [List.head?, Option.some.injEq] at h
    rw [← h]
    exact List.mem_cons_self _ _

theorem adj_append_cases {α : Type} (l : List α) (p n x : α)
    (h : adj (l ++ [x]) p n) : adj l p n ∨ (n = x ∧ l.getLast? = some p) := by
  induction l with
  | nil => cases h
  | cons a rest ih =>
    cases rest with
    | nil =>
      rcases h with ⟨ha, hx⟩ | h
      · exact Or.inr ⟨hx.symm, by rw [ha]; rfl⟩
      · cases h
    | cons b rest' =>
      rcases h with ⟨ha, hb⟩ | h
      · exact Or.inl (Or.inl ⟨ha, hb⟩)
      · rcases ih h with h' | ⟨hn, hl⟩
        · exact Or.inl (Or.inr h')
        · exact Or.inr ⟨hn, by rw [← hl, List.getLast?_cons_cons]⟩

theorem adj_erase_inv {α : Type} (u v : List α) (p n : α) :
    ∀ x y, adj (u ++ n :: v) x y →
      adj (u ++ p :: n :: v) x y ∨ (y = n ∧ u.getLast? = some x) := by
  induction u with
  | nil =>
    intro x y h
    exact Or.inl (Or.inr h)
  | cons a u' ih =>
    intro x y h
    cases hu : u' with
    | nil =>
      subst hu
      rcases h with ⟨ha, hn⟩ | h
      · exact Or.inr ⟨hn.symm, by rw [ha]; rfl⟩
      · exact Or.inl (Or.inr (Or.inr h))
    | cons b u'' =>
      subst hu
      rcases h with ⟨ha, hb⟩ | h
      · exact Or.inl (Or.inl ⟨ha, hb⟩)
      · rcases ih x y h with h' | ⟨hy, hl⟩
        · exact Or.inl (Or.inr h')
        · exact Or.inr ⟨hy, by rw [← hl, List.getLast?_cons_cons]⟩

theorem erase_decomp {α : Type} [DecidableEq α] (u w : List α) (p : α)
    (hp : p ∉ u) : (u ++ p :: w).erase p = u ++ w := by
  rw [List.erase_append_right _ hp, List.erase_cons_head]

namespace clh_mutex

theorem ownNode_of_preOwn {N : Nat} (pc : CPc N) (n : Fin (N + 2))
    (h : pc.preOwn = some n) : pc.ownNode = some n := by
  cases pc <;> first | exact h | cases h

theorem ownNode_of_preLockedNode {N : Nat} (pc : CPc N) (n : Fin (N + 2))
    (h : pc.preLockedNode = some n) : pc.ownNode = some n := by
  cases pc <;> first | exact h | cases h

theorem ownNode_of_targetOf {N : Nat} (pc : CPc N) (p n : Fin (N + 2))
    (h : pc.targetOf = some (p, n)) : pc.ownNode = some n := by
  cases pc with
  | checkInherit m a d =>
    cases a with
    | none => cases h
    | some q =>
      simp only [CPc.targetOf, Option.some.injEq, Prod.mk.injEq] at h
      simp only [CPc.ownNode, Option.some.injEq]
      exact h.2
  | incrCount m q d =>
    simp only [CPc.targetOf, Option.some.injEq, Prod.mk.injEq] at h
    simp only [CPc.ownNode, Option.some.injEq]
    exact h.2
  | spin m q d =>
    simp only [CPc.targetOf, Option.some.injEq, Prod.mk.injEq] at h
    simp only [CPc.ownNode, Option.some.injEq]
    exact h.2
  | spinCheck m q d =>
    simp only [CPc.targetOf, Option.some.injEq, Prod.mk.injEq] at h
    simp only [CPc.ownNode, Option.some.injEq]
    exact h.2
  | abandonPred m q d =>
    simp only [CPc.targetOf, Option.some.injEq, Prod.mk.injEq] at h
    simp only [CPc.ownNode, Option.some.injEq]
    exact h.2
  | abandonLocked m q d =>
    simp only [CPc.targetOf, Option.some.injEq, Prod.mk.injEq] at h
    simp only [CPc.ownNode, Option.some.injEq]
    exact h.2
  | readPredPred m q d =>
    simp only [CPc.targetOf, Option.some.injEq, Prod.mk.injEq] at h
    simp only [CPc.ownNode, Option.some.injEq]
    exact h.2
  | pushing m q a d =>
    simp only [CPc.targetOf, Option.some.injEq, Prod.mk.injEq] at h
    simp only [CPc.ownNode, Option.some.injEq]
    exact h.2
  | _ => cases h

theorem ownNode_of_holderNode {N : Nat} (pc : CPc N) (n : Fin (N + 2))
    (h : pc.holderNode = some n) : pc.ownNode = some n := by
  cases pc with
  | checkInherit m a d =>
    cases a with
    | none => exact h
    | some q => cases h
  | setActive m => exact h
  | cs m => exact h
  | u1 m => exact h
  | u2 m => exact h
  | _ => cases h

/-- Transfer the per-thread facts of a non-acting thread across a step that
changes `locked` and `pred` at most at the acting thread's node `n₀`, only
removes free nodes or adds chain nodes to the free list, and keeps the chain.
`hn₀` states that the acting node, when enqueued, is still locked before the
step. -/
theorem thOk_transfer {N : Nat} (s s' : CState N) (pc : CPc N)
    (x₀ : Option (Fin (N + 2)))
    (hown : ∀ m, pc.ownNode = some m → some m ≠ x₀)
    (hfree : ∀ x, x ∉ s.free → x ∉ s.chain → x ∉ s'.free)
    (hchain : s'.chain = s.chain)
    (hlock : ∀ m, some m ≠ x₀ → s'.locked m = s.locked m)
    (hpred : ∀ m, some m ≠ x₀ → s'.pred m = s.pred m)
    (hn₀ : ∀ m, x₀ = some m → m ∈ s.chain → s.locked m = true)
    (hactive : ∀ m, pc = CPc.cs m → s'.active = s.active)
    (h : thOk s pc) : thOk s' pc := by
  obtain ⟨w1, w2, w3, w4, w5, w6, w7, w8, w9⟩ := h
  refine ⟨?_, ?_, ?_, ?_, ?_, ?_, ?_, ?_, ?_⟩
  · intro m hm
    obtain ⟨hf, hc⟩ := w1 m hm
    exact ⟨hfree m hf hc, by rw [hchain]; exact hc⟩
  · intro m hm
    rw [hlock m (hown m (ownNode_of_preLockedNode pc m hm))]
    exact w2 m hm
  · intro p m hm
    obtain ⟨ha, hl⟩ := w3 p m hm
    refine ⟨by rw [hchain]; exact ha, ?_⟩
    rw [hlock m (hown m (ownNode_of_targetOf pc p m hm))]
    exact hl
  · intro m p d hm
    have hmo : pc.ownNode = some m := by rw [hm]; rfl
    rw [hpred m (hown m hmo)]
    exact w4 m p d hm
  · intro m p d hm
    by_cases hpx : some p = x₀
    · exfalso
      have htg : pc.targetOf = some (p, m) := by rw [hm]; rfl
      have hpm : p ∈ s.chain := (adj_mem _ _ _ (w3 p m htg).1).1
      have := hn₀ p hpx.symm hpm
      rw [w5 m p d hm] at this
      cases this
    · rw [hlock p hpx]
      exact w5 m p d hm
  · intro m p a d hm
    by_cases hpx : some p = x₀
    · exfalso
      have htg : pc.targetOf = some (p, m) := by rw [hm]; rfl
      have hpm : p ∈ s.chain := (adj_mem _ _ _ (w3 p m htg).1).1
      have := hn₀ p hpx.symm hpm
      rw [(w6 m p a d hm).1] at this
      cases this
    · rw [hlock p hpx, hpred p hpx]
      exact w6 m p a d hm
  · intro m hm
    obtain ⟨hh, hl⟩ := w7 m hm
    refine ⟨by rw [hchain]; exact hh, ?_⟩
    rw [hlock m (hown m (ownNode_of_holderNode pc m hm))]
    exact hl
  · intro m hm
    have hmo : pc.ownNode = some m := by rw [hm]; rfl
    rw [hpred m (hown m hmo)]
    exact w8 m hm
  · intro m hm
    rw [hactive m hm]
    exact w9 m hm

end clh_mutex

namespace clh_mutex

theorem thOk_setLocked {N : Nat} (s : CState N) (n : Fin (N + 2)) (d : Nat)
    (hf : n ∉ s.free) (hc : n ∉ s.chain) : thOk s (CPc.setLocked n d) := by
  refine ⟨?_, ?_, ?_, ?_, ?_, ?_, ?_, ?_, ?_⟩
  · intro m hm; cases hm; exact ⟨hf, hc⟩
  · intro m hm; exact absurd hm (by simp [CPc.preLockedNode])
  · intro p' m hm; exact absurd hm (by simp [CPc.targetOf])
  · intro m p' d' hm; exact absurd hm (by simp)
  · intro m p' d' hm; exact absurd hm (by simp)
  · intro m p' a' d' hm; exact absurd hm (by simp)
  · intro m hm; exact absurd hm (by simp [CPc.holderNode])
  · intro m hm; exact absurd hm (by simp)
  · intro m hm; exact absurd hm (by simp)

theorem thOk_readTail {N : Nat} (s : CState N) (n : Fin (N + 2)) (d : Nat)
    (hf : n ∉ s.free) (hc : n ∉ s.chain) (hl : s.locked n = true) :
    thOk s (CPc.readTail n d) := by
  refine ⟨?_, ?_, ?_, ?_, ?_, ?_, ?_, ?_, ?_⟩
  · intro m hm; cases hm; exact ⟨hf, hc⟩
  · intro m hm; cases hm; exact hl
  · intro p' m hm; exact absurd hm (by simp [CPc.targetOf])
  · intro m p' d' hm; exact absurd hm (by simp)
  · intro m p' d' hm; exact absurd hm (by simp)
  · intro m p' a' d' hm; exact absurd hm (by simp)
  · intro m hm; exact absurd hm (by simp [CPc.holderNode])
  · intro m hm; exact absurd hm (by simp)
  · intro m hm; exact absurd hm (by simp)

theorem thOk_casTail {N : Nat} (s : CState N) (n p : Fin (N + 2)) (d : Nat)
    (hf : n ∉ s.free) (hc : n ∉ s.chain) (hl : s.locked n = true) :
    thOk s (CPc.casTail n p d) := by
  refine ⟨?_, ?_, ?_, ?_, ?_, ?_, ?_, ?_, ?_⟩
  · intro m hm; cases hm; exact ⟨hf, hc⟩
  · intro m hm; cases hm; exact hl
  · intro p' m hm; exact absurd hm (by simp [CPc.targetOf])
  · intro m p' d' hm; exact absurd hm (by simp)
  · intro m p' d' hm; exact absurd hm (by simp)
  · intro m p' a' d' hm; exact absurd hm (by simp)
  · intro m hm; exact absurd hm (by simp [CPc.holderNode])
  · intro m hm; exact absurd hm (by simp)
  · intro m hm; exact absurd hm (by simp)

theorem thOk_casCheck {N : Nat} (s : CState N) (n p : Fin (N + 2)) (d : Nat)
    (hf : n ∉ s.free) (hc : n ∉ s.chain) (hl : s.locked n = true) :
    thOk s (CPc.casCheck n p d) := by
  refine ⟨?_, ?_, ?_, ?_, ?_, ?_, ?_, ?_, ?_⟩
  · intro m hm; cases hm; exact ⟨hf, hc⟩
  · intro m hm; cases hm; exact hl
  · intro p' m hm; exact absurd hm (by simp [CPc.targetOf])
  · intro m p' d' hm; exact absurd hm (by simp)
  · intro m p' d' hm; exact absurd hm (by simp)
  · intro m p' a' d' hm; exact absurd hm (by simp)
  · intro m hm; exact absurd hm (by simp [CPc.holderNode])
  · intro m hm; exact absurd hm (by simp)
  · intro m hm; exact absurd hm (by simp)

theorem thOk_incrCount {N : Nat} (s : CState N) (n p : Fin (N + 2)) (d : Nat)
    (ha : adj s.chain p n) (hl : s.locked n = true) :
    thOk s (CPc.incrCount n p d) := by
  refine ⟨?_, ?_, ?_, ?_, ?_, ?_, ?_, ?_, ?_⟩
  · intro m hm; exact absurd hm (by simp [CPc.preOwn])
  · intro m hm; exact absurd hm (by simp [CPc.preLockedNode])
  · intro p' m hm
    simp only [CPc.targetOf, Option.some.injEq, Prod.mk.injEq] at hm
    rw [← hm.1, ← hm.2]
    exact ⟨ha, hl⟩
  · intro m p' d' hm; exact absurd hm (by simp)
  · intro m p' d' hm; exact absurd hm (by simp)
  · intro m p' a' d' hm; exact absurd hm (by simp)
  · intro m hm; exact absurd hm (by simp [CPc.holderNode])
  · intro m hm; exact absurd hm (by simp)
  · intro m hm; exact absurd hm (by simp)

theorem thOk_spin {N : Nat} (s : CState N) (n p : Fin (N + 2)) (d : Nat)
    (ha : adj s.chain p n) (hl : s.locked n = true) :
    thOk s (CPc.spin n p d) := by
  refine ⟨?_, ?_, ?_, ?_, ?_, ?_, ?_, ?_, ?_⟩
  · intro m hm; exact absurd hm (by simp [CPc.preOwn])
  · intro m hm; exact absurd hm (by simp [CPc.preLockedNode])
  · intro p' m hm
    simp only [CPc.targetOf, Option.some.injEq, Prod.mk.injEq] at hm
    rw [← hm.1, ← hm.2]
    exact ⟨ha, hl⟩
  · intro m p' d' hm; exact absurd hm (by simp)
  · intro m p' d' hm; exact absurd hm (by simp)
  · intro m p' a' d' hm; exact absurd hm (by simp)
  · intro m hm; exact absurd hm (by simp [CPc.holderNode])
  · intro m hm; exact absurd hm (by simp)
  · intro m hm; exact absurd hm (by simp)

theorem thOk_spinCheck {N : Nat} (s : CState N) (n p : Fin (N + 2)) (d : Nat)
    (ha : adj s.chain p n) (hl : s.locked n = true) :
    thOk s (CPc.spinCheck n p d) := by
  refine ⟨?_, ?_, ?_, ?_, ?_, ?_, ?_, ?_, ?_⟩
  · intro m hm; exact absurd hm (by simp [CPc.preOwn])
  · intro m hm; exact absurd hm (by simp [CPc.preLockedNode])
  · intro p' m hm
    simp only [CPc.targetOf, Option.some.injEq, Prod.mk.injEq] at hm
    rw [← hm.1, ← hm.2]
    exact ⟨ha, hl⟩
  · intro m p' d' hm; exact absurd hm (by simp)
  · intro m p' d' hm; exact absurd hm (by simp)
  · intro m p' a' d' hm; exact absurd hm (by simp)
  · intro m hm; exact absurd hm (by simp [CPc.holderNode])
  · intro m hm; exact absurd hm (by simp)
  · intro m hm; exact absurd hm (by simp)

theorem thOk_abandonPred {N : Nat} (s : CState N) (n p : Fin (N + 2)) (d : Nat)
    (ha : adj s.chain p n) (hl : s.locked n = true) :
    thOk s (CPc.abandonPred n p d) := by
  refine ⟨?_, ?_, ?_, ?_, ?_, ?_, ?_, ?_, ?_⟩
  · intro m hm; exact absurd hm (by simp [CPc.preOwn])
  · intro m hm; exact absurd hm (by simp [CPc.preLockedNode])
  · intro p' m hm
    simp only [CPc.targetOf, Option.some.injEq, Prod.mk.injEq] at hm
    rw [← hm.1, ← hm.2]
    exact ⟨ha, hl⟩
  · intro m p' d' hm; exact absurd hm (by simp)
  · intro m p' d' hm; exact absurd hm (by simp)
  · intro m p' a' d' hm; exact absurd hm (by simp)
  · intro m hm; exact absurd hm (by simp [CPc.holderNode])
  · intro m hm; exact absurd hm (by simp)
  · intro m hm; exact absurd hm (by simp)

theorem thOk_abandonLocked {N : Nat} (s : CState N) (n p : Fin (N + 2))
    (d : Nat) (ha : adj s.chain p n) (hl : s.locked n = true)
    (hp : s.pred n = some p) : thOk s (CPc.abandonLocked n p d) := by
  refine ⟨?_, ?_, ?_, ?_, ?_, ?_, ?_, ?_, ?_⟩
  · intro m hm; exact absurd hm (by simp [CPc.preOwn])
  · intro m hm; exact absurd hm (by simp [CPc.preLockedNode])
  · intro p' m hm
    simp only [CPc.targetOf, Option.some.injEq, Prod.mk.injEq] at hm
    rw [← hm.1, ← hm.2]
    exact ⟨ha, hl⟩
  · intro m p' d' hm
    cases hm
    exact hp
  · intro m p' d' hm; exact absurd hm (by simp)
  · intro m p' a' d' hm; exact absurd hm (by simp)
  · intro m hm; exact absurd hm (by simp [CPc.holderNode])
  · intro m hm; exact absurd hm (by simp)
  · intro m hm; exact absurd hm (by simp)

theorem thOk_readPredPred {N : Nat} (s : CState N) (n p : Fin (N + 2))
    (d : Nat) (ha : adj s.chain p n) (hl : s.locked n = true)
    (hp : s.locked p = false) : thOk s (CPc.readPredPred n p d) := by
  refine ⟨?_, ?_, ?_, ?_, ?_, ?_, ?_, ?_, ?_⟩
  · intro m hm; exact absurd hm (by simp [CPc.preOwn])
  · intro m hm; exact absurd hm (by simp [CPc.preLockedNode])
  · intro p' m hm
    simp only [CPc.targetOf, Option.some.injEq, Prod.mk.injEq] at hm
    rw [← hm.1, ← hm.2]
    exact ⟨ha, hl⟩
  · intro m p' d' hm; exact absurd hm (by simp)
  · intro m p' d' hm
    cases hm
    exact hp
  · intro m p' a' d' hm; exact absurd hm (by simp)
  · intro m hm; exact absurd hm (by simp [CPc.holderNode])
  · intro m hm; exact absurd hm (by simp)
  · intro m hm; exact absurd hm (by simp)

theorem thOk_pushing {N : Nat} (s : CState N) (n p : Fin (N + 2))
    (a : Option (Fin (N + 2))) (d : Nat) (ha : adj s.chain p n)
    (hl : s.locked n = true) (hp : s.locked p = false) (hpa : a = s.pred p) :
    thOk s (CPc.pushing n p a d) := by
  refine ⟨?_, ?_, ?_, ?_, ?_, ?_, ?_, ?_, ?_⟩
  · intro m hm; exact absurd hm (by simp [CPc.preOwn])
  · intro m hm; exact absurd hm (by simp [CPc.preLockedNode])
  · intro p' m hm
    simp only [CPc.targetOf, Option.some.injEq, Prod.mk.injEq] at hm
    rw [← hm.1, ← hm.2]
    exact ⟨ha, hl⟩
  · intro m p' d' hm; exact absurd hm (by simp)
  · intro m p' d' hm; exact absurd hm (by simp)
  · intro m p' a' d' hm
    cases hm
    exact ⟨hp, hpa⟩
  · intro m hm; exact absurd hm (by simp [CPc.holderNode])
  · intro m hm; exact absurd hm (by simp)
  · intro m hm; exact absurd hm (by simp)

theorem thOk_checkInherit {N : Nat} (s : CState N) (n : Fin (N + 2))
    (a : Option (Fin (N + 2))) (d : Nat)
    (hsome : ∀ p', a = some p' → adj s.chain p' n ∧ s.locked n = true)
    (hnone : a = none → s.chain.head? = some n ∧ s.locked n = true) :
    thOk s (CPc.checkInherit n a d) := by
  refine ⟨?_, ?_, ?_, ?_, ?_, ?_, ?_, ?_, ?_⟩
  · intro m hm; cases a <;> exact absurd hm (by simp [CPc.preOwn])
  · intro m hm; cases a <;> exact absurd hm (by simp [CPc.preLockedNode])
  · intro p' m hm
    cases ha : a with
    | none =>
      rw [ha] at hm
      exact absurd hm (by simp [CPc.targetOf])
    | some q =>
      rw [ha] at hm
      simp only [CPc.targetOf, Option.some.injEq, Prod.mk.injEq] at hm
      rw [← hm.1, ← hm.2]
      exact hsome q ha
  · intro m p' d' hm; exact absurd hm (by simp)
  · intro m p' d' hm; exact absurd hm (by simp)
  · intro m p' a' d' hm; exact absurd hm (by simp)
  · intro m hm
    cases ha : a with
    | none =>
      rw [ha] at hm
      cases hm
      exact hnone ha
    | some q =>
      rw [ha] at hm
      exact absurd hm (by simp [CPc.holderNode])
  · intro m hm; exact absurd hm (by simp)
  · intro m hm; exact absurd hm (by simp)

theorem thOk_setActive {N : Nat} (s : CState N) (n : Fin (N + 2))
    (hh : s.chain.head? = some n) (hl : s.locked n = true) :
    thOk s (CPc.setActive n) := by
  refine ⟨?_, ?_, ?_, ?_, ?_, ?_, ?_, ?_, ?_⟩
  · intro m hm; exact absurd hm (by simp [CPc.preOwn])
  · intro m hm; exact absurd hm (by simp [CPc.preLockedNode])
  · intro p' m hm; exact absurd hm (by simp [CPc.targetOf])
  · intro m p' d' hm; exact absurd hm (by simp)
  · intro m p' d' hm; exact absurd hm (by simp)
  · intro m p' a' d' hm; exact absurd hm (by simp)
  · intro m hm; cases hm; exact ⟨hh, hl⟩
  · intro m hm; exact absurd hm (by simp)
  · intro m hm; exact absurd hm (by simp)

theorem thOk_cs {N : Nat} (s : CState N) (n : Fin (N + 2))
    (hh : s.chain.head? = some n) (hl : s.locked n = true)
    (hact : s.active = n) : thOk s (CPc.cs n) := by
  refine ⟨?_, ?_, ?_, ?_, ?_, ?_, ?_, ?_, ?_⟩
  · intro m hm; exact absurd hm (by simp [CPc.preOwn])
  · intro m hm; exact absurd hm (by simp [CPc.preLockedNode])
  · intro p' m hm; exact absurd hm (by simp [CPc.targetOf])
  · intro m p' d' hm; exact absurd hm (by simp)
  · intro m p' d' hm; exact absurd hm (by simp)
  · intro m p' a' d' hm; exact absurd hm (by simp)
  · intro m hm; cases hm; exact ⟨hh, hl⟩
  · intro m hm; exact absurd hm (by simp)
  · intro m hm; cases hm; exact hact

theorem thOk_u1 {N : Nat} (s : CState N) (n : Fin (N + 2))
    (hh : s.chain.head? = some n) (hl : s.locked n = true) :
    thOk s (CPc.u1 n) := by
  refine ⟨?_, ?_, ?_, ?_, ?_, ?_, ?_, ?_, ?_⟩
  · intro m hm; exact absurd hm (by simp [CPc.preOwn])
  · intro m hm; exact absurd hm (by simp [CPc.preLockedNode])
  · intro p' m hm; exact absurd hm (by simp [CPc.targetOf])
  · intro m p' d' hm; exact absurd hm (by simp)
  · intro m p' d' hm; exact absurd hm (by simp)
  · intro m p' a' d' hm; exact absurd hm (by simp)
  · intro m hm; cases hm; exact ⟨hh, hl⟩
  · intro m hm; exact absurd hm (by simp)
  · intro m hm; exact absurd hm (by simp)

theorem thOk_u2 {N : Nat} (s : CState N) (n : Fin (N + 2))
    (hh : s.chain.head? = some n) (hl : s.locked n = true)
    (hp : s.pred n = none) : thOk s (CPc.u2 n) := by
  refine ⟨?_, ?_, ?_, ?_, ?_, ?_, ?_, ?_, ?_⟩
  · intro m hm; exact absurd hm (by simp [CPc.preOwn])
  · intro m hm; exact absurd hm (by simp [CPc.preLockedNode])
  · intro p' m hm; exact absurd hm (by simp [CPc.targetOf])
  · intro m p' d' hm; exact absurd hm (by simp)
  · intro m p' d' hm; exact absurd hm (by simp)
  · intro m p' a' d' hm; exact absurd hm (by simp)
  · intro m hm; cases hm; exact ⟨hh, hl⟩
  · intro m hm; cases hm; exact hp
  · intro m hm; exact absurd hm (by simp)

end clh_mutex

theorem head?_append_ne {α : Type} (l : List α) (x : α) (h : l ≠ []) :
    (l ++ [x]).head? = l.head? := by
  cases l with
  | nil => exact absurd rfl h
  | cons a t => rfl

theorem adj_getLast_cons {α : Type} (l : List α) (q x : α) (w : List α)
    (h : l.getLast? = some q) : adj (l ++ x :: w) q x := by
  induction l with
  | nil => cases h
  | cons a rest ih =>
    cases rest with
    | nil =>
      simp only [List.getLast?_singleton, Option.some.injEq] at h
      subst h
      exact Or.inl ⟨rfl, rfl⟩
    | cons b rest' =>
      rw [List.getLast?_cons_cons] at h
      exact Or.inr (ih h)

namespace clh_mutex

theorem own_update_self {N : Nat} (s : CState N) (t : Nat) (x : CPc N)
    (c : Fin (N + 2)) (hx : x.ownNode = some c)
    (hun : ∀ u, ((Function.update s.pcs t x) u).ownNode ≠ some c) : False :=
  hun t (by rw [Function.update_same]; exact hx)

end clh_mutex

namespace clh_mutex

/-- `thOk` of a non-acting thread survives appending a fresh node at the
chain tail. -/
theorem thOk_append_chain {N : Nat} (s s' : CState N) (pc : CPc N)
    (n : Fin (N + 2))
    (hchain : s'.chain = s.chain ++ [n])
    (hfree : s'.free = s.free) (hlocked : s'.locked = s.locked)
    (hpred : s'.pred = s.pred) (hactive : s'.active = s.active)
    (hcne : s.chain ≠ [])
    (hnotown : ∀ m, pc.ownNode = some m → m ≠ n)
    (h : thOk s pc) : thOk s' pc := by
  obtain ⟨w1, w2, w3, w4, w5, w6, w7, w8, w9⟩ := h
  refine ⟨?_, ?_, ?_, ?_, ?_, ?_, ?_, ?_, ?_⟩
  · intro m hm
    obtain ⟨hf, hc⟩ := w1 m hm
    refine ⟨by rw [hfree]; exact hf, ?_⟩
    rw [hchain]
    intro hmem
    rcases List.mem_append.mp hmem with h1 | h2
    · exact hc h1
    · simp only [List.mem_singleton] at h2
      exact hnotown m (ownNode_of_preOwn pc m hm) h2
  · intro m hm; rw [hlocked]; exact w2 m hm
  · intro q m hm
    obtain ⟨ha, hl⟩ := w3 q m hm
    exact ⟨by rw [hchain]; exact adj_append _ _ _ _ ha,
      by rw [hlocked]; exact hl⟩
  · intro m q d hm; rw [hpred]; exact w4 m q d hm
  · intro m q d hm; rw [hlocked]; exact w5 m q d hm
  · intro m q a d hm; rw [hlocked, hpred]; exact w6 m q a d hm
  · intro m hm
    obtain ⟨hh, hl⟩ := w7 m hm
    exact ⟨by rw [hchain, head?_append_ne _ _ hcne]; exact hh,
      by rw [hlocked]; exact hl⟩
  · intro m hm; rw [hpred]; exact w8 m hm
  · intro m hm; rw [hactive]; exact w9 m hm

/-- The CLH invariant is preserved by every step. -/
theorem CInv_step (N : Nat) (P : Failure) (s s' : CState N)
    (hstep : CStep N P s s') (hinv : CInv N s) : CInv N s' := by
  obtain ⟨hcn, htl, hnd, huq, hth, hhg, hint⟩ := hinv
  cases hstep with
  | tick => exact ⟨hcn, htl, hnd, huq, hth, hhg, hint⟩
  | start t d h =>
    refine ⟨hcn, htl, hnd, ?_, ?_, ?_, ?_⟩
    · exact own_uniq_update s t _ huq (fun m hm => by simp [CPc.ownNode] at hm)
    · intro u
      simp only [Function.update_apply]
      by_cases hu : u = t
      · rw [if_pos hu]
        exact thOk_popping _ d
      · rw [if_neg hu]
        exact thOk_transfer s _ _ none (fun m _ => by simp) (fun x hx _ => hx)
          rfl (fun m _ => rfl) (fun m _ => rfl) (fun m hm => by cases hm)
          (fun _ _ => rfl) (hth u)
    · intro c0 hc0 hun
      exact hhg c0 hc0 (unowned_update s t _ c0
        (fun m hm => by rw [h] at hm; simp [CPc.ownNode] at hm) hun)
    · intro p1 n1 hadj hun
      exact hint p1 n1 hadj (unowned_update s t _ n1
        (fun m hm => by rw [h] at hm; simp [CPc.ownNode] at hm) hun)
  | popOk t d a b rest h hf =>
    have hafree : a ∈ s.free := by rw [hf]; exact List.mem_cons_self _ _
    have hdisj := List.disjoint_of_nodup_append hnd
    have hachain : a ∉ s.chain := hdisj hafree
    have hnew : ∀ u, (s.pcs u).ownNode ≠ some a := by
      intro u hu
      rcases ownNode_cases _ _ hu with hpre | hday | hhold
      · exact ((hth u).1 a hpre).1 hafree
      · obtain ⟨q, htg⟩ := hday
        exact hachain (adj_mem _ _ _ (((hth u).2.2.1) q a htg).1).2
      · exact hachain (head?_mem _ _ (((hth u).2.2.2.2.2.2.1) a hhold).1)
    have hnd' : ((b :: rest) ++ s.chain).Nodup := by
      rw [hf] at hnd
      simp only [List.cons_append] at hnd
      exact hnd.of_cons
    have hanbr : a ∉ b :: rest := by
      rw [hf] at hnd
      simp only [List.cons_append, List.nodup_cons] at hnd
      intro hm
      exact hnd.1 (List.mem_append_left _ hm)
    refine ⟨hcn, htl, hnd', ?_, ?_, ?_, ?_⟩
    · refine own_uniq_update_new s t _ a huq ?_ hnew
      intro m hm
      simp only [CPc.ownNode, Option.some.injEq] at hm
      exact hm.symm
    · intro u
      simp only [Function.update_apply]
      by_cases hu : u = t
      · rw [if_pos hu]
        exact thOk_setLocked _ a d hanbr hachain
      · rw [if_neg hu]
        refine thOk_transfer s _ _ none (fun m _ => by simp) ?_ rfl
          (fun m _ => rfl) (fun m _ => rfl) (fun m hm => by cases hm)
          (fun _ _ => rfl) (hth u)
        intro x hx _ hmem
        exact hx (by rw [hf]; exact List.mem_cons_of_mem _ hmem)
    · intro c0 hc0 hun
      exact hhg c0 hc0 (unowned_update s t _ c0
        (fun m hm => by rw [h] at hm; simp [CPc.ownNode] at hm) hun)
    · intro p1 n1 hadj hun
      exact hint p1 n1 hadj (unowned_update s t _ n1
        (fun m hm => by rw [h] at hm; simp [CPc.ownNode] at hm) hun)
  | popEmpty t d h hf =>
    refine ⟨hcn, htl, hnd, ?_, ?_, ?_, ?_⟩
    · exact own_uniq_update s t _ huq (fun m hm => by simp [CPc.ownNode] at hm)
    · intro u
      simp only [Function.update_apply]
      by_cases hu : u = t
      · rw [if_pos hu]
        exact thOk_popCheck _ d
      · rw [if_neg hu]
        exact thOk_transfer s _ _ none (fun m _ => by simp) (fun x hx _ => hx)
          rfl (fun m _ => rfl) (fun m _ => rfl) (fun m hm => by cases hm)
          (fun _ _ => rfl) (hth u)
    · intro c0 hc0 hun
      exact hhg c0 hc0 (unowned_update s t _ c0
        (fun m hm => by rw [h] at hm; simp [CPc.ownNode] at hm) hun)
    · intro p1 n1 hadj hun
      exact hint p1 n1 hadj (unowned_update s t _ n1
        (fun m hm => by rw [h] at hm; simp [CPc.ownNode] at hm) hun)
  | popCheckTimeout t d h ht =>
    refine ⟨hcn, htl, hnd, ?_, ?_, ?_, ?_⟩
    · exact own_uniq_update s t _ huq (fun m hm => by simp [CPc.ownNode] at hm)
    · intro u
      simp only [Function.update_apply]
      by_cases hu : u = t
      · rw [if_pos hu]
        exact thOk_failed _
      · rw [if_neg hu]
        exact thOk_transfer s _ _ none (fun m _ => by simp) (fun x hx _ => hx)
          rfl (fun m _ => rfl) (fun m _ => rfl) (fun m hm => by cases hm)
          (fun _ _ => rfl) (hth u)
    · intro c0 hc0 hun
      exact hhg c0 hc0 (unowned_update s t _ c0
        (fun m hm => by rw [h] at hm; simp [CPc.ownNode] at hm) hun)
    · intro p1 n1 hadj hun
      exact hint p1 n1 hadj (unowned_update s t _ n1
        (fun m hm => by rw [h] at hm; simp [CPc.ownNode] at hm) hun)
  | popCheckDie t d h ht hp =>
    refine ⟨hcn, htl, hnd, ?_, ?_, ?_, ?_⟩
    · exact own_uniq_update s t _ huq (fun m hm => by simp [CPc.ownNode] at hm)
    · intro u
      simp only [Function.update_apply]
      by_cases hu : u = t
      · rw [if_pos hu]
        exact thOk_exhausted _ _
      · rw [if_neg hu]
        exact thOk_transfer s _ _ none (fun m _ => by simp) (fun x hx _ => hx)
          rfl (fun m _ => rfl) (fun m _ => rfl) (fun m hm => by cases hm)
          (fun _ _ => rfl) (hth u)
    · intro c0 hc0 hun
      exact hhg c0 hc0 (unowned_update s t _ c0
        (fun m hm => by rw [h] at hm; simp [CPc.ownNode] at hm) hun)
    · intro p1 n1 hadj hun
      exact hint p1 n1 hadj (unowned_update s t _ n1
        (fun m hm => by rw [h] at hm; simp [CPc.ownNode] at hm) hun)
  | popCheckRetry t d h ht hp =>
    refine ⟨hcn, htl, hnd, ?_, ?_, ?_, ?_⟩
    · exact own_uniq_update s t _ huq (fun m hm => by simp [CPc.ownNode] at hm)
    · intro u
      simp only [Function.update_apply]
      by_cases hu : u = t
      · rw [if_pos hu]
        exact thOk_popping _ d
      · rw [if_neg hu]
        exact thOk_transfer s _ _ none (fun m _ => by simp) (fun x hx _ => hx)
          rfl (fun m _ => rfl) (fun m _ => rfl) (fun m hm => by cases hm)
          (fun _ _ => rfl) (hth u)
    · intro c0 hc0 hun
      exact hhg c0 hc0 (unowned_update s t _ c0
        (fun m hm => by rw [h] at hm; simp [CPc.ownNode] at hm) hun)
    · intro p1 n1 hadj hun
      exact hint p1 n1 hadj (unowned_update s t _ n1
        (fun m hm => by rw [h] at hm; simp [CPc.ownNode] at hm) hun)
  | storeLocked t n d h =>
    have hold := hth t
    rw [h] at hold
    have hnf : n ∉ s.free := (hold.1 n rfl).1
    have hnc : n ∉ s.chain := (hold.1 n rfl).2
    refine ⟨hcn, htl, hnd, ?_, ?_, ?_, ?_⟩
    · exact own_uniq_update s t _ huq (fun m hm => by rw [h]; exact hm)
    · intro u
      simp only [Function.update_apply]
      by_cases hu : u = t
      · rw [if_pos hu]
        exact thOk_readTail _ n d hnf hnc (by
          show Function.update s.locked n true n = true
          rw [Function.update_same])
      · rw [if_neg hu]
        refine thOk_transfer s _ _ (some n) ?_ (fun x hx _ => hx) rfl ?_
          (fun m _ => rfl) ?_ (fun _ _ => rfl) (hth u)
        · intro m hm he
          injection he with he'
          rw [he'] at hm
          exact hu (huq u t n hm (by rw [h]; rfl))
        · intro m hme
          show Function.update s.locked n true m = s.locked m
          exact Function.update_noteq (fun he => hme (by rw [he])) _ _
        · intro m hme hmc
          injection hme with he'
          rw [← he'] at hmc
          exact absurd hmc hnc
    · intro c0 hc0 hun
      have hc0n : c0 ≠ n := by
        intro he
        exact own_update_self s t _ c0 (by rw [he]; rfl) hun
      obtain ⟨g1, g2⟩ := hhg c0 hc0 (unowned_update s t _ c0
        (fun m hm => by rw [h] at hm; exact hm) hun)
      refine ⟨?_, g2⟩
      show Function.update s.locked n true c0 = false
      rw [Function.update_noteq hc0n]
      exact g1
    · intro p1 n1 hadj hun
      have hn1 : n1 ≠ n := by
        intro he
        exact own_update_self s t _ n1 (by rw [he]; rfl) hun
      obtain ⟨g1, g2⟩ := hint p1 n1 hadj (unowned_update s t _ n1
        (fun m hm => by rw [h] at hm; exact hm) hun)
      refine ⟨?_, g2⟩
      show Function.update s.locked n true n1 = false
      rw [Function.update_noteq hn1]
      exact g1
  | loadTail t n d h =>
    have hold := hth t
    rw [h] at hold
    refine ⟨hcn, htl, hnd, ?_, ?_, ?_, ?_⟩
    · exact own_uniq_update s t _ huq (fun m hm => by rw [h]; exact hm)
    · intro u
      simp only [Function.update_apply]
      by_cases hu : u = t
      · rw [if_pos hu]
        exact thOk_casTail _ n s.tl d (hold.1 n rfl).1 (hold.1 n rfl).2 (hold.2.1 n rfl)
      · rw [if_neg hu]
        exact thOk_transfer s _ _ none (fun m _ => by simp) (fun x hx _ => hx)
          rfl (fun m _ => rfl) (fun m _ => rfl) (fun m hm => by cases hm)
          (fun _ _ => rfl) (hth u)
    · intro c0 hc0 hun
      exact hhg c0 hc0 (unowned_update s t _ c0
        (fun m hm => by rw [h] at hm; exact hm) hun)
    · intro p1 n1 hadj hun
      exact hint p1 n1 hadj (unowned_update s t _ n1
        (fun m hm => by rw [h] at hm; exact hm) hun)
  | casOk t n p d h hp =>
    have hold := hth t
    rw [h] at hold
    have hnf : n ∉ s.free := (hold.1 n rfl).1
    have hnc : n ∉ s.chain := (hold.1 n rfl).2
    have hnl : s.locked n = true := hold.2.1 n rfl
    have htlp : s.chain.getLast? = some p := by rw [← hp]; exact htl
    have hadj_new : adj (s.chain ++ [n]) p n := adj_getLast s.chain p n htlp
    refine ⟨?_, ?_, ?_, ?_, ?_, ?_, ?_⟩
    · show s.chain ++ [n] ≠ []
      simp
    · show (s.chain ++ [n]).getLast? = some n
      rw [List.getLast?_append_of_ne_nil _ (by simp)]
      rfl
    · show (s.free ++ (s.chain ++ [n])).Nodup
      rw [← List.append_assoc]
      refine List.Nodup.append hnd (by simp) ?_
      intro x hx hx1
      simp only [List.mem_singleton] at hx1
      subst hx1
      rcases List.mem_append.mp hx with h1 | h2
      · exact hnf h1
      · exact hnc h2
    · exact own_uniq_update s t _ huq (fun m hm => by rw [h]; exact hm)
    · intro u
      simp only [Function.update_apply]
      by_cases hu : u = t
      · rw [if_pos hu]
        exact thOk_incrCount _ n p d hadj_new hnl
      · rw [if_neg hu]
        refine thOk_append_chain s _ _ n rfl rfl rfl rfl rfl hcn ?_ (hth u)
        intro m hm he
        rw [he] at hm
        exact hu (huq u t n hm (by rw [h]; rfl))
    · intro c0 hc0 hun
      have hc0' : (s.chain ++ [n]).head? = some c0 := hc0
      rw [head?_append_ne _ _ hcn] at hc0'
      exact hhg c0 hc0' (unowned_update s t _ c0
        (fun m hm => by rw [h] at hm; exact hm) hun)
    · intro p1 n1 hadj hun
      rcases adj_append_cases s.chain p1 n1 n hadj with holdadj | hnew1
      · exact hint p1 n1 holdadj (unowned_update s t _ n1
          (fun m hm => by rw [h] at hm; exact hm) hun)
      · exfalso
        obtain ⟨he, -⟩ := hnew1
        rw [he] at hun
        exact own_update_self s t (CPc.incrCount n p d) n rfl hun
  | casFail t n p d h =>
    have hold := hth t
    rw [h] at hold
    refine ⟨hcn, htl, hnd, ?_, ?_, ?_, ?_⟩
    · exact own_uniq_update s t _ huq (fun m hm => by rw [h]; exact hm)
    · intro u
      simp only [Function.update_apply]
      by_cases hu : u = t
      · rw [if_pos hu]
        exact thOk_casCheck _ n s.tl d (hold.1 n rfl).1 (hold.1 n rfl).2 (hold.2.1 n rfl)
      · rw [if_neg hu]
        exact thOk_transfer s _ _ none (fun m _ => by simp) (fun x hx _ => hx)
          rfl (fun m _ => rfl) (fun m _ => rfl) (fun m hm => by cases hm)
          (fun _ _ => rfl) (hth u)
    · intro c0 hc0 hun
      exact hhg c0 hc0 (unowned_update s t _ c0
        (fun m hm => by rw [h] at hm; exact hm) hun)
    · intro p1 n1 hadj hun
      exact hint p1 n1 hadj (unowned_update s t _ n1
        (fun m hm => by rw [h] at hm; exact hm) hun)
  | casCheckTimeout t n p d h ht =>
    have hold := hth t
    rw [h] at hold
    have hnc : n ∉ s.chain := (hold.1 n rfl).2
    refine ⟨hcn, htl, hnd, ?_, ?_, ?_, ?_⟩
    · exact own_uniq_update s t _ huq (fun m hm => by simp [CPc.ownNode] at hm)
    · intro u
      simp only [Function.update_apply]
      by_cases hu : u = t
      · rw [if_pos hu]
        exact thOk_failed _
      · rw [if_neg hu]
        exact thOk_transfer s _ _ none (fun m _ => by simp) (fun x hx _ => hx)
          rfl (fun m _ => rfl) (fun m _ => rfl) (fun m hm => by cases hm)
          (fun _ _ => rfl) (hth u)
    · intro c0 hc0 hun
      have hc0n : c0 ≠ n := by
        intro he
        rw [he] at hc0
        exact hnc (head?_mem _ _ hc0)
      exact hhg c0 hc0 (unowned_update_drop s t _ c0 n (by rw [h]; rfl)
        hc0n hun)
    · intro p1 n1 hadj hun
      have hn1 : n1 ≠ n := by
        intro he
        rw [he] at hadj
        exact hnc (adj_mem _ _ _ hadj).2
      exact hint p1 n1 hadj (unowned_update_drop s t _ n1 n (by rw [h]; rfl)
        hn1 hun)
  | casCheckRetry t n p d h ht =>
    have hold := hth t
    rw [h] at hold
    refine ⟨hcn, htl, hnd, ?_, ?_, ?_, ?_⟩
    · exact own_uniq_update s t _ huq (fun m hm => by rw [h]; exact hm)
    · intro u
      simp only [Function.update_apply]
      by_cases hu : u = t
      · rw [if_pos hu]
        exact thOk_casTail _ n p d (hold.1 n rfl).1 (hold.1 n rfl).2 (hold.2.1 n rfl)
      · rw [if_neg hu]
        exact thOk_transfer s _ _ none (fun m _ => by simp) (fun x hx _ => hx)
          rfl (fun m _ => rfl) (fun m _ => rfl) (fun m hm => by cases hm)
          (fun _ _ => rfl) (hth u)
    · intro c0 hc0 hun
      exact hhg c0 hc0 (unowned_update s t _ c0
        (fun m hm => by rw [h] at hm; exact hm) hun)
    · intro p1 n1 hadj hun
      exact hint p1 n1 hadj (unowned_update s t _ n1
        (fun m hm => by rw [h] at hm; exact hm) hun)
  | incrCountStep t n p d h =>
    have hold := hth t
    rw [h] at hold
    refine ⟨hcn, htl, hnd, ?_, ?_, ?_, ?_⟩
    · exact own_uniq_update s t _ huq (fun m hm => by rw [h]; exact hm)
    · intro u
      simp only [Function.update_apply]
      by_cases hu : u = t
      · rw [if_pos hu]
        exact thOk_spin _ n p d (hold.2.2.1 p n rfl).1 (hold.2.2.1 p n rfl).2
      · rw [if_neg hu]
        exact thOk_transfer s _ _ none (fun m _ => by simp) (fun x hx _ => hx)
          rfl (fun m _ => rfl) (fun m _ => rfl) (fun m hm => by cases hm)
          (fun _ _ => rfl) (hth u)
    · intro c0 hc0 hun
      exact hhg c0 hc0 (unowned_update s t _ c0
        (fun m hm => by rw [h] at hm; exact hm) hun)
    · intro p1 n1 hadj hun
      exact hint p1 n1 hadj (unowned_update s t _ n1
        (fun m hm => by rw [h] at hm; exact hm) hun)
  | spinTrue t n p d h hl =>
    have hold := hth t
    rw [h] at hold
    refine ⟨hcn, htl, hnd, ?_, ?_, ?_, ?_⟩
    · exact own_uniq_update s t _ huq (fun m hm => by rw [h]; exact hm)
    · intro u
      simp only [Function.update_apply]
      by_cases hu : u = t
      · rw [if_pos hu]
        exact thOk_spinCheck _ n p d (hold.2.2.1 p n rfl).1 (hold.2.2.1 p n rfl).2
      · rw [if_neg hu]
        exact thOk_transfer s _ _ none (fun m _ => by simp) (fun x hx _ => hx)
          rfl (fun m _ => rfl) (fun m _ => rfl) (fun m hm => by cases hm)
          (fun _ _ => rfl) (hth u)
    · intro c0 hc0 hun
      exact hhg c0 hc0 (unowned_update s t _ c0
        (fun m hm => by rw [h] at hm; exact hm) hun)
    · intro p1 n1 hadj hun
      exact hint p1 n1 hadj (unowned_update s t _ n1
        (fun m hm => by rw [h] at hm; exact hm) hun)
  | spinFalse t n p d h hl =>
    have hold := hth t
    rw [h] at hold
    refine ⟨hcn, htl, hnd, ?_, ?_, ?_, ?_⟩
    · exact own_uniq_update s t _ huq (fun m hm => by rw [h]; exact hm)
    · intro u
      simp only [Function.update_apply]
      by_cases hu : u = t
      · rw [if_pos hu]
        exact thOk_readPredPred _ n p d (hold.2.2.1 p n rfl).1 (hold.2.2.1 p n rfl).2 hl
      · rw [if_neg hu]
        exact thOk_transfer s _ _ none (fun m _ => by simp) (fun x hx _ => hx)
          rfl (fun m _ => rfl) (fun m _ => rfl) (fun m hm => by cases hm)
          (fun _ _ => rfl) (hth u)
    · intro c0 hc0 hun
      exact hhg c0 hc0 (unowned_update s t _ c0
        (fun m hm => by rw [h] at hm; exact hm) hun)
    · intro p1 n1 hadj hun
      exact hint p1 n1 hadj (unowned_update s t _ n1
        (fun m hm => by rw [h] at hm; exact hm) hun)
  | spinCheckCont t n p d h ht =>
    have hold := hth t
    rw [h] at hold
    refine ⟨hcn, htl, hnd, ?_, ?_, ?_, ?_⟩
    · exact own_uniq_update s t _ huq (fun m hm => by rw [h]; exact hm)
    · intro u
      simp only [Function.update_apply]
      by_cases hu : u = t
      · rw [if_pos hu]
        exact thOk_spin _ n p d (hold.2.2.1 p n rfl).1 (hold.2.2.1 p n rfl).2
      · rw [if_neg hu]
        exact thOk_transfer s _ _ none (fun m _ => by simp) (fun x hx _ => hx)
          rfl (fun m _ => rfl) (fun m _ => rfl) (fun m hm => by cases hm)
          (fun _ _ => rfl) (hth u)
    · intro c0 hc0 hun
      exact hhg c0 hc0 (unowned_update s t _ c0
        (fun m hm => by rw [h] at hm; exact hm) hun)
    · intro p1 n1 hadj hun
      exact hint p1 n1 hadj (unowned_update s t _ n1
        (fun m hm => by rw [h] at hm; exact hm) hun)
  | spinCheckAbandon t n p d h ht =>
    have hold := hth t
    rw [h] at hold
    refine ⟨hcn, htl, hnd, ?_, ?_, ?_, ?_⟩
    · exact own_uniq_update s t _ huq (fun m hm => by rw [h]; exact hm)
    · intro u
      simp only [Function.update_apply]
      by_cases hu : u = t
      · rw [if_pos hu]
        exact thOk_abandonPred _ n p d (hold.2.2.1 p n rfl).1 (hold.2.2.1 p n rfl).2
      · rw [if_neg hu]
        exact thOk_transfer s _ _ none (fun m _ => by simp) (fun x hx _ => hx)
          rfl (fun m _ => rfl) (fun m _ => rfl) (fun m hm => by cases hm)
          (fun _ _ => rfl) (hth u)
    · intro c0 hc0 hun
      exact hhg c0 hc0 (unowned_update s t _ c0
        (fun m hm => by rw [h] at hm; exact hm) hun)
    · intro p1 n1 hadj hun
      exact hint p1 n1 hadj (unowned_update s t _ n1
        (fun m hm => by rw [h] at hm; exact hm) hun)
  | abandonPredStep t n p d h =>
    have hold := hth t
    rw [h] at hold
    have hadjn : adj s.chain p n := (hold.2.2.1 p n rfl).1
    have hln : s.locked n = true := (hold.2.2.1 p n rfl).2
    refine ⟨hcn, htl, hnd, ?_, ?_, ?_, ?_⟩
    · exact own_uniq_update s t _ huq (fun m hm => by rw [h]; exact hm)
    · intro u
      simp only [Function.update_apply]
      by_cases hu : u = t
      · rw [if_pos hu]
        exact thOk_abandonLocked _ n p d hadjn hln (by
          show Function.update s.pred n (some p) n = some p
          rw [Function.update_same])
      · rw [if_neg hu]
        refine thOk_transfer s _ _ (some n) ?_ (fun x hx _ => hx) rfl
          (fun m _ => rfl) ?_ ?_ (fun _ _ => rfl) (hth u)
        · intro m hm he
          injection he with he'
          rw [he'] at hm
          exact hu (huq u t n hm (by rw [h]; rfl))
        · intro m hme
          show Function.update s.pred n (some p) m = s.pred m
          exact Function.update_noteq (fun he => hme (by rw [he])) _ _
        · intro m hme _
          injection hme with he'
          rw [← he']
          exact hln
    · intro c0 hc0 hun
      have hc0n : c0 ≠ n := by
        intro he
        exact own_update_self s t _ c0 (by rw [he]; rfl) hun
      obtain ⟨g1, g2⟩ := hhg c0 hc0 (unowned_update s t _ c0
        (fun m hm => by rw [h] at hm; exact hm) hun)
      refine ⟨g1, ?_⟩
      show Function.update s.pred n (some p) c0 = none
      rw [Function.update_noteq hc0n]
      exact g2
    · intro p1 n1 hadj hun
      have hn1 : n1 ≠ n := by
        intro he
        exact own_update_self s t _ n1 (by rw [he]; rfl) hun
      obtain ⟨g1, g2⟩ := hint p1 n1 hadj (unowned_update s t _ n1
        (fun m hm => by rw [h] at hm; exact hm) hun)
      refine ⟨g1, ?_⟩
      show Function.update s.pred n (some p) n1 = some p1
      rw [Function.update_noteq hn1]
      exact g2
  | abandonLockedStep t n p d h =>
    have hold := hth t
    rw [h] at hold
    have hadjn : adj s.chain p n := (hold.2.2.1 p n rfl).1
    have hpredn : s.pred n = some p := hold.2.2.2.1 n p d rfl
    have hndc : s.chain.Nodup := List.Nodup.of_append_right hnd
    refine ⟨hcn, htl, hnd, ?_, ?_, ?_, ?_⟩
    · exact own_uniq_update s t _ huq
        (fun m hm => by simp [CPc.ownNode] at hm)
    · intro u
      simp only [Function.update_apply]
      by_cases hu : u = t
      · rw [if_pos hu]
        exact thOk_failed _
      · rw [if_neg hu]
        refine thOk_transfer s _ _ (some n) ?_ (fun x hx _ => hx) rfl ?_
          (fun m _ => rfl) ?_ (fun _ _ => rfl) (hth u)
        · intro m hm he
          injection he with he'
          rw [he'] at hm
          exact hu (huq u t n hm (by rw [h]; rfl))
        · intro m hme
          show Function.update s.locked n false m = s.locked m
          exact Function.update_noteq (fun he => hme (by rw [he])) _ _
        · intro m hme _
          injection hme with he'
          rw [← he']
          exact (hold.2.2.1 p n rfl).2
    · intro c0 hc0 hun
      have hc0n : c0 ≠ n :=
        fun he => (adj_not_head s.chain p n c0 hndc hadjn hc0) he.symm
      obtain ⟨g1, g2⟩ := hhg c0 hc0 (unowned_update_drop s t _ c0 n
        (by rw [h]; rfl) hc0n hun)
      refine ⟨?_, g2⟩
      show Function.update s.locked n false c0 = false
      rw [Function.update_noteq hc0n]
      exact g1
    · intro p1 n1 hadj hun
      by_cases hn1 : n1 = n
      · subst hn1
        have hp1 : p1 = p := adj_pred_uniq s.chain p1 p n1 hndc hadj hadjn
        refine ⟨?_, ?_⟩
        · show Function.update s.locked n1 false n1 = false
          rw [Function.update_same]
        · show s.pred n1 = some p1
          rw [hp1]
          exact hpredn
      · obtain ⟨g1, g2⟩ := hint p1 n1 hadj (unowned_update_drop s t _ n1 n
          (by rw [h]; rfl) hn1 hun)
        refine ⟨?_, g2⟩
        show Function.update s.locked n false n1 = false
        rw [Function.update_noteq hn1]
        exact g1
  | readPredPredStep t n p d h =>
    have hold := hth t
    rw [h] at hold
    refine ⟨hcn, htl, hnd, ?_, ?_, ?_, ?_⟩
    · exact own_uniq_update s t _ huq (fun m hm => by rw [h]; exact hm)
    · intro u
      simp only [Function.update_apply]
      by_cases hu : u = t
      · rw [if_pos hu]
        exact thOk_pushing _ n p (s.pred p) d (hold.2.2.1 p n rfl).1
          (hold.2.2.1 p n rfl).2 (hold.2.2.2.2.1 n p d rfl) rfl
      · rw [if_neg hu]
        exact thOk_transfer s _ _ none (fun m _ => by simp) (fun x hx _ => hx)
          rfl (fun m _ => rfl) (fun m _ => rfl) (fun m hm => by cases hm)
          (fun _ _ => rfl) (hth u)
    · intro c0 hc0 hun
      exact hhg c0 hc0 (unowned_update s t _ c0
        (fun m hm => by rw [h] at hm; exact hm) hun)
    · intro p1 n1 hadj hun
      exact hint p1 n1 hadj (unowned_update s t _ n1
        (fun m hm => by rw [h] at hm; exact hm) hun)
  | pushStep t n p a d h =>
    have hold := hth t
    rw [h] at hold
    have hadjn : adj s.chain p n := (hold.2.2.1 p n rfl).1
    have hln : s.locked n = true := (hold.2.2.1 p n rfl).2
    have hlp : s.locked p = false := (hold.2.2.2.2.2.1 n p a d rfl).1
    have hpa : a = s.pred p := (hold.2.2.2.2.2.1 n p a d rfl).2
    have hndc : s.chain.Nodup := List.Nodup.of_append_right hnd
    have hpun : ∀ u, (s.pcs u).ownNode ≠ some p := by
      intro u hu
      rcases ownNode_cases _ _ hu with hpre | hday | hhold
      · exact ((hth u).1 p hpre).2 (adj_mem _ _ _ hadjn).1
      · obtain ⟨q, htg⟩ := hday
        have hckd := ((hth u).2.2.1 q p htg).2
        rw [hlp] at hckd
        cases hckd
      · have hckd := ((hth u).2.2.2.2.2.2.1 p hhold).2
        rw [hlp] at hckd
        cases hckd
    obtain ⟨u₀, v₀, hdec⟩ := adj_decomp s.chain p n hadjn
    have hndd : (u₀ ++ p :: n :: v₀).Nodup := by rw [← hdec]; exact hndc
    have hpu₀ : p ∉ u₀ := fun hm =>
      (List.disjoint_of_nodup_append hndd) hm (List.mem_cons_self _ _)
    have herase : s.chain.erase p = u₀ ++ n :: v₀ := by
      rw [hdec]
      exact erase_decomp u₀ (n :: v₀) p hpu₀
    refine ⟨?_, ?_, ?_, ?_, ?_, ?_, ?_⟩
    · show s.chain.erase p ≠ []
      rw [herase]
      simp
    · have h1 : (u₀ ++ p :: n :: v₀).getLast? = (u₀ ++ n :: v₀).getLast? := by
        rw [List.getLast?_append_of_ne_nil u₀ (List.cons_ne_nil p (n :: v₀)),
          List.getLast?_append_of_ne_nil u₀ (List.cons_ne_nil n v₀),
          List.getLast?_cons_cons]
      show (s.chain.erase p).getLast? = some s.tl
      rw [herase, ← h1, ← hdec]
      exact htl
    · show (s.free ++ [p] ++ s.chain.erase p).Nodup
      rw [herase, List.append_assoc]
      have hperm : (s.free ++ (u₀ ++ p :: n :: v₀)).Perm
          (s.free ++ ([p] ++ (u₀ ++ n :: v₀))) :=
        List.Perm.append_left s.free List.perm_middle
      refine hperm.nodup ?_
      rw [← hdec]
      exact hnd
    · exact own_uniq_update s t _ huq (fun m hm => by rw [h]; exact hm)
    · intro u
      simp only [Function.update_apply]
      by_cases hu : u = t
      · rw [if_pos hu]
        refine thOk_checkInherit _ n a d ?_ ?_
        · intro p' hap'
          cases u₀ with
          | nil =>
            exfalso
            have hphead : s.chain.head? = some p := by simp [hdec]
            have hgp := hhg p hphead hpun
            rw [hpa, hgp.2] at hap'
            cases hap'
          | cons h₀ u₀' =>
            have hqlast : (h₀ :: u₀').getLast? =
                some ((h₀ :: u₀').getLast (by simp)) :=
              List.getLast?_eq_getLast _ _
            have hadjqp : adj s.chain ((h₀ :: u₀').getLast (by simp)) p := by
              rw [hdec]
              exact adj_getLast_cons _ _ p (n :: v₀) hqlast
            have hip := hint _ p hadjqp hpun
            rw [hpa, hip.2] at hap'
            injection hap' with hap''
            constructor
            · show adj (s.chain.erase p) p' n
              rw [herase, ← hap'']
              exact adj_erase_merge _ v₀ p n hndd _
                (by rw [← hdec]; exact hadjqp)
            · exact hln
        · intro hanone
          cases u₀ with
          | nil =>
            constructor
            · show (s.chain.erase p).head? = some n
              simp [herase]
            · exact hln
          | cons h₀ u₀' =>
            exfalso
            have hqlast : (h₀ :: u₀').getLast? =
                some ((h₀ :: u₀').getLast (by simp)) :=
              List.getLast?_eq_getLast _ _
            have hadjqp : adj s.chain ((h₀ :: u₀').getLast (by simp)) p := by
              rw [hdec]
              exact adj_getLast_cons _ _ p (n :: v₀) hqlast
            have hip := hint _ p hadjqp hpun
            rw [hpa, hip.2] at hanone
            cases hanone
      · rw [if_neg hu]
        obtain ⟨w1, w2, w3, w4, w5, w6, w7, w8, w9⟩ := hth u
        refine ⟨?_, ?_, ?_, ?_, ?_, ?_, ?_, ?_, ?_⟩
        · intro m hm
          obtain ⟨hf, hc⟩ := w1 m hm
          have hmp : m ≠ p := by
            intro he
            rw [he] at hc
            exact hc (adj_mem _ _ _ hadjn).1
          constructor
          · show m ∉ s.free ++ [p]
            intro hmem
            rcases List.mem_append.mp hmem with h1 | h2
            · exact hf h1
            · simp only [List.mem_singleton] at h2
              exact hmp h2
          · show m ∉ s.chain.erase p
            intro hmem
            exact hc (List.mem_of_mem_erase hmem)
        · exact w2
        · intro q m hm
          obtain ⟨ha', hl'⟩ := w3 q m hm
          have hmn : m ≠ n := by
            intro he
            rw [he] at hm
            exact hu (huq u t n (ownNode_of_targetOf _ q n hm)
              (by rw [h]; rfl))
          have hmp : m ≠ p := by
            intro he
            rw [he] at hm
            exact hpun u (ownNode_of_targetOf _ q p hm)
          have hqp : q ≠ p := by
            intro he
            rw [he] at ha'
            exact hmn (adj_succ_uniq s.chain p m n hndc ha' hadjn)
          refine ⟨?_, hl'⟩
          show adj (s.chain.erase p) q m
          rw [herase]
          refine adj_erase_keep u₀ v₀ p n q m ?_ hqp hmp hmn
          rw [← hdec]
          exact ha'
        · exact w4
        · exact w5
        · exact w6
        · intro m hm
          obtain ⟨hh', hl'⟩ := w7 m hm
          have hmp : m ≠ p := by
            intro he
            rw [he] at hm
            exact hpun u (ownNode_of_holderNode _ p hm)
          cases u₀ with
          | nil =>
            exfalso
            have hphead : s.chain.head? = some p := by simp [hdec]
            rw [hphead] at hh'
            exact hmp (Option.some.inj hh').symm
          | cons h₀ u₀' =>
            refine ⟨?_, hl'⟩
            show (s.chain.erase p).head? = some m
            rw [herase]
            rw [hdec] at hh'
            exact hh'
        · exact w8
        · exact w9
    · intro c0 hc0 hun
      have hc0' : (s.chain.erase p).head? = some c0 := hc0
      cases u₀ with
      | nil =>
        exfalso
        have hhead : (s.chain.erase p).head? = some n := by simp [herase]
        rw [hhead] at hc0'
        have hc0n : c0 = n := (Option.some.inj hc0').symm
        rw [hc0n] at hun
        exact own_update_self s t (CPc.checkInherit n a d) n rfl hun
      | cons h₀ u₀' =>
        have hh0 : s.chain.head? = some c0 := by
          rw [hdec]
          rw [herase] at hc0'
          exact hc0'
        exact hhg c0 hh0 (unowned_update s t _ c0
          (fun m hm => by rw [h] at hm; exact hm) hun)
    · intro p1 n1 hadj hun
      have hadj' : adj (u₀ ++ n :: v₀) p1 n1 := by rw [← herase]; exact hadj
      rcases adj_erase_inv u₀ v₀ p n p1 n1 hadj' with holdadj | hmerge
      · have hadj2 : adj s.chain p1 n1 := by rw [hdec]; exact holdadj
        exact hint p1 n1 hadj2 (unowned_update s t _ n1
          (fun m hm => by rw [h] at hm; exact hm) hun)
      · exfalso
        obtain ⟨he, -⟩ := hmerge
        rw [he] at hun
        exact own_update_self s t (CPc.checkInherit n a d) n rfl hun
  | checkInheritSome t n p' d h =>
    have hold := hth t
    rw [h] at hold
    refine ⟨hcn, htl, hnd, ?_, ?_, ?_, ?_⟩
    · exact own_uniq_update s t _ huq (fun m hm => by rw [h]; exact hm)
    · intro u
      simp only [Function.update_apply]
      by_cases hu : u = t
      · rw [if_pos hu]
        exact thOk_spin _ n p' d (hold.2.2.1 p' n rfl).1
          (hold.2.2.1 p' n rfl).2
      · rw [if_neg hu]
        exact thOk_transfer s _ _ none (fun m _ => by simp) (fun x hx _ => hx)
          rfl (fun m _ => rfl) (fun m _ => rfl) (fun m hm => by cases hm)
          (fun _ _ => rfl) (hth u)
    · intro c0 hc0 hun
      exact hhg c0 hc0 (unowned_update s t _ c0
        (fun m hm => by rw [h] at hm; exact hm) hun)
    · intro p1 n1 hadj hun
      exact hint p1 n1 hadj (unowned_update s t _ n1
        (fun m hm => by rw [h] at hm; exact hm) hun)
  | checkInheritNone t n d h =>
    have hold := hth t
    rw [h] at hold
    refine ⟨hcn, htl, hnd, ?_, ?_, ?_, ?_⟩
    · exact own_uniq_update s t _ huq (fun m hm => by rw [h]; exact hm)
    · intro u
      simp only [Function.update_apply]
      by_cases hu : u = t
      · rw [if_pos hu]
        exact thOk_setActive _ n (hold.2.2.2.2.2.2.1 n rfl).1
          (hold.2.2.2.2.2.2.1 n rfl).2
      · rw [if_neg hu]
        exact thOk_transfer s _ _ none (fun m _ => by simp) (fun x hx _ => hx)
          rfl (fun m _ => rfl) (fun m _ => rfl) (fun m hm => by cases hm)
          (fun _ _ => rfl) (hth u)
    · intro c0 hc0 hun
      exact hhg c0 hc0 (unowned_update s t _ c0
        (fun m hm => by rw [h] at hm; exact hm) hun)
    · intro p1 n1 hadj hun
      exact hint p1 n1 hadj (unowned_update s t _ n1
        (fun m hm => by rw [h] at hm; exact hm) hun)
  | setActiveStep t n h =>
    have hold := hth t
    rw [h] at hold
    have hh : s.chain.head? = some n := (hold.2.2.2.2.2.2.1 n rfl).1
    have hl : s.locked n = true := (hold.2.2.2.2.2.2.1 n rfl).2
    refine ⟨hcn, htl, hnd, ?_, ?_, ?_, ?_⟩
    · exact own_uniq_update s t _ huq (fun m hm => by rw [h]; exact hm)
    · intro u
      simp only [Function.update_apply]
      by_cases hu : u = t
      · rw [if_pos hu]
        exact thOk_cs _ n hh hl rfl
      · rw [if_neg hu]
        refine thOk_transfer s _ _ none (fun m _ => by simp)
          (fun x hx _ => hx) rfl (fun m _ => rfl) (fun m _ => rfl)
          (fun m hm => by cases hm) ?_ (hth u)
        intro m hm
        exfalso
        have hw := hth u
        have hhm : s.chain.head? = some m :=
          (hw.2.2.2.2.2.2.1 m (by rw [hm]; rfl)).1
        rw [hhm] at hh
        have hmn : m = n := Option.some.inj hh
        refine hu (huq u t n ?_ (by rw [h]; rfl))
        rw [← hmn, hm]
        rfl
    · intro c0 hc0 hun
      exact hhg c0 hc0 (unowned_update s t _ c0
        (fun m hm => by rw [h] at hm; exact hm) hun)
    · intro p1 n1 hadj hun
      exact hint p1 n1 hadj (unowned_update s t _ n1
        (fun m hm => by rw [h] at hm; exact hm) hun)
  | unlockRead t n h =>
    have hold := hth t
    rw [h] at hold
    have hact : s.active = n := hold.2.2.2.2.2.2.2.2 n rfl
    have hh : s.chain.head? = some n := (hold.2.2.2.2.2.2.1 n rfl).1
    have hl : s.locked n = true := (hold.2.2.2.2.2.2.1 n rfl).2
    refine ⟨hcn, htl, hnd, ?_, ?_, ?_, ?_⟩
    · refine own_uniq_update s t _ huq ?_
      intro m hm
      rw [h]
      rw [hact] at hm
      exact hm
    · intro u
      simp only [Function.update_apply]
      by_cases hu : u = t
      · rw [if_pos hu]
        exact thOk_u1 _ s.active (by rw [hact]; exact hh)
          (by rw [hact]; exact hl)
      · rw [if_neg hu]
        exact thOk_transfer s _ _ none (fun m _ => by simp) (fun x hx _ => hx)
          rfl (fun m _ => rfl) (fun m _ => rfl) (fun m hm => by cases hm)
          (fun _ _ => rfl) (hth u)
    · intro c0 hc0 hun
      refine hhg c0 hc0 (unowned_update s t _ c0 ?_ hun)
      intro m hm
      rw [h] at hm
      rw [hact]
      exact hm
    · intro p1 n1 hadj hun
      refine hint p1 n1 hadj (unowned_update s t _ n1 ?_ hun)
      intro m hm
      rw [h] at hm
      rw [hact]
      exact hm
  | unlockClearPred t n h =>
    have hold := hth t
    rw [h] at hold
    have hh : s.chain.head? = some n := (hold.2.2.2.2.2.2.1 n rfl).1
    have hl : s.locked n = true := (hold.2.2.2.2.2.2.1 n rfl).2
    refine ⟨hcn, htl, hnd, ?_, ?_, ?_, ?_⟩
    · exact own_uniq_update s t _ huq (fun m hm => by rw [h]; exact hm)
    · intro u
      simp only [Function.update_apply]
      by_cases hu : u = t
      · rw [if_pos hu]
        exact thOk_u2 _ n hh hl (by
          show Function.update s.pred n none n = none
          rw [Function.update_same])
      · rw [if_neg hu]
        refine thOk_transfer s _ _ (some n) ?_ (fun x hx _ => hx) rfl
          (fun m _ => rfl) ?_ ?_ (fun _ _ => rfl) (hth u)
        · intro m hm he
          injection he with he'
          rw [he'] at hm
          exact hu (huq u t n hm (by rw [h]; rfl))
        · intro m hme
          show Function.update s.pred n none m = s.pred m
          exact Function.update_noteq (fun he => hme (by rw [he])) _ _
        · intro m hme _
          injection hme with he'
          rw [← he']
          exact hl
    · intro c0 hc0 hun
      have hc0n : c0 ≠ n := by
        intro he
        exact own_update_self s t _ c0 (by rw [he]; rfl) hun
      obtain ⟨g1, g2⟩ := hhg c0 hc0 (unowned_update s t _ c0
        (fun m hm => by rw [h] at hm; exact hm) hun)
      refine ⟨g1, ?_⟩
      show Function.update s.pred n none c0 = none
      rw [Function.update_noteq hc0n]
      exact g2
    · intro p1 n1 hadj hun
      have hn1 : n1 ≠ n := by
        intro he
        exact own_update_self s t _ n1 (by rw [he]; rfl) hun
      obtain ⟨g1, g2⟩ := hint p1 n1 hadj (unowned_update s t _ n1
        (fun m hm => by rw [h] at hm; exact hm) hun)
      refine ⟨g1, ?_⟩
      show Function.update s.pred n none n1 = some p1
      rw [Function.update_noteq hn1]
      exact g2
  | unlockRelease t n h =>
    have hold := hth t
    rw [h] at hold
    have hh : s.chain.head? = some n := (hold.2.2.2.2.2.2.1 n rfl).1
    have hl : s.locked n = true := (hold.2.2.2.2.2.2.1 n rfl).2
    have hpn : s.pred n = none := hold.2.2.2.2.2.2.2.1 n rfl
    have hndc : s.chain.Nodup := List.Nodup.of_append_right hnd
    refine ⟨hcn, htl, hnd, ?_, ?_, ?_, ?_⟩
    · exact own_uniq_update s t _ huq
        (fun m hm => by simp [CPc.ownNode] at hm)
    · intro u
      simp only [Function.update_apply]
      by_cases hu : u = t
      · rw [if_pos hu]
        exact thOk_idle _
      · rw [if_neg hu]
        refine thOk_transfer s _ _ (some n) ?_ (fun x hx _ => hx) rfl ?_
          (fun m _ => rfl) ?_ (fun _ _ => rfl) (hth u)
        · intro m hm he
          injection he with he'
          rw [he'] at hm
          exact hu (huq u t n hm (by rw [h]; rfl))
        · intro m hme
          show Function.update s.locked n false m = s.locked m
          exact Function.update_noteq (fun he => hme (by rw [he])) _ _
        · intro m hme _
          injection hme with he'
          rw [← he']
          exact hl
    · intro c0 hc0 hun
      have hc0' : s.chain.head? = some c0 := hc0
      rw [hh] at hc0'
      have hc0n : c0 = n := (Option.some.inj hc0').symm
      refine ⟨?_, ?_⟩
      · show Function.update s.locked n false c0 = false
        rw [hc0n, Function.update_same]
      · show s.pred c0 = none
        rw [hc0n]
        exact hpn
    · intro p1 n1 hadj hun
      have hn1 : n1 ≠ n := adj_not_head s.chain p1 n1 n hndc hadj hh
      obtain ⟨g1, g2⟩ := hint p1 n1 hadj (unowned_update_drop s t _ n1 n
        (by rw [h]; rfl) hn1 hun)
      refine ⟨?_, g2⟩
      show Function.update s.locked n false n1 = false
      rw [Function.update_noteq hn1]
      exact g1
  | failedIdle t h =>
    refine ⟨hcn, htl, hnd, ?_, ?_, ?_, ?_⟩
    · exact own_uniq_update s t _ huq
        (fun m hm => by simp [CPc.ownNode] at hm)
    · intro u
      simp only [Function.update_apply]
      by_cases hu : u = t
      · rw [if_pos hu]
        exact thOk_idle _
      · rw [if_neg hu]
        exact thOk_transfer s _ _ none (fun m _ => by simp) (fun x hx _ => hx)
          rfl (fun m _ => rfl) (fun m _ => rfl) (fun m hm => by cases hm)
          (fun _ _ => rfl) (hth u)
    · intro c0 hc0 hun
      exact hhg c0 hc0 (unowned_update s t _ c0
        (fun m hm => by rw [h] at hm; simp [CPc.ownNode] at hm) hun)
    · intro p1 n1 hadj hun
      exact hint p1 n1 hadj (unowned_update s t _ n1
        (fun m hm => by rw [h] at hm; simp [CPc.ownNode] at hm) hun)

/-- Every reachable state of the CLH system satisfies the invariant. -/
theorem CInv_reach (N : Nat) (P : Failure) (s : CState N) (h : CReach N P s) :
    CInv N s := by
  induction h with
  | refl => exact CInv_init N
  | tail hab hbc ih => exact CInv_step N P _ _ hbc ih

end clh_mutex

theorem mem_tail_adj {α : Type} (l : List α) (x p : α) :
    p ∈ l → ∃ q, adj (x :: l) q p := by
  induction l generalizing x with
  | nil => intro h; cases h
  | cons a rest ih =>
    intro h
    rcases List.mem_cons.mp h with he | hm
    · exact ⟨x, Or.inl ⟨rfl, he.symm⟩⟩
    · obtain ⟨q, hq⟩ := ih a hm
      exact ⟨q, Or.inr hq⟩

namespace clh_mutex

/-- A node is "granted": its `locked` flag is set, and it is either the chain
head or adjacent to a chain predecessor that has completed its release
(`locked = false`, `pred = null`). -/
def GrantedNode {N : Nat} (s : CState N) (n : Fin (N + 2)) : Prop :=
  s.locked n = true ∧
    (s.chain.head? = some n ∨
      ∃ p, adj s.chain p n ∧ s.locked p = false ∧ s.pred p = none)

/-- At most one thread of a `clh_mutex` holds the lock. -/
def CMutualExclusion {N : Nat} (s : CState N) : Prop :=
  ∀ t t', (s.pcs t).holding = true → (s.pcs t').holding = true → t = t'

theorem holding_holderNode {N : Nat} (pc : CPc N) (h : pc.holding = true) :
    ∃ n, pc.holderNode = some n := by
  cases pc <;> simp [CPc.holding] at h <;> exact ⟨_, rfl⟩

/-- A chain node with `locked = false` is owned by no thread. -/
theorem unowned_of_unlocked {N : Nat} (s : CState N) (hinv : CInv N s)
    (p : Fin (N + 2)) (hm : p ∈ s.chain) (hl : s.locked p = false) :
    ∀ u, (s.pcs u).ownNode ≠ some p := by
  intro u hu
  rcases ownNode_cases _ _ hu with hpre | hday | hhold
  · exact ((hinv.th u).1 p hpre).2 hm
  · obtain ⟨q, htg⟩ := hday
    have hck := ((hinv.th u).2.2.1 q p htg).2
    rw [hl] at hck
    cases hck
  · have hck := ((hinv.th u).2.2.2.2.2.2.1 p hhold).2
    rw [hl] at hck
    cases hck

/-- A released chain predecessor of a locked node is the chain head. -/
theorem released_pred_is_head {N : Nat} (s : CState N) (hinv : CInv N s)
    (n p : Fin (N + 2)) (hadj : adj s.chain p n) (hlp : s.locked p = false)
    (hpp : s.pred p = none) : s.chain.head? = some p := by
  have hpm : p ∈ s.chain := (adj_mem _ _ _ hadj).1
  have hpu := unowned_of_unlocked s hinv p hpm hlp
  cases hc : s.chain with
  | nil => exact absurd hc hinv.chain_ne
  | cons c0 rest =>
    by_cases hph : p = c0
    · rw [hph]
      rfl
    · exfalso
      have hpm' : p ∈ rest := by
        rcases List.mem_cons.mp (hc ▸ hpm) with he | hm
        · exact absurd he hph
        · exact hm
      obtain ⟨q, hq⟩ := mem_tail_adj rest c0 p hpm'
      have hq' : adj s.chain q p := by rw [hc]; exact hq
      have hip := (hinv.interior q p hq' hpu).2
      rw [hpp] at hip
      cases hip

/-- At most one node of a CLH mutex is granted at any instant. -/
theorem granted_uniq {N : Nat} (s : CState N) (hinv : CInv N s) :
    ∀ n n', GrantedNode s n → GrantedNode s n' → n = n' := by
  intro n n' hn hn'
  obtain ⟨hln, hcase⟩ := hn
  obtain ⟨hln', hcase'⟩ := hn'
  have hndc : s.chain.Nodup := List.Nodup.of_append_right hinv.nodup
  rcases hcase with hh | ⟨p, hadj, hlp, hpp⟩
  · rcases hcase' with hh' | ⟨p', hadj', hlp', hpp'⟩
    · rw [hh] at hh'
      exact Option.some.inj hh'
    · have hph' := released_pred_is_head s hinv n' p' hadj' hlp' hpp'
      rw [hh] at hph'
      have he : n = p' := Option.some.inj hph'
      rw [← he] at hlp'
      rw [hln] at hlp'
      cases hlp'
  · rcases hcase' with hh' | ⟨p', hadj', hlp', hpp'⟩
    · have hph := released_pred_is_head s hinv n p hadj hlp hpp
      rw [hh'] at hph
      have he : n' = p := Option.some.inj hph
      rw [← he] at hlp
      rw [hln'] at hlp
      cases hlp
    · have hph := released_pred_is_head s hinv n p hadj hlp hpp
      have hph' := released_pred_is_head s hinv n' p' hadj' hlp' hpp'
      rw [hph] at hph'
      have hpe : p = p' := Option.some.inj hph'
      rw [← hpe] at hadj'
      exact adj_succ_uniq s.chain p n n' hndc hadj hadj'

/-- Mutual exclusion of the CLH mutex follows from the invariant. -/
theorem clh_mutual_exclusion {N : Nat} (s : CState N) (hinv : CInv N s) :
    CMutualExclusion s := by
  intro t t' h1 h2
  obtain ⟨m, hm⟩ := holding_holderNode (s.pcs t) h1
  obtain ⟨m', hm'⟩ := holding_holderNode (s.pcs t') h2
  have g := ((hinv.th t).2.2.2.2.2.2.1 m hm).1
  have g' := ((hinv.th t').2.2.2.2.2.2.1 m' hm').1
  rw [g] at g'
  have he : m = m' := Option.some.inj g'
  exact hinv.own_uniq t t' m (ownNode_of_holderNode _ _ hm)
    (by rw [he]; exact ownNode_of_holderNode _ _ hm')

/-- The node of a holding thread is granted (it is the chain head). -/
theorem holder_granted {N : Nat} (s : CState N) (hinv : CInv N s) (t : Nat)
    (n : Fin (N + 2)) (hh : (s.pcs t).holding = true)
    (ho : (s.pcs t).ownNode = some n) : GrantedNode s n := by
  obtain ⟨m, hm⟩ := holding_holderNode (s.pcs t) hh
  have hmn : m = n := by
    have hx := ownNode_of_holderNode _ _ hm
    rw [ho] at hx
    exact (Option.some.inj hx).symm
  obtain ⟨g1, g2⟩ := (hinv.th t).2.2.2.2.2.2.1 m hm
  rw [hmn] at g1 g2
  exact ⟨g2, Or.inl g1⟩

end clh_mutex

/-- C1: in every reachable state of every interleaving: at most one thread
holds an `array_mutex<N>`; at most one thread holds a `clh_mutex<N, P>`; at
most one CLH node is granted (`locked = true` while being the chain head or
while its chain predecessor has `locked = false` and `pred = null`); and the
node of any thread holding the CLH lock is that granted node. -/
theorem c1_mutual_exclusion (N : Nat) (hN : 0 < N) (P : clh_mutex.Failure)
    (sa : array_mutex.AState N) (sc : clh_mutex.CState N)
    (ha : array_mutex.AReach N sa) (hc : clh_mutex.CReach N P sc) :
    array_mutex.MutualExclusion sa ∧ clh_mutex.CMutualExclusion sc ∧
    (∀ n n', clh_mutex.GrantedNode sc n → clh_mutex.GrantedNode sc n' →
      n = n') ∧
    (∀ t n, (sc.pcs t).holding = true → (sc.pcs t).ownNode = some n →
      clh_mutex.GrantedNode sc n) := by
  have hinv := clh_mutex.CInv_reach N P sc hc
  exact ⟨array_mutex.array_mutual_exclusion N hN sa ha,
    clh_mutex.clh_mutual_exclusion sc hinv,
    clh_mutex.granted_uniq sc hinv,
    fun t n h1 h2 => clh_mutex.holder_granted sc hinv t n h1 h2⟩

/-- Witness for C1 at `N = 1`, policy `retry`, both locks freshly
constructed. -/
theorem c1_mutual_exclusion_witness :
    (0 < 1 ∧ array_mutex.AReach 1 (array_mutex.AState.init 1) ∧
      clh_mutex.CReach 1 clh_mutex.Failure.retry (clh_mutex.CState.init 1)) ∧
    (array_mutex.MutualExclusion (array_mutex.AState.init 1) ∧
      clh_mutex.CMutualExclusion (clh_mutex.CState.init 1) ∧
      (∀ n n', clh_mutex.GrantedNode (clh_mutex.CState.init 1) n →
        clh_mutex.GrantedNode (clh_mutex.CState.init 1) n' → n = n') ∧
      (∀ t n, ((clh_mutex.CState.init 1).pcs t).holding = true →
        ((clh_mutex.CState.init 1).pcs t).ownNode = some n →
        clh_mutex.GrantedNode (clh_mutex.CState.init 1) n)) :=
  ⟨⟨by decide, Relation.ReflTransGen.refl, Relation.ReflTransGen.refl⟩,
    c1_mutual_exclusion 1 (by decide) clh_mutex.Failure.retry
      (array_mutex.AState.init 1) (clh_mutex.CState.init 1)
      Relation.ReflTransGen.refl Relation.ReflTransGen.refl⟩

namespace clh_mutex

/-- A scheduling action for the deterministic CLH executor: advance the
modelled clock, let an idle thread call `try_lock_until` with deadline `d`,
or let a non-idle thread take its unique enabled source action. -/
inductive CAct
  | tick
  | start (t : Nat) (d : Nat)
  | go (t : Nat)

/-- Deterministic executor for the CLH transition system; used only to build
concrete reachable states.  `CExec_sound` maps every result to a `CStep`. -/
def CExec (N : Nat) (P : Failure) (s : CState N) : CAct → Option (CState N)
  | CAct.tick => some { s with time := s.time + 1 }
  | CAct.start t d =>
    match s.pcs t with
    | CPc.idle => some { s with pcs := Function.update s.pcs t (CPc.popping d) }
    | _ => none
  | CAct.go t =>
    match s.pcs t with
    | CPc.idle => none
    | CPc.popping d =>
      match s.free with
      | a :: b :: rest => some { s with
          free := b :: rest
          pcs := Function.update s.pcs t (CPc.setLocked a d) }
      | [] => some { s with pcs := Function.update s.pcs t (CPc.popCheck d) }
      | [_] => some { s with pcs := Function.update s.pcs t (CPc.popCheck d) }
    | CPc.popCheck d =>
      if d ≤ s.time then
        some { s with
          clockReads := s.clockReads + 1
          pcs := Function.update s.pcs t CPc.failed }
      else
        match P with
        | Failure.die => some { s with
            clockReads := s.clockReads + 1
            pcs := Function.update s.pcs t
              (CPc.exhausted error_on_slots_exceeded) }
        | Failure.retry => some { s with
            clockReads := s.clockReads + 1
            pcs := Function.update s.pcs t (CPc.popping d) }
    | CPc.setLocked n d => some { s with
        locked := Function.update s.locked n true
        pcs := Function.update s.pcs t (CPc.readTail n d) }
    | CPc.readTail n d => some { s with
        pcs := Function.update s.pcs t (CPc.casTail n s.tl d) }
    | CPc.casTail n p d =>
      if s.tl = p then
        some { s with
          tl := n
          chain := s.chain ++ [n]
          swapIns := s.swapIns + 1
          pcs := Function.update s.pcs t (CPc.incrCount n p d) }
      else
        some { s with pcs := Function.update s.pcs t (CPc.casCheck n s.tl d) }
    | CPc.casCheck n p d =>
      if d ≤ s.time then
        some { s with
          clockReads := s.clockReads + 1
          pcs := Function.update s.pcs t CPc.failed }
      else
        some { s with
          clockReads := s.clockReads + 1
          pcs := Function.update s.pcs t (CPc.casTail n p d) }
    | CPc.incrCount n p d => some { s with
        queueCount := (s.queueCount + 1) % 2 ^ 32
        counted := s.counted + 1
        pcs := Function.update s.pcs t (CPc.spin n p d) }
    | CPc.spin n p d =>
      if s.locked p = true then
        some { s with pcs := Function.update s.pcs t (CPc.spinCheck n p d) }
      else
        some { s with pcs := Function.update s.pcs t (CPc.readPredPred n p d) }
    | CPc.spinCheck n p d =>
      if s.time < d then
        some { s with
          clockReads := s.clockReads + 1
          pcs := Function.update s.pcs t (CPc.spin n p d) }
      else
        some { s with
          clockReads := s.clockReads + 1
          pcs := Function.update s.pcs t (CPc.abandonPred n p d) }
    | CPc.abandonPred n p d => some { s with
        pred := Function.update s.pred n (some p)
        pcs := Function.update s.pcs t (CPc.abandonLocked n p d) }
    | CPc.abandonLocked n p d => some { s with
        locked := Function.update s.locked n false
        pcs := Function.update s.pcs t CPc.failed }
    | CPc.readPredPred n p d => some { s with
        pcs := Function.update s.pcs t (CPc.pushing n p (s.pred p) d) }
    | CPc.pushing n p a d => some { s with
        free := s.free ++ [p]
        chain := s.chain.erase p
        pcs := Function.update s.pcs t (CPc.checkInherit n a d) }
    | CPc.checkInherit n a d =>
      match a with
      | some p' => some { s with
          pcs := Function.update s.pcs t (CPc.spin n p' d) }
      | none => some { s with
          pcs := Function.update s.pcs t (CPc.setActive n) }
    | CPc.setActive n => some { s with
        active := n
        pcs := Function.update s.pcs t (CPc.cs n) }
    | CPc.cs n => some { s with
        pcs := Function.update s.pcs t (CPc.u1 s.active) }
    | CPc.u1 n => some { s with
        pred := Function.update s.pred n none
        pcs := Function.update s.pcs t (CPc.u2 n) }
    | CPc.u2 n => some { s with
        locked := Function.update s.locked n false
        pcs := Function.update s.pcs t CPc.idle }
    | CPc.failed => some { s with pcs := Function.update s.pcs t CPc.idle }
    | CPc.exhausted _ => none

/-- Every executor result is a transition of the step relation. -/
theorem CExec_sound (N : Nat) (P : Failure) (s s' : CState N) (a : CAct)
    (h : CExec N P s a = some s') : CStep N P s s' := by
  cases a with
  | tick =>
    simp only [CExec] at h
    cases h
    exact CStep.tick s
  | start t d =>
    simp only [CExec] at h
    split at h
    · cases h
      exact CStep.start s t d (by assumption)
    · cases h
  | go t =>
    simp only [CExec] at h
    split at h
    · cases h
    · rename_i d hpc
      split at h
      · rename_i a b rest hf
        cases h
        exact CStep.popOk s t d a b rest hpc hf
      · rename_i hf
        cases h
        exact CStep.popEmpty s t d hpc (by simp [hf])
      · rename_i x hf
        cases h
        exact CStep.popEmpty s t d hpc (by simp [hf])
    · rename_i d hpc
      split at h
      · cases h
        exact CStep.popCheckTimeout s t d hpc (by assumption)
      · rename_i ht
        split at h
        · cases h
          exact CStep.popCheckDie s t d hpc (by omega) rfl
        · cases h
          exact CStep.popCheckRetry s t d hpc (by omega) rfl
    · rename_i n d hpc
      cases h
      exact CStep.storeLocked s t n d hpc
    · rename_i n d hpc
      cases h
      exact CStep.loadTail s t n d hpc
    · rename_i n p d hpc
      split at h
      · cases h
        exact CStep.casOk s t n p d hpc (by assumption)
      · cases h
        exact CStep.casFail s t n p d hpc
    · rename_i n p d hpc
      split at h
      · cases h
        exact CStep.casCheckTimeout s t n p d hpc (by assumption)
      · cases h
        exact CStep.casCheckRetry s t n p d hpc (by omega)
    · rename_i n p d hpc
      cases h
      exact CStep.incrCountStep s t n p d hpc
    · rename_i n p d hpc
      split at h
      · cases h
        exact CStep.spinTrue s t n p d hpc (by assumption)
      · cases h
        exact CStep.spinFalse s t n p d hpc (by
          rename_i hl
          exact Bool.not_eq_true _ ▸ hl)
    · rename_i n p d hpc
      split at h
      · cases h
        exact CStep.spinCheckCont s t n p d hpc (by assumption)
      · cases h
        exact CStep.spinCheckAbandon s t n p d hpc (by omega)
    · rename_i n p d hpc
      cases h
      exact CStep.abandonPredStep s t n p d hpc
    · rename_i n p d hpc
      cases h
      exact CStep.abandonLockedStep s t n p d hpc
    · rename_i n p d hpc
      cases h
      exact CStep.readPredPredStep s t n p d hpc
    · rename_i n p a d hpc
      cases h
      exact CStep.pushStep s t n p a d hpc
    · rename_i n a d hpc
      cases a with
      | some p' =>
        cases h
        exact CStep.checkInheritSome s t n p' d hpc
      | none =>
        cases h
        exact CStep.checkInheritNone s t n d hpc
    · rename_i n hpc
      cases h
      exact CStep.setActiveStep s t n hpc
    · rename_i n hpc
      cases h
      exact CStep.unlockRead s t n hpc
    · rename_i n hpc
      cases h
      exact CStep.unlockClearPred s t n hpc
    · rename_i n hpc
      cases h
      exact CStep.unlockRelease s t n hpc
    · rename_i hpc
      cases h
      exact CStep.failedIdle s t hpc
    · cases h

/-- Run the executor over a schedule of actions. -/
def CExecRun (N : Nat) (P : Failure) (s : CState N) :
    List CAct → Option (CState N)
  | [] => some s
  | a :: acts =>
    match CExec N P s a with
    | none => none
    | some s' => CExecRun N P s' acts

/-- Executor runs stay within reachability. -/
theorem CExecRun_reach (N : Nat) (P : Failure) (s s' : CState N)
    (acts : List CAct) (h : CExecRun N P s acts = some s') (h0 : CReach N P s) :
    CReach N P s' := by
  induction acts generalizing s with
  | nil => cases h; exact h0
  | cons a acts ih =>
    unfold CExecRun at h
    split at h
    · cases h
    · rename_i s'' heq
      exact ih s'' h (h0.tail (CExec_sound N P s s'' a heq))

end clh_mutex

/-- C2 counterexample: a reachable `clh_mutex<1>` state whose free-node pool
is non-empty (one node) with the lock free and nobody waiting (grant node
unlocked with null pred); an uncontested `try_lock_until` with an
already-passed deadline nevertheless fails, because `try_pop` refuses to hand
out the last pool node and the deadline is consulted at the pop-failure
point. -/
theorem c2_counterexample :
    ∃ s₁ s₂ : clh_mutex.CState 1,
      clh_mutex.CReach 1 clh_mutex.Failure.retry s₁ ∧
      s₁.free ≠ [] ∧ s₁.chain = [0] ∧ s₁.locked 0 = false ∧
      s₁.pred 0 = none ∧ s₁.pcs 0 = clh_mutex.CPc.idle ∧ s₁.time = 0 ∧
      clh_mutex.CExecRun 1 clh_mutex.Failure.retry s₁
        [clh_mutex.CAct.start 0 0, clh_mutex.CAct.go 0,
          clh_mutex.CAct.go 0] = some s₂ ∧
      s₂.pcs 0 = clh_mutex.CPc.failed := by
  refine ⟨(clh_mutex.CExecRun 1 clh_mutex.Failure.retry
      (clh_mutex.CState.init 1)
      [clh_mutex.CAct.start 1 100, clh_mutex.CAct.go 1]).getD
        (clh_mutex.CState.init 1), _,
    clh_mutex.CExecRun_reach 1 clh_mutex.Failure.retry
      (clh_mutex.CState.init 1) _
      [clh_mutex.CAct.start 1 100, clh_mutex.CAct.go 1] rfl
      Relation.ReflTransGen.refl,
    ?_, ?_, ?_, ?_, ?_, ?_, rfl, ?_⟩
  · decide
  · decide
  · decide
  · decide
  · decide
  · decide
  · decide

/-- C2 amended: an uncontested acquire with an already-passed deadline does
succeed whenever the free pool holds at least two nodes (one beyond the
`try_pop` sentinel): the acquiring thread runs pop, tail CAS, spin exit and
handshake to completion without a single `Clock::now()` evaluation. -/
theorem c2_amended (N : Nat) (P : clh_mutex.Failure) (s : clh_mutex.CState N)
    (t d : Nat) (c0 a b : Fin (N + 2)) (rest : List (Fin (N + 2)))
    (hidle : s.pcs t = clh_mutex.CPc.idle) (hfree : s.free = a :: b :: rest)
    (htl : s.tl = c0) (hl : s.locked c0 = false) (hp : s.pred c0 = none)
    (hac : a ≠ c0) (hd : d ≤ s.time) :
    ∃ s', Relation.ReflTransGen (clh_mutex.CStep N P) s s' ∧
      (s'.pcs t).holding = true ∧ s'.clockReads = s.clockReads := by
  exact ⟨_,
    Relation.ReflTransGen.head (clh_mutex.CStep.start s t d hidle)
     (Relation.ReflTransGen.head
       (clh_mutex.CStep.popOk _ t d a b rest (by simp) (by simp [hfree]))
     (Relation.ReflTransGen.head
       (clh_mutex.CStep.storeLocked _ t a d (by simp))
     (Relation.ReflTransGen.head
       (clh_mutex.CStep.loadTail _ t a d (by simp))
     (Relation.ReflTransGen.head
       (clh_mutex.CStep.casOk _ t a s.tl d (by simp) (by simp))
     (Relation.ReflTransGen.head
       (clh_mutex.CStep.incrCountStep _ t a s.tl d (by simp))
     (Relation.ReflTransGen.head
       (clh_mutex.CStep.spinFalse _ t a s.tl d (by simp)
         (by simp [Function.update_apply, htl, Ne.symm hac, hl]))
     (Relation.ReflTransGen.head
       (clh_mutex.CStep.readPredPredStep _ t a s.tl d (by simp))
     (Relation.ReflTransGen.head
       (clh_mutex.CStep.pushStep _ t a s.tl none d (by simp [htl, hp]))
     (Relation.ReflTransGen.head
       (clh_mutex.CStep.checkInheritNone _ t a d (by simp))
     (Relation.ReflTransGen.head
       (clh_mutex.CStep.setActiveStep _ t a (by simp))
     Relation.ReflTransGen.refl)))))))))),
    by simp [clh_mutex.CPc.holding], rfl⟩

/-- Witness for C2 amended: the freshly constructed `clh_mutex<1>` (two free
nodes beyond the grant node), thread 0 calling with deadline 0 at time 0. -/
theorem c2_amended_witness :
    ((clh_mutex.CState.init 1).pcs 0 = clh_mutex.CPc.idle ∧
      (clh_mutex.CState.init 1).free = 1 :: 2 :: [] ∧
      (clh_mutex.CState.init 1).tl = 0 ∧
      (clh_mutex.CState.init 1).locked 0 = false ∧
      (clh_mutex.CState.init 1).pred 0 = none ∧
      (1 : Fin 3) ≠ 0 ∧ 0 ≤ (clh_mutex.CState.init 1).time) ∧
    (∃ s', Relation.ReflTransGen (clh_mutex.CStep 1 clh_mutex.Failure.retry)
        (clh_mutex.CState.init 1) s' ∧ (s'.pcs 0).holding = true ∧
        s'.clockReads = (clh_mutex.CState.init 1).clockReads) :=
  ⟨⟨rfl, by decide, by decide, rfl, rfl, by decide, Nat.le_refl 0⟩,
    c2_amended 1 clh_mutex.Failure.retry (clh_mutex.CState.init 1) 0 0 0 1 2
      [] rfl (by decide) (by decide) rfl rfl (by decide) (Nat.le_refl 0)⟩

/-- C4: a waiter at the spin-phase deadline check whose deadline has been
reached abandons: it first writes `n.pred := pred` (the successor's chain to
inherit), then stores `n.locked := false`, then returns "not acquired"; its
own node `n` is not pushed back into the available queue (the free list is
unchanged and does not contain `n`). -/
theorem c4_abandon (N : Nat) (P : clh_mutex.Failure) (s : clh_mutex.CState N)
    (t : Nat) (n p : Fin (N + 2)) (d : Nat)
    (hreach : clh_mutex.CReach N P s)
    (h : s.pcs t = clh_mutex.CPc.spinCheck n p d) (hd : d ≤ s.time) :
    ∃ s₁ s₂ s₃ : clh_mutex.CState N,
      clh_mutex.CStep N P s s₁ ∧ clh_mutex.CStep N P s₁ s₂ ∧
      clh_mutex.CStep N P s₂ s₃ ∧
      s₁.pcs t = clh_mutex.CPc.abandonPred n p d ∧
      s₂.pred n = some p ∧ s₂.locked n = true ∧
      s₂.pcs t = clh_mutex.CPc.abandonLocked n p d ∧
      s₃.pred n = some p ∧ s₃.locked n = false ∧
      s₃.pcs t = clh_mutex.CPc.failed ∧
      s₃.free = s.free ∧ n ∉ s₃.free := by
  have hinv := clh_mutex.CInv_reach N P s hreach
  have hold := hinv.th t
  rw [h] at hold
  have hadj : adj s.chain p n := (hold.2.2.1 p n rfl).1
  have hln : s.locked n = true := (hold.2.2.1 p n rfl).2
  have hnc : n ∈ s.chain := (adj_mem _ _ _ hadj).2
  have hnf : n ∉ s.free := fun hm =>
    (List.disjoint_of_nodup_append hinv.nodup) hm hnc
  exact ⟨_, _, _,
    clh_mutex.CStep.spinCheckAbandon s t n p d h hd,
    clh_mutex.CStep.abandonPredStep _ t n p d (by simp),
    clh_mutex.CStep.abandonLockedStep _ t n p d (by simp),
    by simp, by simp, hln, by simp, by simp, by simp, by simp, rfl, hnf⟩

namespace clh_mutex

/-- The thread an action schedules, if any. -/
def CAct.thread : CAct → Option Nat
  | CAct.tick => none
  | CAct.start t _ => some t
  | CAct.go t => some t

/-- An executor action leaves the program counters of unscheduled threads
unchanged. -/
theorem CExec_pcs_other (N : Nat) (P : Failure) (s s' : CState N) (u : Nat)
    (a : CAct) (h : CExec N P s a = some s')
    (hu : ∀ t, a.thread = some t → u ≠ t) : s'.pcs u = s.pcs u := by
  cases a with
  | tick =>
    cases h
    rfl
  | start t d =>
    have hut : u ≠ t := hu t rfl
    simp only [CExec] at h
    split at h
    · cases h
      exact Function.update_noteq hut _ _
    · cases h
  | go t =>
    have hut : u ≠ t := hu t rfl
    simp only [CExec] at h
    split at h <;> try split at h <;> try split at h
    all_goals cases h
    all_goals exact Function.update_noteq hut _ _

/-- An executor run over a schedule avoiding thread `u` leaves `u`'s program
counter unchanged. -/
theorem CExecRun_pcs_other (N : Nat) (P : Failure) (s s' : CState N) (u : Nat)
    (acts : List CAct) (h : CExecRun N P s acts = some s')
    (hu : ∀ a ∈ acts, ∀ t, CAct.thread a = some t → u ≠ t) :
    s'.pcs u = s.pcs u := by
  induction acts generalizing s with
  | nil => cases h; rfl
  | cons a acts ih =>
    unfold CExecRun at h
    split at h
    · cases h
    · rename_i s'' heq
      rw [ih s'' h (fun b hb => hu b (List.mem_cons_of_mem a hb))]
      exact CExec_pcs_other N P s s'' u a heq
        (hu a (List.mem_cons_self a acts))

end clh_mutex

namespace array_mutex

/-- An array-mutex executor step leaves other threads' program counters
unchanged. -/
theorem AExec_pcs_other (N : Nat) (s s' : AState N) (t u : Nat)
    (h : AExec N s t = some s') (hu : u ≠ t) : s'.pcs u = s.pcs u := by
  unfold AExec at h
  split at h <;> try split at h
  all_goals cases h
  all_goals exact Function.update_noteq hu _ _

/-- An array-mutex executor run over a schedule avoiding thread `u` leaves
`u`'s program counter unchanged. -/
theorem AExecRun_pcs_other (N : Nat) (s s' : AState N) (u : Nat)
    (ts : List Nat) (h : AExecRun N s ts = some s')
    (hu : ∀ t ∈ ts, u ≠ t) : s'.pcs u = s.pcs u := by
  induction ts generalizing s with
  | nil => cases h; rfl
  | cons t ts ih =>
    unfold AExecRun at h
    split at h
    · cases h
    · rename_i s'' heq
      rw [ih s'' h (fun v hv => hu v (List.mem_cons_of_mem t hv))]
      exact AExec_pcs_other N s s'' t u heq (hu t (List.mem_cons_self t ts))

end array_mutex

/-- Schedule reaching a spin-phase deadline check: thread 1 acquires the
`clh_mutex<1>` and holds it; thread 0 enqueues behind it with deadline 0 and
observes its predecessor still locked. -/
def c4acts : List clh_mutex.CAct :=
  [clh_mutex.CAct.start 1 100] ++
    List.replicate 10 (clh_mutex.CAct.go 1) ++
    [clh_mutex.CAct.start 0 0] ++ List.replicate 6 (clh_mutex.CAct.go 0)

def c4s : clh_mutex.CState 1 :=
  (clh_mutex.CExecRun 1 clh_mutex.Failure.retry (clh_mutex.CState.init 1)
    c4acts).getD (clh_mutex.CState.init 1)

/-- Witness for C4: thread 0 of a `clh_mutex<1>`, queued behind the holder
with an already-reached deadline. -/
theorem c4_abandon_witness :
    (clh_mutex.CReach 1 clh_mutex.Failure.retry c4s ∧
      c4s.pcs 0 = clh_mutex.CPc.spinCheck 2 1 0 ∧ 0 ≤ c4s.time) ∧
    (∃ s₁ s₂ s₃ : clh_mutex.CState 1,
      clh_mutex.CStep 1 clh_mutex.Failure.retry c4s s₁ ∧
      clh_mutex.CStep 1 clh_mutex.Failure.retry s₁ s₂ ∧
      clh_mutex.CStep 1 clh_mutex.Failure.retry s₂ s₃ ∧
      s₁.pcs 0 = clh_mutex.CPc.abandonPred 2 1 0 ∧
      s₂.pred 2 = some 1 ∧ s₂.locked 2 = true ∧
      s₂.pcs 0 = clh_mutex.CPc.abandonLocked 2 1 0 ∧
      s₃.pred 2 = some 1 ∧ s₃.locked 2 = false ∧
      s₃.pcs 0 = clh_mutex.CPc.failed ∧
      s₃.free = c4s.free ∧ (2 : Fin 3) ∉ s₃.free) :=
  ⟨⟨clh_mutex.CExecRun_reach 1 clh_mutex.Failure.retry
      (clh_mutex.CState.init 1) c4s c4acts rfl Relation.ReflTransGen.refl,
    by decide, Nat.zero_le _⟩,
    c4_abandon 1 clh_mutex.Failure.retry c4s 0 2 1 0
      (clh_mutex.CExecRun_reach 1 clh_mutex.Failure.retry
        (clh_mutex.CState.init 1) c4s c4acts rfl Relation.ReflTransGen.refl)
      (by decide) (Nat.zero_le _)⟩

/-- C5: a waiter that has observed its predecessor's `locked` become false
reads `pred.pred`, recycles the predecessor node into the available queue
(removing it from the waiting chain), and then: on a non-null inherited
pointer continues spinning on it; on a null pointer completes the acquire.
Moreover an acquire completes only at the chain head, and every step either
keeps the chain, appends one node at the tail (the CAS swap-in), or erases
one recycled node — so the tail-enqueue order is preserved among the
remaining (non-abandoned, non-recycled) nodes. -/
theorem c5_inherit_fifo (N : Nat) (P : clh_mutex.Failure) :
    (∀ (s : clh_mutex.CState N) (t : Nat) (n p : Fin (N + 2)) (d : Nat),
      s.pcs t = clh_mutex.CPc.readPredPred n p d →
      ∃ s₁ s₂, clh_mutex.CStep N P s s₁ ∧ clh_mutex.CStep N P s₁ s₂ ∧
        s₁.pcs t = clh_mutex.CPc.pushing n p (s.pred p) d ∧
        s₂.free = s.free ++ [p] ∧ s₂.chain = s.chain.erase p ∧
        s₂.pcs t = clh_mutex.CPc.checkInherit n (s.pred p) d ∧
        (∀ p', s.pred p = some p' →
          ∃ s₃, clh_mutex.CStep N P s₂ s₃ ∧
            s₃.pcs t = clh_mutex.CPc.spin n p' d) ∧
        (s.pred p = none →
          ∃ s₃ s₄, clh_mutex.CStep N P s₂ s₃ ∧ clh_mutex.CStep N P s₃ s₄ ∧
            s₄.pcs t = clh_mutex.CPc.cs n ∧ (s₄.pcs t).holding = true)) ∧
    (∀ (s : clh_mutex.CState N) (t : Nat) (m : Fin (N + 2)),
      clh_mutex.CReach N P s → (s.pcs t).holding = true →
      (s.pcs t).ownNode = some m → s.chain.head? = some m) ∧
    (∀ s s' : clh_mutex.CState N, clh_mutex.CStep N P s s' →
      s'.chain = s.chain ∨ (∃ m, s'.chain = s.chain ++ [m]) ∨
        ∃ q, s'.chain = s.chain.erase q) := by
  refine ⟨?_, ?_, ?_⟩
  · intro s t n p d h
    refine ⟨_, _, clh_mutex.CStep.readPredPredStep s t n p d h,
      clh_mutex.CStep.pushStep _ t n p (s.pred p) d (by simp),
      by simp, rfl, rfl, by simp, ?_, ?_⟩
    · intro p' ha
      exact ⟨_, clh_mutex.CStep.checkInheritSome _ t n p' d (by simp [ha]),
        by simp⟩
    · intro ha
      exact ⟨_, _, clh_mutex.CStep.checkInheritNone _ t n d (by simp [ha]),
        clh_mutex.CStep.setActiveStep _ t n (by simp),
        by simp, by simp [clh_mutex.CPc.holding]⟩
  · intro s t m hr hh ho
    have hinv := clh_mutex.CInv_reach N P s hr
    obtain ⟨m', hm'⟩ := clh_mutex.holding_holderNode (s.pcs t) hh
    have hx := clh_mutex.ownNode_of_holderNode _ _ hm'
    rw [ho] at hx
    have hme : m = m' := Option.some.inj hx
    rw [hme]
    exact ((hinv.th t).2.2.2.2.2.2.1 m' hm').1
  · intro s s' hstep
    cases hstep <;>
      first
      | exact Or.inl rfl
      | exact Or.inr (Or.inl ⟨_, rfl⟩)
      | exact Or.inr (Or.inr ⟨_, rfl⟩)

/-- Schedule reaching the inherited-handshake read: thread 1 acquires the
`clh_mutex<1>`, thread 0 enqueues behind it, thread 1 releases, thread 0
observes `locked` false on its predecessor. -/
def c5acts : List clh_mutex.CAct :=
  [clh_mutex.CAct.start 1 100] ++
    List.replicate 10 (clh_mutex.CAct.go 1) ++
    [clh_mutex.CAct.start 0 50] ++ List.replicate 5 (clh_mutex.CAct.go 0) ++
    List.replicate 3 (clh_mutex.CAct.go 1) ++ [clh_mutex.CAct.go 0]

def c5s : clh_mutex.CState 1 :=
  (clh_mutex.CExecRun 1 clh_mutex.Failure.retry (clh_mutex.CState.init 1)
    c5acts).getD (clh_mutex.CState.init 1)

/-- Schedule after which thread 0 holds the `clh_mutex<1>`. -/
def c5bacts : List clh_mutex.CAct :=
  [clh_mutex.CAct.start 0 100] ++ List.replicate 10 (clh_mutex.CAct.go 0)

def c5bs : clh_mutex.CState 1 :=
  (clh_mutex.CExecRun 1 clh_mutex.Failure.retry (clh_mutex.CState.init 1)
    c5bacts).getD (clh_mutex.CState.init 1)

/-- Witness for C5: the handshake of thread 0 of a `clh_mutex<1>` behind a
released predecessor, a concrete holding state at the chain head, and a
concrete step preserving the chain. -/
theorem c5_inherit_fifo_witness :
    (c5s.pcs 0 = clh_mutex.CPc.readPredPred 2 1 50 ∧
      (∃ s₁ s₂, clh_mutex.CStep 1 clh_mutex.Failure.retry c5s s₁ ∧
        clh_mutex.CStep 1 clh_mutex.Failure.retry s₁ s₂ ∧
        s₁.pcs 0 = clh_mutex.CPc.pushing 2 1 (c5s.pred 1) 50 ∧
        s₂.free = c5s.free ++ [1] ∧ s₂.chain = c5s.chain.erase 1 ∧
        s₂.pcs 0 = clh_mutex.CPc.checkInherit 2 (c5s.pred 1) 50 ∧
        (∀ p', c5s.pred 1 = some p' →
          ∃ s₃, clh_mutex.CStep 1 clh_mutex.Failure.retry s₂ s₃ ∧
            s₃.pcs 0 = clh_mutex.CPc.spin 2 p' 50) ∧
        (c5s.pred 1 = none →
          ∃ s₃ s₄, clh_mutex.CStep 1 clh_mutex.Failure.retry s₂ s₃ ∧
            clh_mutex.CStep 1 clh_mutex.Failure.retry s₃ s₄ ∧
            s₄.pcs 0 = clh_mutex.CPc.cs 2 ∧ (s₄.pcs 0).holding = true))) ∧
    (clh_mutex.CReach 1 clh_mutex.Failure.retry c5bs ∧
      (c5bs.pcs 0).holding = true ∧ (c5bs.pcs 0).ownNode = some 1 ∧
      c5bs.chain.head? = some 1) ∧
    (c5bs.chain = c5bs.chain ∨ (∃ m, c5bs.chain = c5bs.chain ++ [m]) ∨
      ∃ q, c5bs.chain = c5bs.chain.erase q) := by
  have hb : clh_mutex.CReach 1 clh_mutex.Failure.retry c5bs :=
    clh_mutex.CExecRun_reach 1 clh_mutex.Failure.retry
      (clh_mutex.CState.init 1) c5bs c5bacts rfl Relation.ReflTransGen.refl
  refine ⟨⟨by decide, (c5_inherit_fifo 1 clh_mutex.Failure.retry).1 c5s 0 2 1
      50 (by decide)⟩, ⟨hb, by decide, by decide,
    (c5_inherit_fifo 1 clh_mutex.Failure.retry).2.1 c5bs 0 1 hb (by decide)
      (by decide)⟩, ?_⟩
  have hstep : clh_mutex.CStep 1 clh_mutex.Failure.retry c5bs
      { c5bs with time := c5bs.time + 1 } := clh_mutex.CStep.tick c5bs
  have := (c5_inherit_fifo 1 clh_mutex.Failure.retry).2.2 c5bs
    { c5bs with time := c5bs.time + 1 } hstep
  exact this

/-- C6 counterexample: a `clh_mutex<1>` under the `die` policy whose free
queue is down to its sentinel node; an acquire whose deadline has already
passed finds the pool empty, yet it does not raise `Exhausted`: the
pop-failure path checks the clock first and returns "not acquired". -/
theorem c6_counterexample :
    ∃ s₁ s₂ : clh_mutex.CState 1,
      clh_mutex.CReach 1 clh_mutex.Failure.die s₁ ∧
      s₁.free.length < 2 ∧ s₁.pcs 0 = clh_mutex.CPc.popping 0 ∧
      clh_mutex.CExecRun 1 clh_mutex.Failure.die s₁
        [clh_mutex.CAct.go 0, clh_mutex.CAct.go 0] = some s₂ ∧
      s₂.pcs 0 = clh_mutex.CPc.failed ∧
      (∀ e, s₂.pcs 0 ≠ clh_mutex.CPc.exhausted e) := by
  refine ⟨(clh_mutex.CExecRun 1 clh_mutex.Failure.die
      (clh_mutex.CState.init 1)
      [clh_mutex.CAct.start 1 100, clh_mutex.CAct.go 1,
        clh_mutex.CAct.start 0 0]).getD (clh_mutex.CState.init 1), _,
    clh_mutex.CExecRun_reach 1 clh_mutex.Failure.die
      (clh_mutex.CState.init 1) _
      [clh_mutex.CAct.start 1 100, clh_mutex.CAct.go 1,
        clh_mutex.CAct.start 0 0] rfl Relation.ReflTransGen.refl,
    by decide, by decide, rfl, by decide, ?_⟩
  intro e
  cases e <;> decide

/-- C6 amended: under the `die` policy a thread at the pop-failure check
raises `Exhausted` (`std::system_error` with `device_or_resource_busy`) if
and only if its deadline has not yet been reached; with the deadline reached
it returns "not acquired" instead, and in no case does any step send it back
to retry the pop. -/
theorem c6_amended (N : Nat) (s : clh_mutex.CState N) (t d : Nat)
    (h : s.pcs t = clh_mutex.CPc.popCheck d) :
    (s.time < d → clh_mutex.CStep N clh_mutex.Failure.die s
      { s with clockReads := s.clockReads + 1
               pcs := Function.update s.pcs t
                 (clh_mutex.CPc.exhausted exclusive.error_on_slots_exceeded) }) ∧
    (d ≤ s.time → clh_mutex.CStep N clh_mutex.Failure.die s
      { s with clockReads := s.clockReads + 1
               pcs := Function.update s.pcs t clh_mutex.CPc.failed }) ∧
    (∀ s', clh_mutex.CStep N clh_mutex.Failure.die s s' →
      s'.pcs t = clh_mutex.CPc.popCheck d ∨
      s'.pcs t = clh_mutex.CPc.failed ∨
      s'.pcs t = clh_mutex.CPc.exhausted exclusive.error_on_slots_exceeded) := by
  refine ⟨?_, ?_, ?_⟩
  · intro hlt
    exact clh_mutex.CStep.popCheckDie s t d h hlt rfl
  · intro hge
    exact clh_mutex.CStep.popCheckTimeout s t d h hge
  · intro s' hstep
    cases hstep with
    | tick => exact Or.inl h
    | start u d' hpc =>
      by_cases hut : t = u
      · exfalso
        rw [hut] at h
        rw [h] at hpc
        cases hpc
      · refine Or.inl ?_
        show Function.update s.pcs u _ t = _
        rw [Function.update_noteq hut]
        exact h
    | popOk u d' a b rest hpc hf =>
      by_cases hut : t = u
      · exfalso
        rw [hut] at h
        rw [h] at hpc
        cases hpc
      · refine Or.inl ?_
        show Function.update s.pcs u _ t = _
        rw [Function.update_noteq hut]
        exact h
    | popEmpty u d' hpc hf =>
      by_cases hut : t = u
      · exfalso
        rw [hut] at h
        rw [h] at hpc
        cases hpc
      · refine Or.inl ?_
        show Function.update s.pcs u _ t = _
        rw [Function.update_noteq hut]
        exact h
    | popCheckTimeout u d' hpc ht =>
      by_cases hut : t = u
      · refine Or.inr (Or.inl ?_)
        show Function.update s.pcs u _ t = _
        rw [hut, Function.update_same]
      · refine Or.inl ?_
        show Function.update s.pcs u _ t = _
        rw [Function.update_noteq hut]
        exact h
    | popCheckDie u d' hpc ht hpp =>
      by_cases hut : t = u
      · refine Or.inr (Or.inr ?_)
        show Function.update s.pcs u _ t = _
        rw [hut, Function.update_same]
      · refine Or.inl ?_
        show Function.update s.pcs u _ t = _
        rw [Function.update_noteq hut]
        exact h
    | popCheckRetry u d' hpc ht hpp =>
      cases hpp
    | storeLocked u n d' hpc =>
      by_cases hut : t = u
      · exfalso
        rw [hut] at h
        rw [h] at hpc
        cases hpc
      · refine Or.inl ?_
        show Function.update s.pcs u _ t = _
        rw [Function.update_noteq hut]
        exact h
    | loadTail u n d' hpc =>
      by_cases hut : t = u
      · exfalso
        rw [hut] at h
        rw [h] at hpc
        cases hpc
      · refine Or.inl ?_
        show Function.update s.pcs u _ t = _
        rw [Function.update_noteq hut]
        exact h
    | casOk u n p d' hpc hp2 =>
      by_cases hut : t = u
      · exfalso
        rw [hut] at h
        rw [h] at hpc
        cases hpc
      · refine Or.inl ?_
        show Function.update s.pcs u _ t = _
        rw [Function.update_noteq hut]
        exact h
    | casFail u n p d' hpc =>
      by_cases hut : t = u
      · exfalso
        rw [hut] at h
        rw [h] at hpc
        cases hpc
      · refine Or.inl ?_
        show Function.update s.pcs u _ t = _
        rw [Function.update_noteq hut]
        exact h
    | casCheckTimeout u n p d' hpc ht =>
      by_cases hut : t = u
      · exfalso
        rw [hut] at h
        rw [h] at hpc
        cases hpc
      · refine Or.inl ?_
        show Function.update s.pcs u _ t = _
        rw [Function.update_noteq hut]
        exact h
    | casCheckRetry u n p d' hpc ht =>
      by_cases hut : t = u
      · exfalso
        rw [hut] at h
        rw [h] at hpc
        cases hpc
      · refine Or.inl ?_
        show Function.update s.pcs u _ t = _
        rw [Function.update_noteq hut]
        exact h
    | incrCountStep u n p d' hpc =>
      by_cases hut : t = u
      · exfalso
        rw [hut] at h
        rw [h] at hpc
        cases hpc
      · refine Or.inl ?_
        show Function.update s.pcs u _ t = _
        rw [Function.update_noteq hut]
        exact h
    | spinTrue u n p d' hpc hl =>
      by_cases hut : t = u
      · exfalso
        rw [hut] at h
        rw [h] at hpc
        cases hpc
      · refine Or.inl ?_
        show Function.update s.pcs u _ t = _
        rw [Function.update_noteq hut]
        exact h
    | spinFalse u n p d' hpc hl =>
      by_cases hut : t = u
      · exfalso
        rw [hut] at h
        rw [h] at hpc
        cases hpc
      · refine Or.inl ?_
        show Function.update s.pcs u _ t = _
        rw [Function.update_noteq hut]
        exact h
    | spinCheckCont u n p d' hpc ht =>
      by_cases hut : t = u
      · exfalso
        rw [hut] at h
        rw [h] at hpc
        cases hpc
      · refine Or.inl ?_
        show Function.update s.pcs u _ t = _
        rw [Function.update_noteq hut]
        exact h
    | spinCheckAbandon u n p d' hpc ht =>
      by_cases hut : t = u
      · exfalso
        rw [hut] at h
        rw [h] at hpc
        cases hpc
      · refine Or.inl ?_
        show Function.update s.pcs u _ t = _
        rw [Function.update_noteq hut]
        exact h
    | abandonPredStep u n p d' hpc =>
      by_cases hut : t = u
      · exfalso
        rw [hut] at h
        rw [h] at hpc
        cases hpc
      · refine Or.inl ?_
        show Function.update s.pcs u _ t = _
        rw [Function.update_noteq hut]
        exact h
    | abandonLockedStep u n p d' hpc =>
      by_cases hut : t = u
      · exfalso
        rw [hut] at h
        rw [h] at hpc
        cases hpc
      · refine Or.inl ?_
        show Function.update s.pcs u _ t = _
        rw [Function.update_noteq hut]
        exact h
    | readPredPredStep u n p d' hpc =>
      by_cases hut : t = u
      · exfalso
        rw [hut] at h
        rw [h] at hpc
        cases hpc
      · refine Or.inl ?_
        show Function.update s.pcs u _ t = _
        rw [Function.update_noteq hut]
        exact h
    | pushStep u n p a d' hpc =>
      by_cases hut : t = u
      · exfalso
        rw [hut] at h
        rw [h] at hpc
        cases hpc
      · refine Or.inl ?_
        show Function.update s.pcs u _ t = _
        rw [Function.update_noteq hut]
        exact h
    | checkInheritSome u n p' d' hpc =>
      by_cases hut : t = u
      · exfalso
        rw [hut] at h
        rw [h] at hpc
        cases hpc
      · refine Or.inl ?_
        show Function.update s.pcs u _ t = _
        rw [Function.update_noteq hut]
        exact h
    | checkInheritNone u n d' hpc =>
      by_cases hut : t = u
      · exfalso
        rw [hut] at h
        rw [h] at hpc
        cases hpc
      · refine Or.inl ?_
        show Function.update s.pcs u _ t = _
        rw [Function.update_noteq hut]
        exact h
    | setActiveStep u n hpc =>
      by_cases hut : t = u
      · exfalso
        rw [hut] at h
        rw [h] at hpc
        cases hpc
      · refine Or.inl ?_
        show Function.update s.pcs u _ t = _
        rw [Function.update_noteq hut]
        exact h
    | unlockRead u n hpc =>
      by_cases hut : t = u
      · exfalso
        rw [hut] at h
        rw [h] at hpc
        cases hpc
      · refine Or.inl ?_
        show Function.update s.pcs u _ t = _
        rw [Function.update_noteq hut]
        exact h
    | unlockClearPred u n hpc =>
      by_cases hut : t = u
      · exfalso
        rw [hut] at h
        rw [h] at hpc
        cases hpc
      · refine Or.inl ?_
        show Function.update s.pcs u _ t = _
        rw [Function.update_noteq hut]
        exact h
    | unlockRelease u n hpc =>
      by_cases hut : t = u
      · exfalso
        rw [hut] at h
        rw [h] at hpc
        cases hpc
      · refine Or.inl ?_
        show Function.update s.pcs u _ t = _
        rw [Function.update_noteq hut]
        exact h
    | failedIdle u hpc =>
      by_cases hut : t = u
      · exfalso
        rw [hut] at h
        rw [h] at hpc
        cases hpc
      · refine Or.inl ?_
        show Function.update s.pcs u _ t = _
        rw [Function.update_noteq hut]
        exact h

def c6s : clh_mutex.CState 1 :=
  (clh_mutex.CExecRun 1 clh_mutex.Failure.die (clh_mutex.CState.init 1)
    [clh_mutex.CAct.start 1 100, clh_mutex.CAct.go 1,
      clh_mutex.CAct.start 0 5, clh_mutex.CAct.go 0]).getD
    (clh_mutex.CState.init 1)

/-- Witness for C6 amended: thread 0 of a `clh_mutex<1>` under the `die`
policy at the pop-failure check with deadline 5 and clock 0. -/
theorem c6_amended_witness :
    c6s.pcs 0 = clh_mutex.CPc.popCheck 5 ∧
    ((c6s.time < 5 → clh_mutex.CStep 1 clh_mutex.Failure.die c6s
      { c6s with clockReads := c6s.clockReads + 1
                 pcs := Function.update c6s.pcs 0
                   (clh_mutex.CPc.exhausted
                     exclusive.error_on_slots_exceeded) }) ∧
    (5 ≤ c6s.time → clh_mutex.CStep 1 clh_mutex.Failure.die c6s
      { c6s with clockReads := c6s.clockReads + 1
                 pcs := Function.update c6s.pcs 0 clh_mutex.CPc.failed }) ∧
    (∀ s', clh_mutex.CStep 1 clh_mutex.Failure.die c6s s' →
      s'.pcs 0 = clh_mutex.CPc.popCheck 5 ∨
      s'.pcs 0 = clh_mutex.CPc.failed ∨
      s'.pcs 0 = clh_mutex.CPc.exhausted
        exclusive.error_on_slots_exceeded)) :=
  ⟨by decide, c6_amended 1 c6s 0 5 (by decide)⟩

/-- A complete uncontested acquire of a `clh_mutex<1>` by thread 0. -/
def c7lockacts : List clh_mutex.CAct :=
  [clh_mutex.CAct.start 0 100] ++ List.replicate 10 (clh_mutex.CAct.go 0)

/-- The matching release. -/
def c7unlockacts : List clh_mutex.CAct :=
  List.replicate 3 (clh_mutex.CAct.go 0)

def c7s₁ : clh_mutex.CState 1 :=
  (clh_mutex.CExecRun 1 clh_mutex.Failure.retry (clh_mutex.CState.init 1)
    c7lockacts).getD (clh_mutex.CState.init 1)

def c7s₂ : clh_mutex.CState 1 :=
  (clh_mutex.CExecRun 1 clh_mutex.Failure.retry c7s₁ c7unlockacts).getD
    (clh_mutex.CState.init 1)

/-- C7 counterexample: a successful acquire followed by its release on a
fresh `clh_mutex<1>` leaves a state that the public interface distinguishes
from the freshly constructed lock: `queue_count` now returns 1, not 0. -/
theorem c7_counterexample :
    clh_mutex.CExecRun 1 clh_mutex.Failure.retry (clh_mutex.CState.init 1)
      c7lockacts = some c7s₁ ∧
    (c7s₁.pcs 0).holding = true ∧
    clh_mutex.CExecRun 1 clh_mutex.Failure.retry c7s₁ c7unlockacts =
      some c7s₂ ∧
    c7s₂.pcs 0 = clh_mutex.CPc.idle ∧
    clh_mutex.queue_count c7s₂ ≠
      clh_mutex.queue_count (clh_mutex.CState.init 1) := by
  exact ⟨rfl, by decide, rfl, by decide, by decide⟩

/-- C7 amended: for every slot count `N > 0`, failure policy, thread and
deadline, a successful acquire followed by its release on the freshly
constructed lock leaves a quiescent state.  CLH: all threads idle again,
every node unlocked with a null `pred`, the chain reduced to the single
grant node, the full `N + 2`-node pool present — but the public
`queue_count` observer distinguishes the state from a fresh lock, returning
1 instead of 0.  Array: all threads idle, `active_` unchanged, the slot
`value` armed exactly on slot `1 % N` and the busy flag set exactly on slot
0 when `N ≥ 2` (the one-slot rotation of the fresh state), with the private
ticket counter advanced to 1. -/
theorem c7_amended (N : Nat) (hN : 0 < N) (P : clh_mutex.Failure)
    (t d : Nat) :
    (∃ s₁ sc : clh_mutex.CState N,
      Relation.ReflTransGen (clh_mutex.CStep N P)
        (clh_mutex.CState.init N) s₁ ∧
      (s₁.pcs t).holding = true ∧
      Relation.ReflTransGen (clh_mutex.CStep N P) s₁ sc ∧
      (∀ u, sc.pcs u = clh_mutex.CPc.idle) ∧
      sc.chain = [sc.tl] ∧
      (∀ m, sc.locked m = false) ∧ (∀ m, sc.pred m = none) ∧
      (sc.free ++ sc.chain).Perm (List.finRange (N + 2)) ∧
      clh_mutex.queue_count sc = 1 ∧
      clh_mutex.queue_count (clh_mutex.CState.init N) = 0) ∧
    (∃ a₁ ac : array_mutex.AState N,
      Relation.ReflTransGen (array_mutex.AStep N)
        (array_mutex.AState.init N) a₁ ∧
      (a₁.pcs t).holding = true ∧
      Relation.ReflTransGen (array_mutex.AStep N) a₁ ac ∧
      (∀ u, ac.pcs u = array_mutex.APc.idle) ∧
      ac.active = (array_mutex.AState.init N).active ∧
      ac.value (1 % N) = true ∧
      (∀ sl, sl ≠ 1 % N → ac.value sl = false) ∧
      (1 % N = 0 → ∀ sl, ac.inUse sl = false) ∧
      (1 % N ≠ 0 → ac.inUse 0 = true ∧
        ∀ sl, sl ≠ 0 → ac.inUse sl = false) ∧
      ac.tl = 1) := by
  constructor
  · have hlen : (clh_mutex.CState.init N).free.length = N + 1 := by
      show ((List.finRange (N + 2)).drop 1).length = N + 1
      rw [List.length_drop, List.length_finRange]
      omega
    obtain ⟨a, b, rest, hfree⟩ :
        ∃ a b rest, (clh_mutex.CState.init N).free = a :: b :: rest := by
      cases hf : (clh_mutex.CState.init N).free with
      | nil =>
        rw [hf] at hlen
        simp only [List.length_nil] at hlen
        omega
      | cons x l =>
        cases l with
        | nil =>
          rw [hf] at hlen
          simp only [List.length_cons, List.length_nil] at hlen
          omega
        | cons y l' => exact ⟨x, y, l', rfl⟩
    have hachain : a ∉ (clh_mutex.CState.init N).chain :=
      (List.disjoint_of_nodup_append (clh_mutex.CInv_init N).nodup)
        (by rw [hfree]; exact List.mem_cons_self _ _)
    have hac : a ≠ (⟨0, by omega⟩ : Fin (N + 2)) := by
      intro he
      apply hachain
      show a ∈ [(⟨0, by omega⟩ : Fin (N + 2))]
      rw [he]
      exact List.mem_singleton.mpr rfl
    have hz : (0 : Fin (N + 2)) = ⟨0, by omega⟩ := Fin.ext (by simp)
    have hfree0 : (clh_mutex.CState.init N).free =
        (List.finRange (N + 1)).map Fin.succ := by
      show (List.finRange (N + 2)).drop 1 = _
      rw [List.finRange_succ_eq_map]
      rfl
    have h1 : List.finRange (N + 2) =
        (0 : Fin (N + 2)) :: (clh_mutex.CState.init N).free := by
      rw [List.finRange_succ_eq_map]
      rw [hfree0]
    have hfr : List.finRange (N + 2) =
        (⟨0, by omega⟩ : Fin (N + 2)) :: a :: b :: rest :=
      h1.trans ((congrArg (List.cons (0 : Fin (N + 2))) hfree).trans
        (congrArg (fun z => z :: a :: b :: rest) hz))
    exact ⟨_, _,
      Relation.ReflTransGen.head
        (clh_mutex.CStep.start (clh_mutex.CState.init N) t d rfl)
       (Relation.ReflTransGen.head
         (clh_mutex.CStep.popOk _ t d a b rest (by simp) (by simp [hfree]))
       (Relation.ReflTransGen.head
         (clh_mutex.CStep.storeLocked _ t a d (by simp))
       (Relation.ReflTransGen.head
         (clh_mutex.CStep.loadTail _ t a d (by simp))
       (Relation.ReflTransGen.head
         (clh_mutex.CStep.casOk _ t a (clh_mutex.CState.init N).tl d
           (by simp) (by simp))
       (Relation.ReflTransGen.head
         (clh_mutex.CStep.incrCountStep _ t a (clh_mutex.CState.init N).tl d
           (by simp))
       (Relation.ReflTransGen.head
         (clh_mutex.CStep.spinFalse _ t a (clh_mutex.CState.init N).tl d
           (by simp)
           (by
             show Function.update (clh_mutex.CState.init N).locked a true
                 (clh_mutex.CState.init N).tl = false
             rw [Function.update_noteq
               (show (clh_mutex.CState.init N).tl ≠ a from
                 fun he => hac he.symm)]
             rfl))
       (Relation.ReflTransGen.head
         (clh_mutex.CStep.readPredPredStep _ t a
           (clh_mutex.CState.init N).tl d (by simp))
       (Relation.ReflTransGen.head
         (clh_mutex.CStep.pushStep _ t a (clh_mutex.CState.init N).tl none d
           (by simp [clh_mutex.CState.init]))
       (Relation.ReflTransGen.head
         (clh_mutex.CStep.checkInheritNone _ t a d (by simp))
       (Relation.ReflTransGen.head
         (clh_mutex.CStep.setActiveStep _ t a (by simp))
        Relation.ReflTransGen.refl))))))))))
      , by simp [clh_mutex.CPc.holding]
      , Relation.ReflTransGen.head
          (clh_mutex.CStep.unlockRead _ t a (by simp))
        (Relation.ReflTransGen.head
          (clh_mutex.CStep.unlockClearPred _ t a (by simp))
        (Relation.ReflTransGen.head
          (clh_mutex.CStep.unlockRelease _ t a (by simp))
         Relation.ReflTransGen.refl))
      , by
          intro u
          by_cases hu : u = t
          · rw [hu]
            simp
          · simp only [Function.update_noteq hu]
            rfl
      , by
          show ((clh_mutex.CState.init N).chain ++ [a]).erase
              (clh_mutex.CState.init N).tl = [a]
          show ((⟨0, by omega⟩ : Fin (N + 2)) :: [a]).erase
              (⟨0, by omega⟩ : Fin (N + 2)) = [a]
          rw [List.erase_cons_head]
      , by
          intro m
          show Function.update (Function.update
              (clh_mutex.CState.init N).locked a true) a false m = false
          by_cases hm : m = a
          · rw [hm, Function.update_same]
          · rw [Function.update_noteq hm, Function.update_noteq hm]
            rfl
      , by
          intro m
          show Function.update (clh_mutex.CState.init N).pred a none m = none
          by_cases hm : m = a
          · rw [hm, Function.update_same]
          · rw [Function.update_noteq hm]
            rfl
      , by
          show (((b :: rest) ++ [(clh_mutex.CState.init N).tl]) ++
              [a]).Perm (List.finRange (N + 2))
          rw [hfr]
          refine List.Perm.trans List.perm_append_comm ?_
          show (a :: ((b :: rest) ++
              [(clh_mutex.CState.init N).tl])).Perm _
          refine List.Perm.trans (List.Perm.cons a List.perm_append_comm) ?_
          show (a :: (⟨0, by omega⟩ : Fin (N + 2)) :: b :: rest).Perm _
          exact List.Perm.swap _ _ _
      , by
          show ((clh_mutex.CState.init N).queueCount + 1) % 2 ^ 32 = 1
          norm_num [clh_mutex.CState.init]
      , rfl⟩
  · have hs0 : (array_mutex.AState.init N).tl % N = 0 := Nat.zero_mod N
    have hs1 : ((array_mutex.AState.init N).tl % N + 1) % N = 1 % N := by
      rw [hs0]
    exact ⟨_, _,
      Relation.ReflTransGen.head
        (array_mutex.AStep.ticket (array_mutex.AState.init N) t rfl)
       (Relation.ReflTransGen.head
         (array_mutex.AStep.spinRead _ t ((array_mutex.AState.init N).tl % N)
           (by simp)
           (by
             show (array_mutex.AState.init N).value
                 ((array_mutex.AState.init N).tl % N) = true
             rw [hs0]
             simp [array_mutex.AState.init]))
       (Relation.ReflTransGen.head
         (array_mutex.AStep.tasOk _ t ((array_mutex.AState.init N).tl % N)
           (by simp) rfl)
       (Relation.ReflTransGen.head
         (array_mutex.AStep.enterCs _ t ((array_mutex.AState.init N).tl % N)
           (by simp))
        Relation.ReflTransGen.refl)))
      , by simp [array_mutex.APc.holding]
      , Relation.ReflTransGen.head
          (array_mutex.AStep.unlockRead _ t
            ((array_mutex.AState.init N).tl % N) (by simp))
        (Relation.ReflTransGen.head
          (array_mutex.AStep.unlockClearValue _ t
            ((array_mutex.AState.init N).tl % N) (by simp))
        (Relation.ReflTransGen.head
          (array_mutex.AStep.unlockClearInUse _ t
            ((array_mutex.AState.init N).tl % N) (by simp))
        (Relation.ReflTransGen.head
          (array_mutex.AStep.unlockSetValue _ t
            ((array_mutex.AState.init N).tl % N) (by simp))
         Relation.ReflTransGen.refl)))
      , by
          intro u
          by_cases hu : u = t
          · rw [hu]
            simp
          · simp only [Function.update_noteq hu]
            rfl
      , by
          show (array_mutex.AState.init N).tl % N =
            (array_mutex.AState.init N).active
          rw [hs0]
          rfl
      , by
          show Function.update (Function.update
              (array_mutex.AState.init N).value
              ((array_mutex.AState.init N).tl % N) false)
              (((array_mutex.AState.init N).tl % N + 1) % N) true
              (1 % N) = true
          rw [hs1, Function.update_same]
      , by
          intro sl hsl
          show Function.update (Function.update
              (array_mutex.AState.init N).value
              ((array_mutex.AState.init N).tl % N) false)
              (((array_mutex.AState.init N).tl % N + 1) % N) true
              sl = false
          rw [hs1, Function.update_noteq hsl, hs0]
          by_cases h0 : sl = 0
          · rw [h0, Function.update_same]
          · rw [Function.update_noteq h0]
            simp [array_mutex.AState.init, h0]
      , by
          intro h1 sl
          show Function.update (Function.update
              (array_mutex.AState.init N).inUse
              ((array_mutex.AState.init N).tl % N) true)
              (((array_mutex.AState.init N).tl % N + 1) % N) false
              sl = false
          rw [hs1, hs0, h1]
          by_cases h0 : sl = 0
          · rw [h0, Function.update_same]
          · rw [Function.update_noteq h0, Function.update_noteq h0]
            rfl
      , by
          intro h1
          constructor
          · show Function.update (Function.update
                (array_mutex.AState.init N).inUse
                ((array_mutex.AState.init N).tl % N) true)
                (((array_mutex.AState.init N).tl % N + 1) % N) false
                0 = true
            rw [hs1, hs0, Function.update_noteq (fun he => h1 he.symm),
              Function.update_same]
          · intro sl hsl
            show Function.update (Function.update
                (array_mutex.AState.init N).inUse
                ((array_mutex.AState.init N).tl % N) true)
                (((array_mutex.AState.init N).tl % N + 1) % N) false
                sl = false
            rw [hs1, hs0]
            by_cases h2 : sl = 1 % N
            · rw [h2, Function.update_same]
            · rw [Function.update_noteq h2, Function.update_noteq hsl]
              rfl
      , by
          show ((array_mutex.AState.init N).tl + 1) % 2 ^ 64 = 1
          norm_num [array_mutex.AState.init]⟩

/-- Witness for C7 amended: `N = 1`, the `retry` policy, thread 0 and
deadline 100. -/
theorem c7_amended_witness :
    0 < 1 ∧
    ((∃ s₁ sc : clh_mutex.CState 1,
      Relation.ReflTransGen (clh_mutex.CStep 1 clh_mutex.Failure.retry)
        (clh_mutex.CState.init 1) s₁ ∧
      (s₁.pcs 0).holding = true ∧
      Relation.ReflTransGen (clh_mutex.CStep 1 clh_mutex.Failure.retry)
        s₁ sc ∧
      (∀ u, sc.pcs u = clh_mutex.CPc.idle) ∧
      sc.chain = [sc.tl] ∧
      (∀ m, sc.locked m = false) ∧ (∀ m, sc.pred m = none) ∧
      (sc.free ++ sc.chain).Perm (List.finRange 3) ∧
      clh_mutex.queue_count sc = 1 ∧
      clh_mutex.queue_count (clh_mutex.CState.init 1) = 0) ∧
    (∃ a₁ ac : array_mutex.AState 1,
      Relation.ReflTransGen (array_mutex.AStep 1)
        (array_mutex.AState.init 1) a₁ ∧
      (a₁.pcs 0).holding = true ∧
      Relation.ReflTransGen (array_mutex.AStep 1) a₁ ac ∧
      (∀ u, ac.pcs u = array_mutex.APc.idle) ∧
      ac.active = (array_mutex.AState.init 1).active ∧
      ac.value (1 % 1) = true ∧
      (∀ sl, sl ≠ 1 % 1 → ac.value sl = false) ∧
      (1 % 1 = 0 → ∀ sl, ac.inUse sl = false) ∧
      (1 % 1 ≠ 0 → ac.inUse 0 = true ∧
        ∀ sl, sl ≠ 0 → ac.inUse sl = false) ∧
      ac.tl = 1)) :=
  ⟨by decide, c7_amended 1 (by decide) clh_mutex.Failure.retry 0 100⟩

/-- C8 counterexample: after a successful tail CAS but before the
`queue_count_` fetch-add, `queue_count` lags the number of completed
swap-ins: a fresh `clh_mutex<1>` run to just after the CAS has one swap-in
but still reports `queue_count = 0`. -/
theorem c8_counterexample :
    ∃ s : clh_mutex.CState 1,
      clh_mutex.CExecRun 1 clh_mutex.Failure.retry (clh_mutex.CState.init 1)
        [clh_mutex.CAct.start 0 100, clh_mutex.CAct.go 0,
          clh_mutex.CAct.go 0, clh_mutex.CAct.go 0, clh_mutex.CAct.go 0] =
        some s ∧
      clh_mutex.CReach 1 clh_mutex.Failure.retry s ∧
      s.swapIns = 1 ∧ clh_mutex.queue_count s = 0 ∧
      clh_mutex.queue_count s ≠ s.swapIns := by
  refine ⟨(clh_mutex.CExecRun 1 clh_mutex.Failure.retry
      (clh_mutex.CState.init 1)
      [clh_mutex.CAct.start 0 100, clh_mutex.CAct.go 0, clh_mutex.CAct.go 0,
        clh_mutex.CAct.go 0, clh_mutex.CAct.go 0]).getD
      (clh_mutex.CState.init 1), rfl,
    clh_mutex.CExecRun_reach 1 clh_mutex.Failure.retry
      (clh_mutex.CState.init 1) _
      [clh_mutex.CAct.start 0 100, clh_mutex.CAct.go 0, clh_mutex.CAct.go 0,
        clh_mutex.CAct.go 0, clh_mutex.CAct.go 0] rfl
      Relation.ReflTransGen.refl,
    by decide, by decide, by decide⟩

/-- The public counter always equals the number of completed
`queue_count_` fetch-adds reduced modulo the 32-bit width of
`std::atomic_uint`. -/
theorem queueCount_eq_counted (N : Nat) (P : clh_mutex.Failure)
    (s : clh_mutex.CState N) (h : clh_mutex.CReach N P s) :
    s.queueCount = s.counted % 2 ^ 32 := by
  induction h with
  | refl => rfl
  | tail hab hbc ih =>
    rename_i b c
    cases hbc
    all_goals try exact ih
    show (b.queueCount + 1) % 2 ^ 32 = (b.counted + 1) % 2 ^ 32
    rw [ih]
    omega

/-- C8 amended: `queue_count` equals the completed fetch-adds modulo
`2 ^ 32`; a step changes it only at the fetch-add executed by a thread that
has already completed its tail CAS, incrementing it by one modulo `2 ^ 32`
(so it wraps rather than growing monotonically, and it lags the swap-in
count between a CAS completion and the following fetch-add); and a thread
arrives at the fetch-add exactly by completing the tail CAS, which bumps the
swap-in count while leaving `queue_count` unchanged. -/
theorem c8_amended (N : Nat) (P : clh_mutex.Failure) :
    (∀ s : clh_mutex.CState N, clh_mutex.CReach N P s →
      clh_mutex.queue_count s = s.counted % 2 ^ 32) ∧
    (∀ s s' : clh_mutex.CState N, clh_mutex.CStep N P s s' →
      (clh_mutex.queue_count s' = clh_mutex.queue_count s ∧
        s'.counted = s.counted) ∨
      (∃ t n p d, s.pcs t = clh_mutex.CPc.incrCount n p d ∧
        s'.pcs t = clh_mutex.CPc.spin n p d ∧
        clh_mutex.queue_count s' =
          (clh_mutex.queue_count s + 1) % 2 ^ 32 ∧
        s'.counted = s.counted + 1)) ∧
    (∀ (s s' : clh_mutex.CState N) (t : Nat) (n p : Fin (N + 2)) (d : Nat),
      clh_mutex.CStep N P s s' →
      s.pcs t ≠ clh_mutex.CPc.incrCount n p d →
      s'.pcs t = clh_mutex.CPc.incrCount n p d →
      s'.swapIns = s.swapIns + 1 ∧
        clh_mutex.queue_count s' = clh_mutex.queue_count s) := by
  refine ⟨queueCount_eq_counted N P, ?_, ?_⟩
  · intro s s' hstep
    cases hstep
    all_goals try exact Or.inl ⟨rfl, rfl⟩
    rename_i u n' p' d2 hpc
    exact Or.inr ⟨u, n', p', d2, hpc, by simp, rfl, rfl⟩
  · intro s s' t n p d hstep hne h2
    cases hstep with
    | tick => exact absurd h2 hne
    | start u d2 hpc =>
      by_cases hut : t = u
      · exfalso
        rw [hut] at h2
        simp only [Function.update_same] at h2
        cases h2
      · exfalso
        simp only [Function.update_noteq hut] at h2
        exact hne h2
    | popOk u d2 a2 b2 rest2 hpc hf =>
      by_cases hut : t = u
      · exfalso
        rw [hut] at h2
        simp only [Function.update_same] at h2
        cases h2
      · exfalso
        simp only [Function.update_noteq hut] at h2
        exact hne h2
    | popEmpty u d2 hpc hf =>
      by_cases hut : t = u
      · exfalso
        rw [hut] at h2
        simp only [Function.update_same] at h2
        cases h2
      · exfalso
        simp only [Function.update_noteq hut] at h2
        exact hne h2
    | popCheckTimeout u d2 hpc ht =>
      by_cases hut : t = u
      · exfalso
        rw [hut] at h2
        simp only [Function.update_same] at h2
        cases h2
      · exfalso
        simp only [Function.update_noteq hut] at h2
        exact hne h2
    | popCheckDie u d2 hpc ht hpp =>
      by_cases hut : t = u
      · exfalso
        rw [hut] at h2
        simp only [Function.update_same] at h2
        cases h2
      · exfalso
        simp only [Function.update_noteq hut] at h2
        exact hne h2
    | popCheckRetry u d2 hpc ht hpp =>
      by_cases hut : t = u
      · exfalso
        rw [hut] at h2
        simp only [Function.update_same] at h2
        cases h2
      · exfalso
        simp only [Function.update_noteq hut] at h2
        exact hne h2
    | storeLocked u n2 d2 hpc =>
      by_cases hut : t = u
      · exfalso
        rw [hut] at h2
        simp only [Function.update_same] at h2
        cases h2
      · exfalso
        simp only [Function.update_noteq hut] at h2
        exact hne h2
    | loadTail u n2 d2 hpc =>
      by_cases hut : t = u
      · exfalso
        rw [hut] at h2
        simp only [Function.update_same] at h2
        cases h2
      · exfalso
        simp only [Function.update_noteq hut] at h2
        exact hne h2
    | casOk u n2 p2 d2 hpc hcas =>
      by_cases hut : t = u
      · exact ⟨rfl, rfl⟩
      · exfalso
        simp only [Function.update_noteq hut] at h2
        exact hne h2
    | casFail u n2 p2 d2 hpc =>
      by_cases hut : t = u
      · exfalso
        rw [hut] at h2
        simp only [Function.update_same] at h2
        cases h2
      · exfalso
        simp only [Function.update_noteq hut] at h2
        exact hne h2
    | casCheckTimeout u n2 p2 d2 hpc ht =>
      by_cases hut : t = u
      · exfalso
        rw [hut] at h2
        simp only [Function.update_same] at h2
        cases h2
      · exfalso
        simp only [Function.update_noteq hut] at h2
        exact hne h2
    | casCheckRetry u n2 p2 d2 hpc ht =>
      by_cases hut : t = u
      · exfalso
        rw [hut] at h2
        simp only [Function.update_same] at h2
        cases h2
      · exfalso
        simp only [Function.update_noteq hut] at h2
        exact hne h2
    | incrCountStep u n2 p2 d2 hpc =>
      by_cases hut : t = u
      · exfalso
        rw [hut] at h2
        simp only [Function.update_same] at h2
        cases h2
      · exfalso
        simp only [Function.update_noteq hut] at h2
        exact hne h2
    | spinTrue u n2 p2 d2 hpc hl =>
      by_cases hut : t = u
      · exfalso
        rw [hut] at h2
        simp only [Function.update_same] at h2
        cases h2
      · exfalso
        simp only [Function.update_noteq hut] at h2
        exact hne h2
    | spinFalse u n2 p2 d2 hpc hl =>
      by_cases hut : t = u
      · exfalso
        rw [hut] at h2
        simp only [Function.update_same] at h2
        cases h2
      · exfalso
        simp only [Function.update_noteq hut] at h2
        exact hne h2
    | spinCheckCont u n2 p2 d2 hpc ht =>
      by_cases hut : t = u
      · exfalso
        rw [hut] at h2
        simp only [Function.update_same] at h2
        cases h2
      · exfalso
        simp only [Function.update_noteq hut] at h2
        exact hne h2
    | spinCheckAbandon u n2 p2 d2 hpc ht =>
      by_cases hut : t = u
      · exfalso
        rw [hut] at h2
        simp only [Function.update_same] at h2
        cases h2
      · exfalso
        simp only [Function.update_noteq hut] at h2
        exact hne h2
    | abandonPredStep u n2 p2 d2 hpc =>
      by_cases hut : t = u
      · exfalso
        rw [hut] at h2
        simp only [Function.update_same] at h2
        cases h2
      · exfalso
        simp only [Function.update_noteq hut] at h2
        exact hne h2
    | abandonLockedStep u n2 p2 d2 hpc =>
      by_cases hut : t = u
      · exfalso
        rw [hut] at h2
        simp only [Function.update_same] at h2
        cases h2
      · exfalso
        simp only [Function.update_noteq hut] at h2
        exact hne h2
    | readPredPredStep u n2 p2 d2 hpc =>
      by_cases hut : t = u
      · exfalso
        rw [hut] at h2
        simp only [Function.update_same] at h2
        cases h2
      · exfalso
        simp only [Function.update_noteq hut] at h2
        exact hne h2
    | pushStep u n2 p2 a2 d2 hpc =>
      by_cases hut : t = u
      · exfalso
        rw [hut] at h2
        simp only [Function.update_same] at h2
        cases h2
      · exfalso
        simp only [Function.update_noteq hut] at h2
        exact hne h2
    | checkInheritSome u n2 p2 d2 hpc =>
      by_cases hut : t = u
      · exfalso
        rw [hut] at h2
        simp only [Function.update_same] at h2
        cases h2
      · exfalso
        simp only [Function.update_noteq hut] at h2
        exact hne h2
    | checkInheritNone u n2 d2 hpc =>
      by_cases hut : t = u
      · exfalso
        rw [hut] at h2
        simp only [Function.update_same] at h2
        cases h2
      · exfalso
        simp only [Function.update_noteq hut] at h2
        exact hne h2
    | setActiveStep u n2 hpc =>
      by_cases hut : t = u
      · exfalso
        rw [hut] at h2
        simp only [Function.update_same] at h2
        cases h2
      · exfalso
        simp only [Function.update_noteq hut] at h2
        exact hne h2
    | unlockRead u n2 hpc =>
      by_cases hut : t = u
      · exfalso
        rw [hut] at h2
        simp only [Function.update_same] at h2
        cases h2
      · exfalso
        simp only [Function.update_noteq hut] at h2
        exact hne h2
    | unlockClearPred u n2 hpc =>
      by_cases hut : t = u
      · exfalso
        rw [hut] at h2
        simp only [Function.update_same] at h2
        cases h2
      · exfalso
        simp only [Function.update_noteq hut] at h2
        exact hne h2
    | unlockRelease u n2 hpc =>
      by_cases hut : t = u
      · exfalso
        rw [hut] at h2
        simp only [Function.update_same] at h2
        cases h2
      · exfalso
        simp only [Function.update_noteq hut] at h2
        exact hne h2
    | failedIdle u hpc =>
      by_cases hut : t = u
      · exfalso
        rw [hut] at h2
        simp only [Function.update_same] at h2
        cases h2
      · exfalso
        simp only [Function.update_noteq hut] at h2
        exact hne h2

def c8s₄ : clh_mutex.CState 1 :=
  (clh_mutex.CExecRun 1 clh_mutex.Failure.retry (clh_mutex.CState.init 1)
    [clh_mutex.CAct.start 0 100, clh_mutex.CAct.go 0,
      clh_mutex.CAct.go 0, clh_mutex.CAct.go 0]).getD
    (clh_mutex.CState.init 1)

def c8s₅ : clh_mutex.CState 1 :=
  (clh_mutex.CExec 1 clh_mutex.Failure.retry c8s₄ (clh_mutex.CAct.go 0)).getD
    (clh_mutex.CState.init 1)

/-- Witness for C8 amended: the fresh `clh_mutex<1>` and the concrete tail
CAS of thread 0. -/
theorem c8_amended_witness :
    (clh_mutex.CReach 1 clh_mutex.Failure.retry (clh_mutex.CState.init 1) ∧
      clh_mutex.queue_count (clh_mutex.CState.init 1) =
        (clh_mutex.CState.init 1).counted % 2 ^ 32) ∧
    (clh_mutex.CStep 1 clh_mutex.Failure.retry c8s₄ c8s₅ ∧
      c8s₄.pcs 0 ≠ clh_mutex.CPc.incrCount 1 0 100 ∧
      c8s₅.pcs 0 = clh_mutex.CPc.incrCount 1 0 100 ∧
      (c8s₅.swapIns = c8s₄.swapIns + 1 ∧
        clh_mutex.queue_count c8s₅ = clh_mutex.queue_count c8s₄)) ∧
    ((clh_mutex.queue_count c8s₅ = clh_mutex.queue_count c8s₄ ∧
        c8s₅.counted = c8s₄.counted) ∨
      (∃ t n p d, c8s₄.pcs t = clh_mutex.CPc.incrCount n p d ∧
        c8s₅.pcs t = clh_mutex.CPc.spin n p d ∧
        clh_mutex.queue_count c8s₅ =
          (clh_mutex.queue_count c8s₄ + 1) % 2 ^ 32 ∧
        c8s₅.counted = c8s₄.counted + 1)) := by
  have hstep : clh_mutex.CStep 1 clh_mutex.Failure.retry c8s₄ c8s₅ :=
    clh_mutex.CExec_sound 1 clh_mutex.Failure.retry c8s₄ c8s₅
      (clh_mutex.CAct.go 0) rfl
  exact ⟨⟨Relation.ReflTransGen.refl,
      (c8_amended 1 clh_mutex.Failure.retry).1 (clh_mutex.CState.init 1)
        Relation.ReflTransGen.refl⟩,
    ⟨hstep, by decide, by decide,
      (c8_amended 1 clh_mutex.Failure.retry).2.2 c8s₄ c8s₅ 0 1 0 100 hstep
        (by decide) (by decide)⟩,
    (c8_amended 1 clh_mutex.Failure.retry).2.1 c8s₄ c8s₅ hstep⟩

/-- A state of `array_mutex<1>` with thread 0 about to test-and-set slot 0
while the slot is already busy. -/
def c3s : array_mutex.AState 1 :=
  { tl := 2
    value := fun _ => true
    inUse := fun _ => true
    active := 0
    pcs := fun _ => array_mutex.APc.tasPending 0
    enters := 1
    clears := 1 }

def c3s' : array_mutex.AState 1 :=
  { c3s with
    pcs := Function.update c3s.pcs 0
      (array_mutex.APc.errored exclusive.error_on_slots_exceeded) }

/-- Witness for C3: the concrete failing test-and-set of thread 0. -/
theorem c3_overflow_error_witness :
    (∀ e, (c3s.pcs 0 ≠ array_mutex.APc.errored e ∧
        c3s'.pcs 0 = array_mutex.APc.errored e) →
      e = exclusive.error_on_slots_exceeded ∧
        (∃ slot, c3s.pcs 0 = array_mutex.APc.tasPending slot ∧
          c3s.inUse slot = true) ∧
        c3s'.inUse = c3s.inUse ∧ c3s'.value = c3s.value ∧ c3s'.tl = c3s.tl ∧
        c3s'.enters = c3s.enters ∧ c3s'.active = c3s.active) ∧
    (∀ e, c3s.pcs 0 = array_mutex.APc.errored e →
      c3s'.pcs 0 = array_mutex.APc.errored e) :=
  array_mutex.c3_overflow_error 1 c3s c3s' 0
    (array_mutex.AStep.tasFail c3s 0 0 rfl rfl)
